import Mathlib

/-!
# FTP connector: poller, dedup ledger, uploader

A shallow embedding of `main.go`, `model/model.go` and `utils/utils.go`.

* Go strings are byte sequences (`GoString`).
* Go maps with string keys are association lists kept in ascending key order (`GoMap`);
  `m[k]` is `GoMap.get`, `m[k] = v` is `GoMap.set`. Every map is allocated, as the maps of
  the program are (`make`, a map literal, or the decoder).
* Calls that leave the process (`NewClientFTP`, FTP `Retr`, `os.Create`, `io.Copy`,
  `io.ReadAll`, `storage.NewClient`, `UploadFile`) take their outcome from an explicit
  argument.
* The functions of the Go standard library that the program calls (`strings.Split`,
  `fmt.Sprintf` with `%s` and `%d`, the methods `Date`, `Hour`, `Minute`, `Second` of
  `time.Unix(sec, 0).UTC()`, `json.Marshal` and `json.Unmarshal` for the type of the
  ledger) are written out after their Go implementation.
* The capacity of the channel is not part of this model: a send is taken at the moment
  it goes through. The mutex does not change what the functions compute; the calls of
  `Lock` and `Unlock` and the accesses to the ledger are listed, in program order, by
  the event traces of the section on the lock.
-/

namespace FTPConnector

/-! ## Strings and maps -/

/-- A Go `string`: a finite sequence of bytes. -/
abbrev GoString := List Nat

/-- The bytes of an ASCII literal. -/
def ascii (s : String) : GoString := s.toList.map Char.toNat

/-- Go's `<` on strings: bytewise lexicographic order. -/
def strLt : GoString → GoString → Bool
  | _, [] => false
  | [], _ :: _ => true
  | a :: as, b :: bs => decide (a < b) || (decide (a = b) && strLt as bs)

/-- A Go `map[string]V`, as an association list. -/
abbrev GoMap (V : Type) := List (GoString × V)

/-- The lookup `v, ok := m[k]`. -/
def GoMap.get {V : Type} : GoMap V → GoString → Option V
  | [], _ => none
  | (k', v) :: rest, k => if k = k' then some v else GoMap.get rest k

/-- The assignment `m[k] = v`: replaces the value of an existing key, otherwise adds the key
at its place in ascending key order. -/
def GoMap.set {V : Type} : GoMap V → GoString → V → GoMap V
  | [], k, v => [(k, v)]
  | (k', v') :: rest, k, v =>
    if k = k' then (k, v) :: rest
    else if strLt k k' then (k, v) :: (k', v') :: rest
    else (k', v') :: GoMap.set rest k v

/-- The dedup ledger `storage : map[string]map[string]uint64`
(server name, then file name, then last seen timestamp). -/
abbrev Storage := GoMap (GoMap Nat)

/-- The record of the ledger for `(serverName, fileName)`, if any:
`storage[serverName][fileName]` with both presence checks. -/
def Storage.record (storage : Storage) (serverName fileName : GoString) : Option Nat :=
  match storage.get serverName with
  | none => none
  | some inner => inner.get fileName

/-- The conversion `uint64(x)` of a signed 64-bit value. -/
def toUint64 (x : Int) : Nat := (x % 18446744073709551616).toNat

/-! ## Data model -/

/-- The entry kinds of the FTP library (`ftp.EntryType`). -/
inductive EntryType where
  | EntryTypeFile
  | EntryTypeFolder
  | EntryTypeLink
  deriving DecidableEq, Repr

/-- The method `EntryType.String()`. -/
def EntryType.String : EntryType → GoString
  | .EntryTypeFile => ascii "file"
  | .EntryTypeFolder => ascii "folder"
  | .EntryTypeLink => ascii "link"

/-- A listed remote entry (`ftp.Entry`): `Typ` is the field `Type`, `Time` is
`f.Time.Unix()`, signed seconds. -/
structure Entry where
  Name : GoString
  Typ : EntryType
  Size : Nat
  Time : Int
  deriving DecidableEq, Repr

/-- The configuration of one FTP server (`model.Server`). -/
structure Server where
  Host : GoString
  User : GoString
  Password : GoString
  ServerName : GoString
  DirPath : GoString
  FileExtension : GoString
  Sampling : Int
  RetryConnection : Int
  deriving DecidableEq, Repr

/-- The cloud storage configuration (`model.CloudStorage`). -/
structure CloudStorage where
  CredentialsPath : GoString
  ProjectID : GoString
  BucketName : GoString
  UploadPath : GoString
  RetryConnection : Int
  RetryUpload : Int
  FileUploadAttempts : Int
  ConnectionAttempts : Int
  deriving DecidableEq, Repr

/-- A transfer job (`model.FileToUpload`). -/
structure FileToUpload where
  Data : GoString
  Filename : GoString
  OriginalName : GoString
  Host : GoString
  ServerName : GoString
  deriving DecidableEq, Repr

/-! ## `utils.UpdateMap` and the detect step of the poller -/

/-- The function `utils.UpdateMap`: creates the per-server map when absent, then stores
the timestamp of the entry. -/
def UpdateMap (storage : Storage) (serverName : GoString) (f : Entry) : Storage :=
  let storage1 :=
    match storage.get serverName with
    | none => storage.set serverName []
    | some _ => storage
  match storage1.get serverName with
  | none => storage1
  | some inner => storage1.set serverName (inner.set f.Name (toUint64 f.Time))

/-- The detect step, `main.go` lines 90-121: the new ledger and the flag `getFile`. -/
def detect (storage : Storage) (clientConf : Server) (f : Entry) : Storage × Bool :=
  match storage.get clientConf.ServerName with
  | some inner =>
    match inner.get f.Name with
    | some saved =>
      if toUint64 f.Time > saved then
        (storage.set clientConf.ServerName (inner.set f.Name (toUint64 f.Time)), true)
      else
        (storage, false)
    | none =>
      (storage.set clientConf.ServerName (inner.set f.Name (toUint64 f.Time)), true)
  | none => (UpdateMap storage clientConf.ServerName f, true)

/-! ## `strings.Split`, the time of an entry and `utils.GetFilenameFormatted` -/

/-- The call `strings.Split(s, sep)` for a separator of one byte: the pieces of `s`
between the occurrences of `sep`; never empty, `[s]` when `sep` does not occur. -/
def stringsSplit : GoString → Nat → List GoString
  | [], _ => [[]]
  | c :: cs, sep =>
    if c = sep then [] :: stringsSplit cs sep
    else
      match stringsSplit cs sep with
      | [] => [[c]]
      | h :: t => (c :: h) :: t

/-- The expression `data[len(data)-1]` for `data := strings.Split(name, ".")`. -/
def lastSegment (name : GoString) : GoString :=
  (stringsSplit name 46).getLastD []

/-- The expression `strings.Split(name, ".")[0]`. -/
def firstSegment (name : GoString) : GoString :=
  (stringsSplit name 46).headD []

/-- The method `t.abs()` of `t = time.Unix(sec, 0).UTC()`: seconds since the absolute zero
year, `uint64(sec + (unixToInternal + internalToAbsolute))`. -/
def absSeconds (sec : Int) : Nat := toUint64 (sec + 9223372028715321600)

/-- The year of absolute time zero, `absoluteZeroYear`. -/
def absoluteZeroYear : Int := -292277022399

/-- The function `isLeap` of package `time`. -/
def isLeap (year : Int) : Bool :=
  decide (year % 4 = 0) && (decide (year % 100 ≠ 0) || decide (year % 400 = 0))

/-- The table `daysBefore` of package `time`: days before the start of each month
in a non-leap year. -/
def daysBefore : List Nat := [0, 31, 59, 90, 120, 151, 181, 212, 243, 273, 304, 334, 365]

/-- The first half of `absDate` of package `time`: the number of whole years since the
absolute zero year and the day within the year (from 0). -/
def absYearDay (abs : Nat) : Nat × Nat :=
  let d := abs / 86400
  let n := d / 146097
  let y := 400 * n
  let d := d - 146097 * n
  let n := d / 36524
  let n := n - n / 4
  let y := y + 100 * n
  let d := d - 36524 * n
  let n := d / 1461
  let y := y + 4 * n
  let d := d - 1461 * n
  let n := d / 365
  let n := n - n / 4
  let y := y + n
  let d := d - 365 * n
  (y, d)

/-- The second half of `absDate`: month (January is 1) and day of the month (from 1)
of the day `yday` of a year. -/
def monthDay (leap : Bool) (yday : Nat) : Nat × Nat :=
  if leap && decide (yday = 59) then (2, 29)
  else
    let day := if leap && decide (yday > 59) then yday - 1 else yday
    let month := day / 31
    let stop := daysBefore.getD (month + 1) 0
    if day ≥ stop then (month + 2, day - stop + 1)
    else (month + 1, day - daysBefore.getD month 0 + 1)

/-- The method `Date()` of `time.Unix(sec, 0).UTC()`: year, month, day. -/
def unixDate (sec : Int) : Int × Nat × Nat :=
  let yd := absYearDay (absSeconds sec)
  let year : Int := (yd.1 : Int) + absoluteZeroYear
  let md := monthDay (isLeap year) yd.2
  (year, md.1, md.2)

/-- The method `Hour()` of `time.Unix(sec, 0).UTC()`. -/
def unixHour (sec : Int) : Nat := absSeconds sec % 86400 / 3600

/-- The method `Minute()` of `time.Unix(sec, 0).UTC()`. -/
def unixMinute (sec : Int) : Nat := absSeconds sec % 3600 / 60

/-- The method `Second()` of `time.Unix(sec, 0).UTC()`. -/
def unixSecond (sec : Int) : Nat := absSeconds sec % 60

/-- The decimal digits of a number, least significant first, as ASCII bytes. -/
def decimalRev : Nat → Nat → List Nat
  | 0, _ => []
  | fuel + 1, n => if n < 10 then [48 + n] else (48 + n % 10) :: decimalRev fuel (n / 10)

/-- The verb `%d` applied to a non-negative integer. -/
def formatNat (n : Nat) : GoString := (decimalRev (n + 1) n).reverse

/-- The verb `%d` of `fmt.Sprintf` applied to an integer. -/
def formatInt (i : Int) : GoString :=
  if i < 0 then 45 :: formatNat i.natAbs else formatNat i.toNat

/-- The function `utils.GetFilenameFormatted`:
`Sprintf("%s__%d-%d-%d_%d-%d-%d.%s", fname, d, int(m), y, hh, mm, ss, extension)`. -/
def GetFilenameFormatted (file : Entry) (ext : GoString) : GoString :=
  let extension := ext
  let fname := firstSegment file.Name
  let ymd := unixDate file.Time
  let hh := unixHour file.Time
  let mm := unixMinute file.Time
  let ss := unixSecond file.Time
  fname ++ [95, 95] ++ formatNat ymd.2.2 ++ [45] ++ formatNat ymd.2.1 ++ [45]
    ++ formatInt ymd.1 ++ [95] ++ formatNat hh ++ [45] ++ formatNat mm ++ [45]
    ++ formatNat ss ++ [46] ++ extension

/-! ## `json.Marshal` of the ledger (package `encoding/json`) -/

/-- The rune `utf8.RuneError` (U+FFFD). -/
def RuneError : Nat := 65533

/-- The function `utf8.DecodeRuneInString`: the first rune of `s` and its width in bytes;
`(RuneError, 1)` when `s` does not start with a well-formed encoding. -/
def DecodeRuneInString (s : GoString) : Nat × Nat :=
  match s with
  | [] => (RuneError, 0)
  | s0 :: t =>
    if s0 < 128 then (s0, 1)
    else if s0 < 194 ∨ 244 < s0 then (RuneError, 1)
    else
      let sz := if s0 < 224 then 2 else if s0 < 240 then 3 else 4
      let lo := if s0 = 224 then 160 else if s0 = 240 then 144 else 128
      let hi := if s0 = 237 then 159 else if s0 = 244 then 143 else 191
      if t.length + 1 < sz then (RuneError, 1)
      else
        match t with
        | [] => (RuneError, 1)
        | s1 :: t1 =>
          if s1 < lo ∨ hi < s1 then (RuneError, 1)
          else if sz ≤ 2 then (s0 % 32 * 64 + s1 % 64, 2)
          else
            match t1 with
            | [] => (RuneError, 1)
            | s2 :: t2 =>
              if s2 < 128 ∨ 191 < s2 then (RuneError, 1)
              else if sz ≤ 3 then (s0 % 16 * 4096 + s1 % 64 * 64 + s2 % 64, 3)
              else
                match t2 with
                | [] => (RuneError, 1)
                | s3 :: _ =>
                  if s3 < 128 ∨ 191 < s3 then (RuneError, 1)
                  else (s0 % 8 * 262144 + s1 % 64 * 4096 + s2 % 64 * 64 + s3 % 64, 4)

/-- The digit of index `n` in `"0123456789abcdef"`. -/
def hexDigit (n : Nat) : Nat := if n < 10 then 48 + n else 87 + n

/-- The table `htmlSafeSet` of `encoding/json`: the ASCII bytes written without escape. -/
def htmlSafeSet (b : Nat) : Bool :=
  decide (32 ≤ b) && decide (b < 128) && decide (b ≠ 34) && decide (b ≠ 38)
    && decide (b ≠ 60) && decide (b ≠ 62) && decide (b ≠ 92)

/-- The escape written by `appendString` for an ASCII byte outside `htmlSafeSet`.
(Older versions of the package write the bytes 8 and 12 as `\u0008` and `\u000c`,
which the decoder reads as the same bytes.) -/
def escapeByte (b : Nat) : GoString :=
  if b = 92 ∨ b = 34 then [92, b]
  else if b = 8 then [92, 98]
  else if b = 12 then [92, 102]
  else if b = 10 then [92, 110]
  else if b = 13 then [92, 114]
  else if b = 9 then [92, 116]
  else [92, 117, 48, 48, hexDigit (b / 16), hexDigit (b % 16)]

/-- The loop of `appendString` of `encoding/json` (with `escapeHTML` set, as `json.Marshal`
does): the bytes written between the quotes. The first argument bounds the number of
rounds; the length of the string is enough. -/
def appendStringLoop : Nat → GoString → GoString
  | 0, _ => []
  | _ + 1, [] => []
  | fuel + 1, b :: rest =>
    if b < 128 then
      (if htmlSafeSet b then [b] else escapeByte b) ++ appendStringLoop fuel rest
    else
      let cs := DecodeRuneInString (b :: rest)
      if cs.1 = RuneError ∧ cs.2 = 1 then
        [92, 117, 102, 102, 102, 100] ++ appendStringLoop fuel rest
      else if cs.1 = 8232 ∨ cs.1 = 8233 then
        [92, 117, 50, 48, 50, hexDigit (cs.1 % 16)]
          ++ appendStringLoop fuel ((b :: rest).drop cs.2)
      else
        (b :: rest).take cs.2 ++ appendStringLoop fuel ((b :: rest).drop cs.2)

/-- A string as `json.Marshal` writes it. -/
def marshalString (s : GoString) : GoString :=
  [34] ++ appendStringLoop s.length s ++ [34]

/-- The members of a JSON object, separated by commas. -/
def joinMembers : List GoString → GoString
  | [] => []
  | [x] => x
  | x :: y :: rest => x ++ [44] ++ joinMembers (y :: rest)

/-- The encoding `json.Marshal` of a `map[string]uint64`: the keys in ascending order. -/
def marshalInner (m : GoMap Nat) : GoString :=
  [123] ++ joinMembers (m.map fun kv => marshalString kv.1 ++ [58] ++ formatNat kv.2) ++ [125]

/-- The encoding `json.Marshal(storage)` of the ledger. -/
def marshalStorage (storage : Storage) : GoString :=
  [123] ++ joinMembers (storage.map fun kv => marshalString kv.1 ++ [58] ++ marshalInner kv.2)
    ++ [125]

/-! ## `json.Unmarshal` into the ledger (package `encoding/json`)

The decoder is modelled on the inputs that are a JSON object whose members are JSON
objects whose members are unsigned decimal numbers below `2 ^ 64`, with any white space
between the tokens. On every other input (a syntax error, or a value of another JSON
type, which `json.Unmarshal` reports as an error) the functions below return `none`. -/

/-- The function `utf8.EncodeRune`: the bytes of a rune; a surrogate or a value above
`U+10FFFF` is written as `RuneError`. -/
def EncodeRune (r : Nat) : GoString :=
  if r ≤ 127 then [r]
  else if r ≤ 2047 then [192 + r / 64, 128 + r % 64]
  else if r > 1114111 ∨ (55296 ≤ r ∧ r ≤ 57343) then [239, 191, 189]
  else if r ≤ 65535 then [224 + r / 4096, 128 + r / 64 % 64, 128 + r % 64]
  else [240 + r / 262144, 128 + r / 4096 % 64, 128 + r / 64 % 64, 128 + r % 64]

/-- The value of a hexadecimal digit, of either case. -/
def hexValue (c : Nat) : Option Nat :=
  if 48 ≤ c ∧ c ≤ 57 then some (c - 48)
  else if 97 ≤ c ∧ c ≤ 102 then some (c - 87)
  else if 65 ≤ c ∧ c ≤ 70 then some (c - 55)
  else none

/-- The function `getu4` of `encoding/json`: the value of the escape `\uXXXX` that `s`
starts with, if it starts with one. -/
def getu4 (s : GoString) : Option Nat :=
  match s with
  | 92 :: 117 :: a :: b :: c :: d :: _ =>
    match hexValue a, hexValue b, hexValue c, hexValue d with
    | some a, some b, some c, some d => some (a * 4096 + b * 256 + c * 16 + d)
    | _, _, _, _ => none
  | _ => none

/-- The rune written by an escape `\uXXXX` of value `rr`, given what follows the escape:
the number of further bytes used and the rune. A surrogate is joined with a following
escape of a low surrogate, and is `RuneError` when none follows. -/
def escapedRune (rr : Nat) (after : GoString) : Nat × Nat :=
  if 55296 ≤ rr ∧ rr < 57344 then
    match getu4 after with
    | some rr1 =>
      if rr < 56320 ∧ 56320 ≤ rr1 ∧ rr1 < 57344 then
        (6, (rr - 55296) * 1024 + (rr1 - 56320) + 65536)
      else (0, RuneError)
    | none => (0, RuneError)
  else (0, rr)

/-- A JSON string literal read from after its opening quote, as the scanner and
`unquote` of `encoding/json` do: the string it stands for and the input after the closing
quote. The first argument bounds the number of rounds; the length of the input is
enough. -/
def unquoteLoop : Nat → GoString → Option (GoString × GoString)
  | 0, _ => none
  | _ + 1, [] => none
  | fuel + 1, c :: rest =>
    if c = 34 then some ([], rest)
    else if c = 92 then
      match rest with
      | [] => none
      | e :: rest2 =>
        if e = 117 then
          match getu4 (c :: rest) with
          | none => none
          | some rr =>
            let er := escapedRune rr (rest2.drop 4)
            match unquoteLoop fuel (rest2.drop (4 + er.1)) with
            | none => none
            | some (t, after) => some (EncodeRune er.2 ++ t, after)
        else
          let b : Option Nat :=
            if e = 34 ∨ e = 92 ∨ e = 47 then some e
            else if e = 98 then some 8
            else if e = 102 then some 12
            else if e = 110 then some 10
            else if e = 114 then some 13
            else if e = 116 then some 9
            else none
          match b with
          | none => none
          | some b =>
            match unquoteLoop fuel rest2 with
            | none => none
            | some (t, after) => some (b :: t, after)
    else if c < 32 then none
    else if c < 128 then
      match unquoteLoop fuel rest with
      | none => none
      | some (t, after) => some (c :: t, after)
    else
      let cs := DecodeRuneInString (c :: rest)
      match unquoteLoop fuel ((c :: rest).drop cs.2) with
      | none => none
      | some (t, after) => some (EncodeRune cs.1 ++ t, after)

/-- The white space of JSON skipped. -/
def skipSpace : GoString → GoString
  | [] => []
  | c :: rest => if c = 32 ∨ c = 9 ∨ c = 13 ∨ c = 10 then skipSpace rest else c :: rest

/-- The decimal digits that the input starts with, and the rest. -/
def spanDigits : GoString → GoString × GoString
  | [] => ([], [])
  | c :: rest =>
    if 48 ≤ c ∧ c ≤ 57 then ((c :: (spanDigits rest).1), (spanDigits rest).2)
    else ([], c :: rest)

/-- The number written by decimal digits, most significant first. -/
def digitsValue (ds : List Nat) : Nat := ds.foldl (fun acc d => 10 * acc + (d - 48)) 0

/-- A JSON number stored in a `uint64` (`strconv.ParseUint(s, 10, 64)`): digits without
a leading zero, a value below `2 ^ 64`. -/
def parseUint64 (s : GoString) : Option (Nat × GoString) :=
  let ds := spanDigits s
  if ds.1 = [] then none
  else if ds.1.length > 1 ∧ ds.1.head? = some 48 then none
  else if digitsValue ds.1 ≥ 18446744073709551616 then none
  else some (digitsValue ds.1, ds.2)

/-- The members of an object of numbers, read from after `{` or `,` up to the closing
`}` and stored in a `map[string]uint64`. -/
def parseInnerMembers : Nat → GoString → GoMap Nat → Option (GoMap Nat × GoString)
  | 0, _, _ => none
  | fuel + 1, s, m =>
    match skipSpace s with
    | 34 :: s1 =>
      match unquoteLoop s1.length s1 with
      | none => none
      | some (key, s2) =>
        match skipSpace s2 with
        | 58 :: s3 =>
          match parseUint64 (skipSpace s3) with
          | none => none
          | some (v, s4) =>
            match skipSpace s4 with
            | 44 :: s5 => parseInnerMembers fuel s5 (m.set key v)
            | 125 :: s5 => some (m.set key v, s5)
            | _ => none
        | _ => none
    | _ => none

/-- An object of numbers decoded into a new `map[string]uint64`. -/
def parseInner (s : GoString) : Option (GoMap Nat × GoString) :=
  match skipSpace s with
  | 123 :: s1 =>
    match skipSpace s1 with
    | 125 :: s2 => some ([], s2)
    | _ => parseInnerMembers s1.length s1 []
  | _ => none

/-- The members of the outer object, read from after `{` or `,` up to the closing `}` and
stored in `storage`; each value is decoded into a new map. -/
def parseStorageMembers : Nat → GoString → Storage → Option (Storage × GoString)
  | 0, _, _ => none
  | fuel + 1, s, storage =>
    match skipSpace s with
    | 34 :: s1 =>
      match unquoteLoop s1.length s1 with
      | none => none
      | some (key, s2) =>
        match skipSpace s2 with
        | 58 :: s3 =>
          match parseInner s3 with
          | none => none
          | some (v, s4) =>
            match skipSpace s4 with
            | 44 :: s5 => parseStorageMembers fuel s5 (storage.set key v)
            | 125 :: s5 => some (storage.set key v, s5)
            | _ => none
        | _ => none
    | _ => none

/-- The call `json.Unmarshal(b, &storage)` for a map `storage` that is not nil: the map
after the call, which keeps the entries it had. -/
def unmarshalStorage (b : GoString) (storage : Storage) : Option Storage :=
  match skipSpace b with
  | 123 :: s1 =>
    match skipSpace s1 with
    | 125 :: s2 => if skipSpace s2 = [] then some storage else none
    | _ =>
      match parseStorageMembers s1.length s1 storage with
      | none => none
      | some (m, s2) => if skipSpace s2 = [] then some m else none
  | _ => none

/-- The function `utils.LoadInfoDownloadedFile`, given the content `b` of
`./log/log.json` (empty when the file cannot be read): `none` stands for a content
outside the inputs the decoder is modelled on. -/
def LoadInfoDownloadedFile (b : GoString) (storage : Storage) : Option Storage :=
  if b.length > 0 then unmarshalStorage b storage else some storage

/-- The function `utf8.ValidString`, with a bound on the number of rounds; the length of
the string is enough. -/
def validLoop : Nat → GoString → Bool
  | 0, s => decide (s = [])
  | _ + 1, [] => true
  | fuel + 1, b :: rest =>
    let cs := DecodeRuneInString (b :: rest)
    if cs.1 = RuneError ∧ cs.2 = 1 then false
    else validLoop fuel ((b :: rest).drop cs.2)

/-- The function `utf8.ValidString`: whether the string is well-formed UTF-8. -/
def ValidString (s : GoString) : Bool := validLoop s.length s

/-- Whether the keys of a map are in strictly ascending order, as `GoMap.set` keeps
them. -/
def GoMap.sorted {V : Type} : GoMap V → Bool
  | [] => true
  | (k, _) :: rest => rest.all (fun kv => strLt k kv.1) && GoMap.sorted rest

/-- A ledger as the program builds it, with names that are well-formed UTF-8: the keys of
every map in ascending order and the timestamps below `2 ^ 64`. -/
def Storage.wellFormed (storage : Storage) : Bool :=
  GoMap.sorted storage
    && storage.all fun kv =>
        ValidString kv.1 && GoMap.sorted kv.2
          && kv.2.all fun fv => ValidString fv.1 && decide (fv.2 < 18446744073709551616)

/-! ## The poller -/

/-- What the calls that leave the process return while one listed file is handled:
`client.Retr` (the content, or `none` for an error), `os.Create`, `io.Copy`, `io.ReadAll`
(`true` for success). -/
structure FileOutcome where
  retr : Option GoString
  create : Bool
  copy : Bool
  readAll : Bool
  deriving DecidableEq, Repr

/-- Where `CloudStorageUpload` stands. -/
inductive UploaderStatus where
  /-- Not started by `main` (the cloud storage client could not be created). -/
  | notStarted
  /-- In the loop `for obj := range ch`. -/
  | running
  /-- Inside `getAllFilesFromChannel`, waiting to receive from the empty channel, with the
  map filled so far. -/
  | blockedInDrain (m : GoMap (List GoString))
  /-- Returned (`return` after starting `saveFilesLocallyFromChannel`). -/
  | returned
  deriving DecidableEq, Repr

/-- The state shared by the goroutines of `main`, with the logs of the calls made. -/
structure World where
  /-- The ledger `storage`. -/
  storage : Storage
  /-- The flag `uploadFiles` (`*upload`). -/
  uploadFiles : Bool
  /-- The content of `fileChannel`, oldest first. -/
  fileChannel : List FileToUpload
  /-- The file `./log/log.json`. -/
  logJson : GoString
  /-- The calls `client.Retr`, in order: server name and file name. -/
  retrLog : List (GoString × GoString)
  /-- The paths created with `os.Create` by the pollers, in order. -/
  created : List GoString
  /-- The calls `client.UploadFile`, in order. -/
  uploadLog : List FileToUpload
  /-- The values assigned to `*upload` by `CloudStorageUpload`, in order. -/
  flagLog : List Bool
  /-- Where `CloudStorageUpload` stands. -/
  uploader : UploaderStatus
  /-- The map handed to `saveFilesLocallyFromChannel`, once that task is started. -/
  filesToSaveLocally : Option (GoMap (List GoString))
  deriving DecidableEq, Repr

/-- The extension filter of `main.go` line 88. -/
def extensionMatches (clientConf : Server) (f : Entry) : Bool :=
  decide (lastSegment f.Name = clientConf.FileExtension)
    || decide (clientConf.FileExtension = ascii "*")

/-- The body of `for _, f := range files` (`main.go` lines 83-177) for one listed entry.
The second component tells whether the body left through `goto NEXT`. The send
`fileChannel <- ...` appends the job to the content of the channel. -/
def loopBody (clientConf : Server) (w : World) (f : Entry) (out : FileOutcome) :
    World × Bool :=
  if f.Typ.String = ascii "file" then
    if extensionMatches clientConf f then
      let dg := detect w.storage clientConf f
      let w1 := { w with storage := dg.1 }
      if dg.2 then
        let w2 := { w1 with retrLog := w1.retrLog ++ [(clientConf.ServerName, f.Name)] }
        match out.retr with
        | none => (w2, true)
        | some data =>
          if !w2.uploadFiles then
            if !out.create then (w2, true)
            else
              let w3 := { w2 with created := w2.created ++
                [ascii "./files/" ++ clientConf.ServerName ++ ascii "/"
                  ++ GetFilenameFormatted f clientConf.FileExtension] }
              if !out.copy then (w3, true) else (w3, false)
          else
            if !out.readAll then (w2, true)
            else
              let fileExtension := lastSegment f.Name
              ({ w2 with fileChannel := w2.fileChannel ++
                  [{ Data := data
                     Filename := GetFilenameFormatted f fileExtension
                     OriginalName := f.Name
                     Host := clientConf.Host
                     ServerName := clientConf.ServerName }] }, false)
      else (w1, false)
    else (w, false)
  else (w, false)

/-- The loop `for _, f := range files`: stops at the first body that leaves through
`goto NEXT`. -/
def pollFiles (clientConf : Server) : World → List (Entry × FileOutcome) → World
  | w, [] => w
  | w, (f, out) :: rest =>
    match loopBody clientConf w f out with
    | (w1, true) => w1
    | (w1, false) => pollFiles clientConf w1 rest

/-- The function `utils.SaveFilesInfo`, for a run in which the file can be written. -/
def SaveFilesInfo (w : World) : World :=
  { w with logJson := marshalStorage w.storage }

/-- One round of the loop of a poller up to the sleep: `listing` is what `client.List`
returns (`none` for an error), each entry with the outcome of its calls. -/
def pollCycle (clientConf : Server) (w : World)
    (listing : Option (List (Entry × FileOutcome))) : World :=
  match listing with
  | none => SaveFilesInfo w
  | some files => SaveFilesInfo (pollFiles clientConf w files)

/-! ## The uploader (`model.CloudStorageUpload`) -/

/-- The result of `getAllFilesFromChannel`. -/
inductive DrainResult where
  /-- The function returned, with this map. -/
  | returned (m : GoMap (List GoString))
  /-- The function is waiting in `range ch` for a value to receive, with this map so far. -/
  | blocked (m : GoMap (List GoString))
  deriving DecidableEq, Repr

/-- The statement `m[serverName] = append(m[serverName], originalName)`. -/
def appendName (m : GoMap (List GoString)) (serverName originalName : GoString) :
    GoMap (List GoString) :=
  m.set serverName ((m.get serverName).getD [] ++ [originalName])

/-- The number of names that a map of server names to lists of file names holds. -/
def namesCount (m : GoMap (List GoString)) : Nat := (m.map fun kv => kv.2.length).sum

/-- The function `getAllFilesFromChannel` run on the content `ch` of the channel, oldest
first, while nothing else is sent: `range ch` receives the head (and waits when there is
none), and `len(ch) == 0` is tested after each receive. -/
def getAllFilesFromChannel : List FileToUpload → GoMap (List GoString) → DrainResult
  | [], m => .blocked m
  | f :: rest, m =>
    let m1 := appendName m f.ServerName f.OriginalName
    if rest.length = 0 then .returned m1 else getAllFilesFromChannel rest m1

/-- The inner loop `for` of `CloudStorageUpload` (lines 141-175) for the job `obj`:
`uploadOk i` is the outcome of the call number `i` of `client.UploadFile` (from 0),
`log` the calls made so far. Returns whether the job was uploaded and the new log;
`none` when the rounds allowed by the first argument do not end the loop. -/
def uploadAttempts (cs : CloudStorage) (uploadOk : Nat → Bool) (obj : FileToUpload) :
    Nat → Int → List FileToUpload → Option (Bool × List FileToUpload)
  | 0, _, _ => none
  | fuel + 1, attempts, log =>
    if uploadOk log.length then some (true, log ++ [obj])
    else if attempts = cs.FileUploadAttempts then some (false, log ++ [obj])
    else uploadAttempts cs uploadOk obj fuel (attempts + 1) (log ++ [obj])

/-- The body of `for obj := range ch` (lines 140-175) for the received job `obj`;
`w.fileChannel` is what the channel holds after the receive. -/
def uploadJob (cs : CloudStorage) (uploadOk : Nat → Bool) (fuel : Nat) (w : World)
    (obj : FileToUpload) : Option World :=
  match uploadAttempts cs uploadOk obj fuel 1 w.uploadLog with
  | none => none
  | some (true, log) => some { w with uploadLog := log }
  | some (false, log) =>
    let w1 := { w with uploadLog := log, uploadFiles := false, flagLog := w.flagLog ++ [false] }
    let filesToSaveLocally := appendName [] obj.ServerName obj.OriginalName
    match getAllFilesFromChannel w1.fileChannel filesToSaveLocally with
    | .blocked m => some { w1 with fileChannel := [], uploader := .blockedInDrain m }
    | .returned m =>
      some { w1 with fileChannel := [], uploader := .returned, filesToSaveLocally := some m }

/-- The function `CloudStorageUpload` run on the content `ch` of the channel, oldest
first, while nothing else is sent. With the channel empty it waits in `range ch`
(status `running`). -/
def CloudStorageUpload (cs : CloudStorage) (uploadOk : Nat → Bool) (fuel : Nat) :
    List FileToUpload → World → Option World
  | [], w => some { w with fileChannel := [] }
  | obj :: rest, w =>
    match uploadJob cs uploadOk fuel { w with fileChannel := rest } obj with
    | none => none
    | some w1 =>
      if w1.uploader = .running then CloudStorageUpload cs uploadOk fuel rest w1
      else some w1

/-- What `saveFilesLocallyFromChannel` has done so far. -/
structure SaveState where
  /-- The number of calls of `utils.NewClientFTP`. -/
  clients : Nat
  /-- The calls `ftpClient.Retr`, in order: server name and file name. -/
  retrLog : List (GoString × GoString)
  /-- The paths at which `os.Create` made a file, in order. -/
  created : List GoString
  /-- Whether the task ended in a run-time panic (a nil pointer dereference), which ends
  the process. -/
  panicked : Bool
  deriving DecidableEq, Repr

/-- The loop `for _, filename := range m[serverName]` (`model.go` lines 215-236).
`clientOk` tells whether `NewClientFTP` returned a client, and `outcome n` gives what
`Retr`, `os.Create` and `io.Copy` return for the call number `n` of `Retr` (from 0).
Every error is printed and the body goes on. With no client, `ftpClient` is `nil` and
the call of `Retr` panics. After a failed `Retr` the file is still created and `reader`
is `nil`, so that `io.Copy` panics (`reader.Close()` does, when `os.Create` failed as
well). After a failed `os.Create` alone, `io.Copy` and `outFile.Close()` return an error
and the loop goes on. -/
def saveFilesOfServer (clientConf : Server) (clientOk : Bool) (outcome : Nat → FileOutcome) :
    List GoString → SaveState → SaveState
  | [], s => s
  | filename :: rest, s =>
    let out := outcome s.retrLog.length
    let s1 := { s with retrLog := s.retrLog ++ [(clientConf.ServerName, filename)] }
    if !clientOk then { s1 with panicked := true }
    else
      let s2 :=
        if out.create then
          { s1 with created := s1.created ++
              [ascii "./files/" ++ clientConf.ServerName ++ ascii "/" ++ filename] }
        else s1
      match out.retr with
      | none => { s2 with panicked := true }
      | some _ => saveFilesOfServer clientConf clientOk outcome rest s2

/-- The loop `for _, clientConf := range clientsConf` (lines 205-239) for the key
`serverName` of the map and its list `names`: `newClientOk n` is the outcome of the call
number `n` of `utils.NewClientFTP` (from 0), for a run in which that call returns. -/
def saveFilesOfKey (newClientOk : Nat → Bool) (outcome : Nat → FileOutcome)
    (serverName : GoString) (names : List GoString) : List Server → SaveState → SaveState
  | [], s => s
  | clientConf :: rest, s =>
    if serverName = clientConf.ServerName then
      let s1 := saveFilesOfServer clientConf (newClientOk s.clients) outcome names
        { s with clients := s.clients + 1 }
      if s1.panicked then s1
      else saveFilesOfKey newClientOk outcome serverName names rest s1
    else saveFilesOfKey newClientOk outcome serverName names rest s

/-- The loop `for serverName := range m` (lines 204-240). The entries of `m` are taken
in the order of the list: Go leaves the order of `range m` open, and `m` stands for the
map with its entries in the order in which they are visited. -/
def saveFilesLoop (clientsConf : List Server) (newClientOk : Nat → Bool)
    (outcome : Nat → FileOutcome) : GoMap (List GoString) → SaveState → SaveState
  | [], s => s
  | (serverName, names) :: rest, s =>
    let s1 := saveFilesOfKey newClientOk outcome serverName names clientsConf s
    if s1.panicked then s1
    else saveFilesLoop clientsConf newClientOk outcome rest s1

/-- The function `saveFilesLocallyFromChannel` for the configured servers `clientsConf`
(read again from `auth/conf.json`) and the map `m`. -/
def saveFilesLocallyFromChannel (clientsConf : List Server) (m : GoMap (List GoString))
    (newClientOk : Nat → Bool) (outcome : Nat → FileOutcome) : SaveState :=
  saveFilesLoop clientsConf newClientOk outcome m
    { clients := 0, retrLog := [], created := [], panicked := false }

/-! ## The process: `main` and the steps of its goroutines -/

/-- The state in which `main` starts the goroutines: `storage` as loaded and
`clientStorageErr` telling whether `NewClientCloudStorage` failed. -/
def mainInit (storage : Storage) (clientStorageErr : Bool) : World :=
  { storage := storage
    uploadFiles := !clientStorageErr
    fileChannel := []
    logJson := []
    retrLog := []
    created := []
    uploadLog := []
    flagLog := []
    uploader := if clientStorageErr then .notStarted else .running
    filesToSaveLocally := none }

/-- The uploader waiting in `getAllFilesFromChannel` with the map `m` goes on once the
channel holds something. -/
def resumeDrain (w : World) (m : GoMap (List GoString)) : World :=
  match getAllFilesFromChannel w.fileChannel m with
  | .blocked m1 => { w with fileChannel := [], uploader := .blockedInDrain m1 }
  | .returned m1 =>
    { w with fileChannel := [], uploader := .returned, filesToSaveLocally := some m1 }

/-- One step of one goroutine: a poller handles one listed entry, a poller saves the
ledger, the uploader receives one job and handles it, or the uploader goes on with the
drain it was waiting in. -/
inductive Step (cs : CloudStorage) : World → World → Prop where
  | poll (clientConf : Server) (w : World) (f : Entry) (out : FileOutcome) :
      Step cs w (loopBody clientConf w f out).1
  | save (w : World) : Step cs w (SaveFilesInfo w)
  | upload (uploadOk : Nat → Bool) (fuel : Nat) (w w1 : World) (obj : FileToUpload)
      (rest : List FileToUpload) :
      w.uploader = .running → w.fileChannel = obj :: rest →
      uploadJob cs uploadOk fuel { w with fileChannel := rest } obj = some w1 →
      Step cs w w1
  | drain (w : World) (m : GoMap (List GoString)) :
      w.uploader = .blockedInDrain m → w.fileChannel ≠ [] → Step cs w (resumeDrain w m)

/-- A run of the process: a finite sequence of steps. -/
inductive Run (cs : CloudStorage) : World → World → Prop where
  | done (w : World) : Run cs w w
  | next (w w1 w2 : World) : Run cs w w1 → Step cs w1 w2 → Run cs w w2

/-! ## `model.NewClientCloudStorage` -/

/-- The loop of `NewClientCloudStorage` (`model.go` lines 79-96): `newClientOk n` is the
outcome of the call number `n` of `storage.NewClient` (from 0), `i` the counter of the
source and `calls` the number of calls made so far. Returns whether a client is returned
(`true` for `(client, nil)`, `false` for `(nil, err)`) and the number of calls made;
`none` when the rounds allowed by the first argument do not end the loop. -/
def newClientLoop (cs : CloudStorage) (newClientOk : Nat → Bool) :
    Nat → Int → Nat → Option (Bool × Nat)
  | 0, _, _ => none
  | fuel + 1, i, calls =>
    if !newClientOk calls then
      if i = cs.ConnectionAttempts then some (false, calls + 1)
      else newClientLoop cs newClientOk fuel (i + 1) (calls + 1)
    else some (true, calls + 1)

/-- The function `NewClientCloudStorage`: the counter `i` starts at 0. -/
def NewClientCloudStorage (cs : CloudStorage) (newClientOk : Nat → Bool) (fuel : Nat) :
    Option (Bool × Nat) :=
  newClientLoop cs newClientOk fuel 0 0

/-! ## The lock: events of one round of a poller -/

/-- The accesses of a poller to the ledger. -/
inductive LedgerAccess where
  /-- The check `_, ok := storage[serverName]`. -/
  | hostPresent
  /-- The check `_, ok := storage[serverName][f.Name]`. -/
  | filePresent
  /-- The comparison `uint64(f.Time.Unix()) > storage[serverName][f.Name]`. -/
  | timestampCompare
  /-- The assignment `storage[serverName] = map[string]uint64{}`. -/
  | hostCreate
  /-- The assignment `storage[serverName][f.Name] = uint64(f.Time.Unix())`. -/
  | timestampStore
  /-- The call `json.Marshal(storage)`. -/
  | snapshot
  deriving DecidableEq, Repr

/-- What a poller does with the mutex and the ledger. -/
inductive Event where
  /-- The call `m.Lock()`. -/
  | lock
  /-- The call `m.Unlock()`. -/
  | unlock
  /-- A read of the ledger. -/
  | read (what : LedgerAccess)
  /-- A write of the ledger. -/
  | write (what : LedgerAccess)
  deriving DecidableEq, Repr

/-- The events of `utils.UpdateMap` (`utils.go` lines 162-168). -/
def UpdateMapEvents (storage : Storage) (serverName : GoString) : List Event :=
  [.lock, .read .hostPresent]
    ++ (match storage.get serverName with
        | none => [.write .hostCreate]
        | some _ => [])
    ++ [.write .timestampStore, .unlock]

/-- The events of the detect step (`main.go` lines 90-121), in program order. -/
def detectEvents (storage : Storage) (clientConf : Server) (f : Entry) : List Event :=
  .read .hostPresent ::
    match storage.get clientConf.ServerName with
    | some inner =>
      .read .filePresent ::
        match inner.get f.Name with
        | some saved =>
          .read .timestampCompare ::
            if toUint64 f.Time > saved then [.lock, .write .timestampStore, .unlock]
            else []
        | none => [.lock, .write .timestampStore, .unlock]
    | none => UpdateMapEvents storage clientConf.ServerName

/-- The events of `utils.SaveFilesInfo` (`utils.go` lines 128-141), for a run in which the
file can be written. -/
def SaveFilesInfoEvents : List Event := [.lock, .read .snapshot, .unlock]

/-- The events of the body of `for _, f := range files` for one listed entry. -/
def loopBodyEvents (clientConf : Server) (w : World) (f : Entry) : List Event :=
  if f.Typ.String = ascii "file" then
    if extensionMatches clientConf f then detectEvents w.storage clientConf f else []
  else []

/-- The events of the loop `for _, f := range files`, which stops at the first body that
leaves through `goto NEXT`. -/
def pollFilesEvents (clientConf : Server) : World → List (Entry × FileOutcome) → List Event
  | _, [] => []
  | w, (f, out) :: rest =>
    loopBodyEvents clientConf w f ++
      match loopBody clientConf w f out with
      | (_, true) => []
      | (w1, false) => pollFilesEvents clientConf w1 rest

/-- The events of one round of the loop of a poller up to the sleep. -/
def pollCycleEvents (clientConf : Server) (w : World)
    (listing : Option (List (Entry × FileOutcome))) : List Event :=
  match listing with
  | none => SaveFilesInfoEvents
  | some files => pollFilesEvents clientConf w files ++ SaveFilesInfoEvents

/-- A trace checked against the lock, from the state `held` of the mutex: `none` when an
event that `guarded` selects happens while the poller does not hold the mutex, otherwise
the state of the mutex at the end. -/
def checkTrace (guarded : Event → Bool) : Bool → List Event → Option Bool
  | held, [] => some held
  | held, e :: es =>
    match e with
    | .lock => checkTrace guarded true es
    | .unlock => checkTrace guarded false es
    | _ => if guarded e && !held then none else checkTrace guarded held es

/-- Every read and every write of the ledger. -/
def anyAccess : Event → Bool
  | .read _ => true
  | .write _ => true
  | _ => false

/-- The writes of the ledger and the snapshot. -/
def writeOrSnapshot : Event → Bool
  | .write _ => true
  | .read .snapshot => true
  | _ => false

/-! ## Sample data -/

/-- A server `alpha` whose filter is the extension `csv`. -/
def alphaCsv : Server :=
  { Host := ascii "10.0.0.1", User := ascii "u", Password := ascii "p"
    ServerName := ascii "alpha", DirPath := ascii "in", FileExtension := ascii "csv"
    Sampling := 1000, RetryConnection := 1000 }

/-- The server `alpha` with the filter `*`. -/
def alphaAny : Server := { alphaCsv with FileExtension := ascii "*" }

/-- A listed file with the given name and time. -/
def fileEntry (name : String) (time : Int) : Entry :=
  { Name := ascii name, Typ := .EntryTypeFile, Size := 3, Time := time }

/-- Every call succeeds and `Retr` delivers three bytes. -/
def allOk : FileOutcome := { retr := some [1, 2, 3], create := true, copy := true, readAll := true }

/-- The call `client.Retr` fails. -/
def retrFails : FileOutcome := { retr := none, create := true, copy := true, readAll := true }

/-- Whether every call of an outcome succeeds. -/
def FileOutcome.ok (out : FileOutcome) : Bool :=
  out.retr.isSome && out.create && out.copy && out.readAll

/-- A job built from a server name and a file name. -/
def jobOf (server name : String) : FileToUpload :=
  { Data := [1, 2, 3], Filename := ascii name, OriginalName := ascii name
    Host := ascii "10.0.0.1", ServerName := ascii server }

/-- A cloud storage configuration with the given ceiling of upload attempts per file. -/
def cloudConf (fileUploadAttempts : Int) : CloudStorage :=
  { CredentialsPath := [], ProjectID := [], BucketName := ascii "bucket"
    UploadPath := ascii "FTP", RetryConnection := 1000, RetryUpload := 1000
    FileUploadAttempts := fileUploadAttempts, ConnectionAttempts := 3 }

/-- The state after a poller of `alpha` has handled the new file `a.csv` at the start of
`main`: the job is in the channel. -/
def afterFirstPoll : World :=
  (loopBody alphaCsv (mainInit [] false) (fileEntry "a.csv" 100) allOk).1

/-- The job sent for `a.csv`. -/
def sentJob : FileToUpload :=
  { Data := [1, 2, 3], Filename := ascii "a__1-1-1970_0-1-40.csv"
    OriginalName := ascii "a.csv", Host := ascii "10.0.0.1", ServerName := ascii "alpha" }

/-- The state after the uploader has received that job and given up on it (ceiling 1,
the upload fails). -/
def afterGiveUp : World :=
  (uploadJob (cloudConf 1) (fun _ => false) 1 { afterFirstPoll with fileChannel := [] }
    sentJob).getD (mainInit [] false)

/-- The state after a poller has then handled the new file `b.csv`. -/
def afterSecondPoll : World :=
  (loopBody alphaCsv afterGiveUp (fileEntry "b.csv" 100) allOk).1

/-! ## Theorems -/

theorem GoMap.get_set_same {V : Type} (m : GoMap V) (k : GoString) (v : V) :
    (m.set k v).get k = some v := by
  induction m with
  | nil => simp [GoMap.set, GoMap.get]
  | cons p rest ih =>
    obtain ⟨k', v'⟩ := p
    by_cases h : k = k'
    · simp [GoMap.set, GoMap.get, h]
    · by_cases h2 : strLt k k' = true
      · simp [GoMap.set, GoMap.get, h, h2]
      · simp [GoMap.set, GoMap.get, h, h2, ih]

theorem GoMap.get_set_other {V : Type} (m : GoMap V) (k k2 : GoString) (v : V) (hne : k2 ≠ k) :
    (m.set k v).get k2 = m.get k2 := by
  induction m with
  | nil => simp [GoMap.set, GoMap.get, hne]
  | cons p rest ih =>
    obtain ⟨k', v'⟩ := p
    by_cases h : k = k'
    · subst h
      simp [GoMap.set, GoMap.get, hne]
    · by_cases h2 : strLt k k' = true
      · simp [GoMap.set, GoMap.get, h, h2, hne]
      · by_cases h3 : k2 = k'
        · simp [GoMap.set, GoMap.get, h, h2, h3]
        · simp [GoMap.set, GoMap.get, h, h2, h3, ih]

theorem strLt_irrefl (a : GoString) : strLt a a = false := by
  induction a with
  | nil => rfl
  | cons x xs ih => simp [strLt, ih]

theorem strLt_asymm : ∀ a b : GoString, strLt a b = true → strLt b a = false := by
  intro a
  induction a with
  | nil =>
    intro b _
    cases b <;> rfl
  | cons x xs ih =>
    intro b h
    cases b with
    | nil => simp [strLt] at h
    | cons y ys =>
      simp only [strLt, Bool.or_eq_true, decide_eq_true_eq, Bool.and_eq_true] at h
      rcases h with h | ⟨h1, h2⟩
      · have h1 : ¬ y < x := by omega
        have h2 : ¬ y = x := by omega
        simp [strLt, h1, h2]
      · subst h1
        simp [strLt, ih ys h2]

theorem strLt_trans : ∀ a b c : GoString, strLt a b = true → strLt b c = true →
    strLt a c = true := by
  intro a
  induction a with
  | nil =>
    intro b c hab hbc
    cases c with
    | nil => cases b <;> simp [strLt] at hbc
    | cons z zs => rfl
  | cons x xs ih =>
    intro b c hab hbc
    cases b with
    | nil => simp [strLt] at hab
    | cons y ys =>
      cases c with
      | nil => simp [strLt] at hbc
      | cons z zs =>
        simp only [strLt, Bool.or_eq_true, decide_eq_true_eq, Bool.and_eq_true] at hab hbc ⊢
        rcases hab with hab | ⟨e1, hab⟩ <;> rcases hbc with hbc | ⟨e2, hbc⟩
        · exact Or.inl (by omega)
        · exact Or.inl (by omega)
        · exact Or.inl (by omega)
        · exact Or.inr ⟨by omega, ih ys zs hab hbc⟩

theorem strLt_total : ∀ a b : GoString, a ≠ b → strLt a b = false → strLt b a = true := by
  intro a
  induction a with
  | nil =>
    intro b hne h
    cases b with
    | nil => exact absurd rfl hne
    | cons y ys => simp [strLt] at h
  | cons x xs ih =>
    intro b hne h
    cases b with
    | nil => rfl
    | cons y ys =>
      simp only [strLt, Bool.or_eq_false_iff, decide_eq_false_iff_not, Bool.and_eq_false_imp,
        decide_eq_true_eq] at h
      simp only [strLt, Bool.or_eq_true, decide_eq_true_eq, Bool.and_eq_true]
      by_cases e : x = y
      · subst e
        refine Or.inr ⟨rfl, ih ys (fun e2 => hne (by rw [e2])) (h.2 rfl)⟩
      · exact Or.inl (by omega)

theorem GoMap.get_mem {V : Type} (m : GoMap V) (k : GoString) (v : V)
    (h : m.get k = some v) : (k, v) ∈ m := by
  induction m with
  | nil => simp [GoMap.get] at h
  | cons a rest ih =>
    obtain ⟨k2, v2⟩ := a
    unfold GoMap.get at h
    split_ifs at h with e
    · simp only [Option.some.injEq] at h
      subst e h
      exact List.mem_cons_self _ _
    · exact List.mem_cons_of_mem _ (ih h)

theorem GoMap.mem_set {V : Type} (m : GoMap V) (k : GoString) (v : V) :
    ∀ p ∈ m.set k v, p ∈ m ∨ p = (k, v) := by
  induction m with
  | nil => simp [GoMap.set]
  | cons a rest ih =>
    obtain ⟨k2, v2⟩ := a
    intro p hp
    unfold GoMap.set at hp
    split_ifs at hp with h1 h2
    · rcases List.mem_cons.mp hp with e | hp
      · exact Or.inr e
      · exact Or.inl (List.mem_cons_of_mem _ hp)
    · rcases List.mem_cons.mp hp with e | hp
      · exact Or.inr e
      · exact Or.inl hp
    · rcases List.mem_cons.mp hp with e | hp
      · exact Or.inl (by rw [e]; exact List.mem_cons_self _ _)
      · rcases ih p hp with h | h
        · exact Or.inl (List.mem_cons_of_mem _ h)
        · exact Or.inr h

theorem GoMap.set_append_last {V : Type} (m : GoMap V) (k : GoString) (v : V)
    (h : ∀ kv ∈ m, strLt kv.1 k = true) : m.set k v = m ++ [(k, v)] := by
  induction m with
  | nil => rfl
  | cons p rest ih =>
    obtain ⟨k2, v2⟩ := p
    have hp : strLt k2 k = true := h (k2, v2) (by simp)
    have h1 : ¬ k = k2 := by
      intro e
      subst e
      rw [strLt_irrefl] at hp
      exact Bool.noConfusion hp
    have h2 : strLt k k2 = false := strLt_asymm _ _ hp
    simp only [GoMap.set, h1, if_false, h2, Bool.false_eq_true, List.cons_append,
      List.cons.injEq, true_and]
    exact ih (fun kv hkv => h kv (List.mem_cons_of_mem _ hkv))

theorem GoMap.sorted_append {V : Type} (pre post : GoMap V) (h : GoMap.sorted (pre ++ post) = true) :
    (∀ p ∈ pre, ∀ q ∈ post, strLt p.1 q.1 = true) ∧ GoMap.sorted post = true := by
  induction pre with
  | nil => exact ⟨by simp, h⟩
  | cons a pre ih =>
    obtain ⟨k, v⟩ := a
    simp only [List.cons_append, GoMap.sorted, Bool.and_eq_true, List.all_eq_true,
      List.mem_append] at h
    obtain ⟨h1, h2⟩ := h
    obtain ⟨ih1, ih2⟩ := ih h2
    refine ⟨?_, ih2⟩
    intro p hp q hq
    rcases List.mem_cons.mp hp with e | hp
    · subst e
      exact h1 q (List.mem_append.mpr (Or.inr hq))
    · exact ih1 p hp q hq

/-- The assignment `m[k] = v` keeps the keys in ascending order. -/
theorem GoMap.sorted_set {V : Type} (m : GoMap V) (k : GoString) (v : V)
    (h : GoMap.sorted m = true) : GoMap.sorted (m.set k v) = true := by
  induction m with
  | nil => simp [GoMap.set, GoMap.sorted]
  | cons a rest ih =>
    obtain ⟨k2, v2⟩ := a
    simp only [GoMap.sorted, Bool.and_eq_true, List.all_eq_true] at h
    obtain ⟨h1, h2⟩ := h
    unfold GoMap.set
    split_ifs with e1 e2
    · subst e1
      simp only [GoMap.sorted, Bool.and_eq_true, List.all_eq_true]
      exact ⟨h1, h2⟩
    · simp only [GoMap.sorted, Bool.and_eq_true, List.all_eq_true, List.mem_cons]
      refine ⟨?_, h1, h2⟩
      rintro q (rfl | hq)
      · exact e2
      · exact strLt_trans _ _ _ e2 (h1 q hq)
    · simp only [GoMap.sorted, Bool.and_eq_true, List.all_eq_true]
      refine ⟨?_, ih h2⟩
      intro q hq
      rcases GoMap.mem_set rest k v q hq with hq | hq
      · exact h1 q hq
      · subst hq
        exact strLt_total k k2 e1 (by simpa using e2)

theorem GoMap.foldl_set_sorted {V : Type} (post : GoMap V) : ∀ pre : GoMap V,
    GoMap.sorted (pre ++ post) = true →
    post.foldl (fun m kv => m.set kv.1 kv.2) pre = pre ++ post := by
  induction post with
  | nil => intro pre _; simp
  | cons kv post ih =>
    intro pre h
    have h1 := (GoMap.sorted_append pre (kv :: post) h).1
    have hset : pre.set kv.1 kv.2 = pre ++ [kv] :=
      GoMap.set_append_last pre kv.1 kv.2 (fun p hp => h1 p hp kv (by simp))
    rw [List.foldl_cons, hset, ih (pre ++ [kv]) (by simpa using h)]
    simp

/-! ### The detect step (C1, C2) -/

theorem UpdateMap_get_same (storage : Storage) (serverName : GoString) (f : Entry)
    (h : storage.get serverName = none) :
    (UpdateMap storage serverName f).get serverName
      = some (GoMap.set [] f.Name (toUint64 f.Time)) := by
  simp [UpdateMap, h, GoMap.get_set_same]

theorem UpdateMap_get_other (storage : Storage) (serverName s2 : GoString) (f : Entry)
    (h : storage.get serverName = none) (hne : s2 ≠ serverName) :
    (UpdateMap storage serverName f).get s2 = storage.get s2 := by
  simp [UpdateMap, h, GoMap.get_set_same, GoMap.get_set_other _ _ _ _ hne]

theorem detect_noServer (storage : Storage) (clientConf : Server) (f : Entry)
    (h1 : storage.get clientConf.ServerName = none) :
    detect storage clientConf f = (UpdateMap storage clientConf.ServerName f, true) := by
  simp [detect, h1]

theorem detect_noFile (storage : Storage) (clientConf : Server) (f : Entry) (inner : GoMap Nat)
    (h1 : storage.get clientConf.ServerName = some inner) (h2 : inner.get f.Name = none) :
    detect storage clientConf f
      = (storage.set clientConf.ServerName (inner.set f.Name (toUint64 f.Time)), true) := by
  simp [detect, h1, h2]

theorem detect_newer (storage : Storage) (clientConf : Server) (f : Entry) (inner : GoMap Nat)
    (saved : Nat) (h1 : storage.get clientConf.ServerName = some inner)
    (h2 : inner.get f.Name = some saved) (h3 : toUint64 f.Time > saved) :
    detect storage clientConf f
      = (storage.set clientConf.ServerName (inner.set f.Name (toUint64 f.Time)), true) := by
  simp [detect, h1, h2, h3]

theorem detect_notNewer (storage : Storage) (clientConf : Server) (f : Entry)
    (inner : GoMap Nat) (saved : Nat) (h1 : storage.get clientConf.ServerName = some inner)
    (h2 : inner.get f.Name = some saved) (h3 : ¬ toUint64 f.Time > saved) :
    detect storage clientConf f = (storage, false) := by
  simp only [detect, h1, h2]
  simp [h3]

/-- C1, as far as it holds: the detect step sets `getFile` exactly when the ledger has no
record for (server name, file name) or `uint64` of the timestamp of the entry is strictly
greater than the recorded value. For a timestamp that is not negative this is the claim:
`getFile` is set exactly when there is no record or the timestamp, in seconds, is
strictly greater than the recorded one. For a negative timestamp it is not: against any
record below `2^63` the entry is marked although its timestamp is not greater. An entry
listed with the recorded timestamp is not retrieved, and an entry listed a second time
with the same timestamp is not retrieved again. -/
theorem detect_getFile_iff (storage : Storage) (clientConf : Server) (f : Entry)
    (hlo : -9223372036854775808 ≤ f.Time) (hhi : f.Time < 9223372036854775808) :
    ((detect storage clientConf f).2 = true ↔
      (storage.record clientConf.ServerName f.Name = none ∨
        ∃ saved, storage.record clientConf.ServerName f.Name = some saved
          ∧ toUint64 f.Time > saved))
    ∧ (0 ≤ f.Time →
        ((detect storage clientConf f).2 = true ↔
          (storage.record clientConf.ServerName f.Name = none ∨
            ∃ saved, storage.record clientConf.ServerName f.Name = some saved
              ∧ f.Time > (saved : Int))))
    ∧ (f.Time < 0 → ∀ saved, storage.record clientConf.ServerName f.Name = some saved →
        saved < 9223372036854775808 →
        (detect storage clientConf f).2 = true ∧ ¬ f.Time > (saved : Int))
    ∧ (storage.record clientConf.ServerName f.Name = some (toUint64 f.Time) →
        (detect storage clientConf f).2 = false)
    ∧ (detect (detect storage clientConf f).1 clientConf f).2 = false := by
  have hpos : 0 ≤ f.Time → (toUint64 f.Time : Int) = f.Time := by
    intro h
    unfold toUint64
    omega
  have hneg : f.Time < 0 → (toUint64 f.Time : Int) = f.Time + 18446744073709551616 := by
    intro h
    unfold toUint64
    omega
  cases h1 : storage.get clientConf.ServerName with
  | none =>
    have hr : storage.record clientConf.ServerName f.Name = none := by
      simp [Storage.record, h1]
    rw [detect_noServer _ _ _ h1, hr]
    refine ⟨by simp, by simp, by simp, by simp, ?_⟩
    have h4 := UpdateMap_get_same storage clientConf.ServerName f h1
    have h5 : (GoMap.set [] f.Name (toUint64 f.Time)).get f.Name = some (toUint64 f.Time) :=
      GoMap.get_set_same _ _ _
    rw [detect_notNewer _ _ _ _ _ h4 h5 (by simp)]
  | some inner =>
    have h4 : (storage.set clientConf.ServerName (inner.set f.Name (toUint64 f.Time))).get
        clientConf.ServerName = some (inner.set f.Name (toUint64 f.Time)) :=
      GoMap.get_set_same _ _ _
    have h5 : (inner.set f.Name (toUint64 f.Time)).get f.Name = some (toUint64 f.Time) :=
      GoMap.get_set_same _ _ _
    cases h2 : inner.get f.Name with
    | none =>
      have hr : storage.record clientConf.ServerName f.Name = none := by
        simp [Storage.record, h1, h2]
      rw [detect_noFile _ _ _ _ h1 h2, hr]
      refine ⟨by simp, by simp, by simp, by simp, ?_⟩
      rw [detect_notNewer _ _ _ _ _ h4 h5 (by simp)]
    | some saved =>
      have hr : storage.record clientConf.ServerName f.Name = some saved := by
        simp [Storage.record, h1, h2]
      rw [hr]
      by_cases h3 : toUint64 f.Time > saved
      · rw [detect_newer _ _ _ _ _ h1 h2 h3]
        refine ⟨by simp [h3], ?_, ?_, ?_, ?_⟩
        · intro h0
          have := hpos h0
          simp only [true_iff, Option.some.injEq, false_or, exists_eq_left', reduceCtorEq]
          omega
        · intro h0 s hs hlt
          simp only [Option.some.injEq] at hs
          exact ⟨rfl, by omega⟩
        · intro h
          simp only [Option.some.injEq] at h
          omega
        · rw [detect_notNewer _ _ _ _ _ h4 h5 (by simp)]
      · rw [detect_notNewer _ _ _ _ _ h1 h2 h3]
        refine ⟨by simp [h3], ?_, ?_, by simp, ?_⟩
        · intro h0
          have := hpos h0
          simp only [Bool.false_eq_true, false_iff, Option.some.injEq, false_or,
            exists_eq_left', reduceCtorEq]
          omega
        · intro h0 s hs hlt
          have := hneg h0
          simp only [Option.some.injEq] at hs
          omega
        · rw [detect_notNewer _ _ _ _ _ h1 h2 h3]

/-- A witness of C1 at the failing input: a ledger holding timestamp 100 for `report.csv`
of server `alpha`, and the file listed with the Unix time -1. The file is marked for
retrieval although -1 is not greater than 100. -/
theorem detect_getFile_iff_witness :
    (detect [(ascii "alpha", [(ascii "report.csv", 100)])]
        ⟨[], [], [], ascii "alpha", [], ascii "csv", 0, 0⟩
        ⟨ascii "report.csv", .EntryTypeFile, 0, -1⟩).2 = true
      ∧ ¬ (-1 : Int) > ((100 : Nat) : Int) :=
  (detect_getFile_iff [(ascii "alpha", [(ascii "report.csv", 100)])]
    ⟨[], [], [], ascii "alpha", [], ascii "csv", 0, 0⟩
    ⟨ascii "report.csv", .EntryTypeFile, 0, -1⟩ (by decide) (by decide)).2.2.1
      (by decide) 100 (by decide) (by decide)

theorem Storage.record_set_same (storage : Storage) (s n : GoString) (inner : GoMap Nat) :
    Storage.record (GoMap.set storage s inner) s n = inner.get n := by
  simp [Storage.record, GoMap.get_set_same]

theorem Storage.record_set_other (storage : Storage) (s s2 n : GoString) (inner : GoMap Nat)
    (hne : s2 ≠ s) :
    Storage.record (GoMap.set storage s inner) s2 n = storage.record s2 n := by
  simp [Storage.record, GoMap.get_set_other _ _ _ _ hne]

theorem detect_record_same (storage : Storage) (clientConf : Server) (f : Entry)
    (h : (detect storage clientConf f).2 = true) :
    (detect storage clientConf f).1.record clientConf.ServerName f.Name
      = some (toUint64 f.Time) := by
  cases h1 : storage.get clientConf.ServerName with
  | none =>
    rw [detect_noServer _ _ _ h1]
    simp [Storage.record, UpdateMap_get_same _ _ _ h1, GoMap.get_set_same]
  | some inner =>
    cases h2 : inner.get f.Name with
    | none =>
      rw [detect_noFile _ _ _ _ h1 h2]
      simp [Storage.record_set_same, GoMap.get_set_same]
    | some saved =>
      by_cases h3 : toUint64 f.Time > saved
      · rw [detect_newer _ _ _ _ _ h1 h2 h3]
        simp [Storage.record_set_same, GoMap.get_set_same]
      · rw [detect_notNewer _ _ _ _ _ h1 h2 h3] at h
        simp at h

theorem detect_record_other (storage : Storage) (clientConf : Server) (f : Entry)
    (s n : GoString) (hne : ¬ (s = clientConf.ServerName ∧ n = f.Name)) :
    (detect storage clientConf f).1.record s n = storage.record s n := by
  have key : ∀ inner : GoMap Nat, storage.get clientConf.ServerName = some inner →
      Storage.record (GoMap.set storage clientConf.ServerName
        (inner.set f.Name (toUint64 f.Time))) s n = storage.record s n := by
    intro inner h1
    by_cases hs : s = clientConf.ServerName
    · subst hs
      have hn : n ≠ f.Name := fun hn => hne ⟨rfl, hn⟩
      rw [Storage.record_set_same, GoMap.get_set_other _ _ _ _ hn]
      simp [Storage.record, h1]
    · rw [Storage.record_set_other _ _ _ _ _ hs]
  cases h1 : storage.get clientConf.ServerName with
  | none =>
    rw [detect_noServer _ _ _ h1]
    by_cases hs : s = clientConf.ServerName
    · subst hs
      have hn : n ≠ f.Name := fun hn => hne ⟨rfl, hn⟩
      simp [Storage.record, UpdateMap_get_same _ _ _ h1, h1, GoMap.get, GoMap.set, hn]
    · simp [Storage.record, UpdateMap_get_other _ _ _ _ h1 hs]
  | some inner =>
    cases h2 : inner.get f.Name with
    | none =>
      rw [detect_noFile _ _ _ _ h1 h2]
      exact key inner h1
    | some saved =>
      by_cases h3 : toUint64 f.Time > saved
      · rw [detect_newer _ _ _ _ _ h1 h2 h3]
        exact key inner h1
      · rw [detect_notNewer _ _ _ _ _ h1 h2 h3]

theorem detect_unmarked (storage : Storage) (clientConf : Server) (f : Entry)
    (h : (detect storage clientConf f).2 = false) :
    (detect storage clientConf f).1 = storage := by
  cases h1 : storage.get clientConf.ServerName with
  | none =>
    rw [detect_noServer _ _ _ h1] at h
    simp at h
  | some inner =>
    cases h2 : inner.get f.Name with
    | none =>
      rw [detect_noFile _ _ _ _ h1 h2] at h
      simp at h
    | some saved =>
      by_cases h3 : toUint64 f.Time > saved
      · rw [detect_newer _ _ _ _ _ h1 h2 h3] at h
        simp at h
      · rw [detect_notNewer _ _ _ _ _ h1 h2 h3]

theorem detect_get_other (storage : Storage) (clientConf : Server) (f : Entry) (s : GoString)
    (hne : s ≠ clientConf.ServerName) :
    (detect storage clientConf f).1.get s = storage.get s := by
  cases h1 : storage.get clientConf.ServerName with
  | none =>
    rw [detect_noServer _ _ _ h1]
    exact UpdateMap_get_other _ _ _ _ h1 hne
  | some inner =>
    cases h2 : inner.get f.Name with
    | none =>
      rw [detect_noFile _ _ _ _ h1 h2]
      exact GoMap.get_set_other _ _ _ _ hne
    | some saved =>
      by_cases h3 : toUint64 f.Time > saved
      · rw [detect_newer _ _ _ _ _ h1 h2 h3]
        exact GoMap.get_set_other _ _ _ _ hne
      · rw [detect_notNewer _ _ _ _ _ h1 h2 h3]

theorem loopBody_storage (clientConf : Server) (w : World) (f : Entry) (out : FileOutcome)
    (hfile : f.Typ.String = ascii "file") (hext : extensionMatches clientConf f = true) :
    (loopBody clientConf w f out).1.storage = (detect w.storage clientConf f).1 := by
  unfold loopBody
  rw [if_pos hfile, if_pos hext]
  dsimp only
  repeat' split
  all_goals rfl

/-- C2: the detect step leaves the ledger as follows. When the entry is marked for
retrieval the ledger then holds its timestamp under (server name, file name), the map of
the server being created when it was absent; when it is not marked the ledger is
unchanged; every other (server, file) record keeps its value, and so does the map of
every other server. The body of the loop leaves the ledger in that state whatever the
calls for the retrieval return. -/
theorem detect_ledger_effect (w : World) (clientConf : Server) (f : Entry) :
    ((detect w.storage clientConf f).2 = true →
      (detect w.storage clientConf f).1.record clientConf.ServerName f.Name
        = some (toUint64 f.Time))
    ∧ ((detect w.storage clientConf f).2 = false → (detect w.storage clientConf f).1 = w.storage)
    ∧ (∀ s n : GoString, ¬ (s = clientConf.ServerName ∧ n = f.Name) →
        (detect w.storage clientConf f).1.record s n = w.storage.record s n)
    ∧ (∀ s : GoString, s ≠ clientConf.ServerName →
        (detect w.storage clientConf f).1.get s = w.storage.get s)
    ∧ (f.Typ.String = ascii "file" → extensionMatches clientConf f = true →
        ∀ out : FileOutcome,
          (loopBody clientConf w f out).1.storage = (detect w.storage clientConf f).1) :=
  ⟨detect_record_same _ _ _, detect_unmarked _ _ _, detect_record_other _ _ _,
    detect_get_other _ _ _,
    fun hfile hext out => loopBody_storage clientConf w f out hfile hext⟩

/-- A witness of C2: the first listing of `report.csv` records its timestamp. -/
theorem detect_ledger_effect_witness :
    (detect (mainInit [] false).storage alphaCsv (fileEntry "report.csv" 100)).1.record
      alphaCsv.ServerName (fileEntry "report.csv" 100).Name = some (toUint64 100) :=
  (detect_ledger_effect (mainInit [] false) alphaCsv (fileEntry "report.csv" 100)).1
    (by decide)

/-! ### One poll cycle (C3) -/

theorem loopBody_retrLog (clientConf : Server) (w : World) (f : Entry) (out : FileOutcome) :
    (loopBody clientConf w f out).1.retrLog =
      if f.Typ.String = ascii "file" ∧ extensionMatches clientConf f = true
          ∧ (detect w.storage clientConf f).2 = true
      then w.retrLog ++ [(clientConf.ServerName, f.Name)] else w.retrLog := by
  unfold loopBody
  by_cases hfile : f.Typ.String = ascii "file"
  · by_cases hext : extensionMatches clientConf f = true
    · by_cases hd : (detect w.storage clientConf f).2 = true
      · simp only [hfile, hext, hd, if_true, and_self]
        repeat' split
        all_goals rfl
      · simp only [hfile, hext, hd, if_true, and_false, if_false]
        simp
    · simp only [hfile, hext, if_true, and_false, false_and, if_false]
      simp
  · simp only [hfile, false_and, if_false]

theorem loopBody_ok (clientConf : Server) (w : World) (f : Entry) (out : FileOutcome)
    (hok : out.ok = true) : (loopBody clientConf w f out).2 = false := by
  simp only [FileOutcome.ok, Bool.and_eq_true, Option.isSome_iff_exists] at hok
  obtain ⟨⟨⟨⟨data, hr⟩, hc⟩, hp⟩, ha⟩ := hok
  unfold loopBody
  simp only [hr, hc, hp, ha]
  repeat' split
  all_goals first | rfl | simp_all

theorem loopBody_retrFails (clientConf : Server) (w : World) (f : Entry) (out : FileOutcome)
    (hfile : f.Typ.String = ascii "file") (hext : extensionMatches clientConf f = true)
    (hd : (detect w.storage clientConf f).2 = true) (hr : out.retr = none) :
    loopBody clientConf w f out =
      ({ w with storage := (detect w.storage clientConf f).1
                retrLog := w.retrLog ++ [(clientConf.ServerName, f.Name)] }, true) := by
  unfold loopBody
  simp only [hfile, hext, hd, hr, if_true]

theorem pollFiles_append (clientConf : Server) (w : World)
    (pre rest : List (Entry × FileOutcome)) (hpre : ∀ p ∈ pre, p.2.ok = true) :
    pollFiles clientConf w (pre ++ rest) = pollFiles clientConf (pollFiles clientConf w pre) rest := by
  induction pre generalizing w with
  | nil => rfl
  | cons p pre ih =>
    obtain ⟨f, out⟩ := p
    have h1 : (loopBody clientConf w f out).2 = false :=
      loopBody_ok clientConf w f out (hpre (f, out) (List.mem_cons_self _ _))
    have h2 : loopBody clientConf w f out = ((loopBody clientConf w f out).1, false) := by
      rw [← h1]
    simp only [List.cons_append, pollFiles]
    rw [h2]
    exact ih _ (fun p hp => hpre p (List.mem_cons_of_mem _ hp))

theorem pollFiles_all_ok (clientConf : Server) (w : World)
    (files : List (Entry × FileOutcome)) (hok : ∀ p ∈ files, p.2.ok = true) :
    pollFiles clientConf w files
      = files.foldl (fun w1 p => (loopBody clientConf w1 p.1 p.2).1) w := by
  induction files generalizing w with
  | nil => rfl
  | cons p files ih =>
    obtain ⟨f, out⟩ := p
    have h1 : (loopBody clientConf w f out).2 = false :=
      loopBody_ok clientConf w f out (hok (f, out) (List.mem_cons_self _ _))
    have h2 : loopBody clientConf w f out = ((loopBody clientConf w f out).1, false) := by
      rw [← h1]
    simp only [pollFiles, List.foldl_cons]
    rw [h2]
    exact ih _ (fun p hp => hok p (List.mem_cons_of_mem _ hp))

/-- C3 fails as stated: server `alpha` lists the new files `a.csv` and `b.csv`, and the
retrieval of `a.csv` fails. The cycle then ends with one retrieval attempt, for `a.csv`;
`b.csv`, new and passing the filter, gets none and stays without a record. -/
theorem pollCycle_retrieval_failure_counterexample :
    extensionMatches alphaCsv (fileEntry "b.csv" 100) = true
    ∧ (detect (mainInit [] false).storage alphaCsv (fileEntry "b.csv" 100)).2 = true
    ∧ (pollCycle alphaCsv (mainInit [] false)
        (some [(fileEntry "a.csv" 100, retrFails), (fileEntry "b.csv" 100, allOk)])).retrLog
        = [(ascii "alpha", ascii "a.csv")]
    ∧ (pollCycle alphaCsv (mainInit [] false)
        (some [(fileEntry "a.csv" 100, retrFails), (fileEntry "b.csv" 100, allOk)])).storage
        = [(ascii "alpha", [(ascii "a.csv", 100)])] := by
  decide

/-- C3, amended: the body of the loop makes exactly one retrieval attempt for an entry
that is a file, passes the filter and is new or updated at its turn, and none for any
other entry; while no call fails every listed entry is handled in listing order; a
failed retrieval ends the loop over the listing: the entries listed after it are not
handled in this cycle (no retrieval attempt, no change of their records) and the poller
goes on to save the ledger. -/
theorem pollCycle_retrieval_attempts (clientConf : Server) (w : World)
    (pre post : List (Entry × FileOutcome)) (f : Entry) (out : FileOutcome) :
    ((loopBody clientConf w f out).1.retrLog =
      if f.Typ.String = ascii "file" ∧ extensionMatches clientConf f = true
          ∧ (detect w.storage clientConf f).2 = true
      then w.retrLog ++ [(clientConf.ServerName, f.Name)] else w.retrLog)
    ∧ ((∀ p ∈ pre, p.2.ok = true) →
        pollCycle clientConf w (some pre)
          = SaveFilesInfo (pre.foldl (fun w1 p => (loopBody clientConf w1 p.1 p.2).1) w))
    ∧ ((∀ p ∈ pre, p.2.ok = true) → f.Typ.String = ascii "file" →
        extensionMatches clientConf f = true →
        (detect (pollFiles clientConf w pre).storage clientConf f).2 = true →
        out.retr = none →
        pollCycle clientConf w (some (pre ++ (f, out) :: post))
          = SaveFilesInfo
              { pollFiles clientConf w pre with
                storage := (detect (pollFiles clientConf w pre).storage clientConf f).1
                retrLog := (pollFiles clientConf w pre).retrLog
                  ++ [(clientConf.ServerName, f.Name)] }) := by
  refine ⟨loopBody_retrLog clientConf w f out, ?_, ?_⟩
  · intro hpre
    simp only [pollCycle]
    rw [pollFiles_all_ok clientConf w pre hpre]
  · intro hpre hfile hext hd hr
    simp only [pollCycle]
    rw [pollFiles_append clientConf w pre _ hpre]
    simp only [pollFiles]
    rw [loopBody_retrFails clientConf _ f out hfile hext hd hr]

/-- A witness of the amended C3: the listing of the counterexample. -/
theorem pollCycle_retrieval_attempts_witness :
    pollCycle alphaCsv (mainInit [] false)
        (some ([] ++ (fileEntry "a.csv" 100, retrFails) :: [(fileEntry "b.csv" 100, allOk)]))
      = SaveFilesInfo
          { pollFiles alphaCsv (mainInit [] false) [] with
            storage := (detect (pollFiles alphaCsv (mainInit [] false) []).storage alphaCsv
              (fileEntry "a.csv" 100)).1
            retrLog := (pollFiles alphaCsv (mainInit [] false) []).retrLog
              ++ [(alphaCsv.ServerName, (fileEntry "a.csv" 100).Name)] } :=
  (pollCycle_retrieval_attempts alphaCsv (mainInit [] false) []
    [(fileEntry "b.csv" 100, allOk)] (fileEntry "a.csv" 100) retrFails).2.2
    (by simp) (by decide) (by decide) (by decide) rfl

/-! ### The uploader (C4, C5) -/

theorem uploadAttempts_spec (cs : CloudStorage) (uploadOk : Nat → Bool) (obj : FileToUpload)
    (k : Nat) : ∀ (fuel : Nat) (attempts : Int) (log : List FileToUpload), k < fuel →
    (∀ j < k, uploadOk (log.length + j) = false) →
    (∀ j : Nat, j < k → attempts + j ≠ cs.FileUploadAttempts) →
    (uploadOk (log.length + k) = true →
      uploadAttempts cs uploadOk obj fuel attempts log
        = some (true, log ++ List.replicate (k + 1) obj))
    ∧ (uploadOk (log.length + k) = false → attempts + k = cs.FileUploadAttempts →
      uploadAttempts cs uploadOk obj fuel attempts log
        = some (false, log ++ List.replicate (k + 1) obj)) := by
  induction k with
  | zero =>
    intro fuel attempts log hfuel _ _
    obtain ⟨fuel, rfl⟩ : ∃ n, fuel = n + 1 := ⟨fuel - 1, by omega⟩
    constructor
    · intro h
      simp only [Nat.add_zero] at h
      simp [uploadAttempts, h]
    · intro h hN
      simp only [Nat.add_zero] at h
      simp only [Nat.cast_zero, add_zero] at hN
      simp [uploadAttempts, h, hN]
  | succ k ih =>
    intro fuel attempts log hfuel hfail hne
    obtain ⟨fuel, rfl⟩ : ∃ n, fuel = n + 1 := ⟨fuel - 1, by omega⟩
    have h0 : uploadOk log.length = false := by
      have := hfail 0 (by omega)
      simpa using this
    have hN : attempts ≠ cs.FileUploadAttempts := by
      have := hne 0 (by omega)
      simpa using this
    have hlen : (log ++ [obj]).length = log.length + 1 := by simp
    have ih1 := ih fuel (attempts + 1) (log ++ [obj]) (by omega)
      (by
        intro j hj
        rw [hlen]
        have := hfail (j + 1) (by omega)
        rw [show log.length + 1 + j = log.length + (j + 1) by omega]
        exact this)
      (by
        intro j hj
        have := hne (j + 1) (by omega)
        intro hc
        apply this
        push_cast
        omega)
    have hrep : log ++ [obj] ++ List.replicate (k + 1) obj
        = log ++ List.replicate (k + 1 + 1) obj := by
      rw [List.append_assoc]
      rfl
    have hidx : (log ++ [obj]).length + k = log.length + (k + 1) := by
      rw [hlen]
      omega
    rw [hidx, hrep] at ih1
    have hstep : uploadAttempts cs uploadOk obj (fuel + 1) attempts log
        = uploadAttempts cs uploadOk obj fuel (attempts + 1) (log ++ [obj]) := by
      simp [uploadAttempts, h0, hN]
    rw [hstep]
    constructor
    · exact ih1.1
    · intro h hc
      apply ih1.2 h
      push_cast at hc
      omega

theorem getAllFilesFromChannel_returns (f : FileToUpload) (rest : List FileToUpload) :
    ∀ m : GoMap (List GoString), getAllFilesFromChannel (f :: rest) m
      = .returned ((f :: rest).foldl (fun m1 g => appendName m1 g.ServerName g.OriginalName) m) := by
  induction rest generalizing f with
  | nil =>
    intro m
    simp [getAllFilesFromChannel]
  | cons g rest ih =>
    intro m
    have h := ih g (appendName m f.ServerName f.OriginalName)
    simp only [getAllFilesFromChannel, List.length_cons, Nat.add_one_ne_zero, if_false,
      List.foldl_cons] at h ⊢
    exact h

/-- C4: with a ceiling `N >= 1` of upload attempts, `CloudStorageUpload` calls `UploadFile`
on the received job until the first success or until `N` calls have failed. When call
`k + 1 <= N` is the first to succeed, the job takes exactly `k + 1` calls, the flag is not
touched and the next job starts anew. When the first `N` calls fail, exactly `N` calls are
made, the flag is set to false, and no further job is uploaded; the function then returns
when the channel held another job, and stays waiting in the drain when the channel
was empty. -/
theorem CloudStorageUpload_attempts (cs : CloudStorage) (uploadOk : Nat → Bool) (w : World)
    (obj : FileToUpload) (rest : List FileToUpload) (k fuel : Nat)
    (hN : 1 ≤ cs.FileUploadAttempts) (hfail : ∀ j < k, uploadOk (w.uploadLog.length + j) = false) :
    (((k : Int) + 1 ≤ cs.FileUploadAttempts) → uploadOk (w.uploadLog.length + k) = true →
      k < fuel →
      CloudStorageUpload cs uploadOk fuel (obj :: rest) w
        = if w.uploader = .running then
            CloudStorageUpload cs uploadOk fuel rest
              { w with fileChannel := rest
                       uploadLog := w.uploadLog ++ List.replicate (k + 1) obj }
          else
            some { w with fileChannel := rest
                          uploadLog := w.uploadLog ++ List.replicate (k + 1) obj })
    ∧ ((k : Int) = cs.FileUploadAttempts → k ≤ fuel →
      ∃ w1, CloudStorageUpload cs uploadOk fuel (obj :: rest) w = some w1
        ∧ w1.uploadLog = w.uploadLog ++ List.replicate k obj
        ∧ w1.uploadFiles = false
        ∧ w1.flagLog = w.flagLog ++ [false]
        ∧ (rest ≠ [] → w1.uploader = .returned ∧ w1.filesToSaveLocally.isSome = true)
        ∧ (rest = [] →
            w1.uploader = .blockedInDrain [(obj.ServerName, [obj.OriginalName])]
            ∧ w1.filesToSaveLocally = w.filesToSaveLocally)) := by
  constructor
  · intro hk hok hfuel
    have h := (uploadAttempts_spec cs uploadOk obj k fuel 1 w.uploadLog hfuel hfail
      (by intro j hj; omega)).1 hok
    simp only [CloudStorageUpload, uploadJob, h]
  · intro hk hfuel
    obtain ⟨n, rfl⟩ : ∃ n, k = n + 1 := ⟨k - 1, by omega⟩
    have h := (uploadAttempts_spec cs uploadOk obj n fuel 1 w.uploadLog (by omega)
      (fun j hj => hfail j (by omega)) (by intro j hj; omega)).2
      (hfail n (by omega)) (by push_cast at hk; omega)
    cases rest with
    | nil =>
      simp [CloudStorageUpload, uploadJob, h, getAllFilesFromChannel, appendName, GoMap.set,
        GoMap.get]
    | cons g rest =>
      have hm := getAllFilesFromChannel_returns g rest
        (appendName [] obj.ServerName obj.OriginalName)
      simp [CloudStorageUpload, uploadJob, h, hm]

/-- A witness of C4, and the input on which the code leaves it: ceiling 2, one job in
the channel, every upload fails. Two calls are made and the flag is set to false, but
the uploader then waits in the drain: it has not returned and no task saving the files
locally is started. -/
theorem CloudStorageUpload_attempts_witness :
    ∃ w1, CloudStorageUpload (cloudConf 2) (fun _ => false) 2 (jobOf "alpha" "a.csv" :: [])
          (mainInit [] false) = some w1
      ∧ w1.uploadLog = (mainInit [] false).uploadLog ++ List.replicate 2 (jobOf "alpha" "a.csv")
      ∧ w1.uploadFiles = false
      ∧ w1.flagLog = (mainInit [] false).flagLog ++ [false]
      ∧ (([] : List FileToUpload) ≠ [] →
          w1.uploader = .returned ∧ w1.filesToSaveLocally.isSome = true)
      ∧ (([] : List FileToUpload) = [] →
          w1.uploader = .blockedInDrain
            [((jobOf "alpha" "a.csv").ServerName, [(jobOf "alpha" "a.csv").OriginalName])]
          ∧ w1.filesToSaveLocally = (mainInit [] false).filesToSaveLocally) :=
  (CloudStorageUpload_attempts (cloudConf 2) (fun _ => false) (mainInit [] false)
    (jobOf "alpha" "a.csv") [] 2 2 (by decide) (fun _ _ => rfl)).2 (by decide) (by decide)

theorem appendName_get_same (m : GoMap (List GoString)) (s n : GoString) :
    ((appendName m s n).get s).getD [] = (m.get s).getD [] ++ [n] := by
  simp [appendName, GoMap.get_set_same]

theorem appendName_get_other (m : GoMap (List GoString)) (s s2 n : GoString) (hne : s2 ≠ s) :
    (appendName m s n).get s2 = m.get s2 := by
  simp [appendName, GoMap.get_set_other _ _ _ _ hne]

theorem foldl_appendName_get (q : List FileToUpload) (s : GoString) :
    ∀ m : GoMap (List GoString),
      ((q.foldl (fun m1 g => appendName m1 g.ServerName g.OriginalName) m).get s).getD []
        = (m.get s).getD []
          ++ (q.filter (fun g => decide (g.ServerName = s))).map (fun g => g.OriginalName) := by
  induction q with
  | nil => intro m; simp
  | cons f q ih =>
    intro m
    rw [List.foldl_cons, ih]
    by_cases h : f.ServerName = s
    · subst h
      simp [appendName_get_same]
    · have h2 : s ≠ f.ServerName := fun e => h e.symm
      simp [appendName_get_other _ _ _ _ h2, h]

theorem GoMap.get_none_of_lt {V : Type} (m : GoMap V) (k : GoString)
    (h : ∀ kv ∈ m, strLt k kv.1 = true) : m.get k = none := by
  induction m with
  | nil => rfl
  | cons a rest ih =>
    obtain ⟨k2, v2⟩ := a
    have h1 : strLt k k2 = true := h (k2, v2) (by simp)
    have hne : ¬ k = k2 := by
      intro e
      subst e
      rw [strLt_irrefl] at h1
      exact Bool.noConfusion h1
    simp only [GoMap.get, hne, if_false]
    exact ih (fun kv hkv => h kv (List.mem_cons_of_mem _ hkv))

theorem namesCount_appendName (m : GoMap (List GoString)) (s n : GoString)
    (hs : GoMap.sorted m = true) : namesCount (appendName m s n) = namesCount m + 1 := by
  induction m with
  | nil => simp [appendName, namesCount, GoMap.set, GoMap.get]
  | cons a rest ih =>
    obtain ⟨k2, v2⟩ := a
    simp only [GoMap.sorted, Bool.and_eq_true, List.all_eq_true] at hs
    obtain ⟨h1, h2⟩ := hs
    by_cases e1 : s = k2
    · subst e1
      simp only [appendName, GoMap.get, if_true, Option.getD_some, GoMap.set, namesCount,
        List.map_cons, List.sum_cons, List.length_append, List.length_singleton]
      omega
    · by_cases e2 : strLt s k2 = true
      · have hnone : GoMap.get rest s = none :=
          GoMap.get_none_of_lt rest s (fun kv hkv => strLt_trans _ _ _ e2 (h1 kv hkv))
        simp only [appendName, GoMap.get, e1, if_false, hnone, Option.getD_none, GoMap.set, e2,
          if_true, namesCount, List.map_cons, List.sum_cons, List.nil_append,
          List.length_singleton]
        omega
      · have := ih h2
        simp only [appendName, namesCount] at this
        simp only [appendName, GoMap.get, e1, if_false, GoMap.set, e2, Bool.false_eq_true,
          namesCount, List.map_cons, List.sum_cons]
        omega

theorem foldl_appendName_count (q : List FileToUpload) :
    ∀ m : GoMap (List GoString), GoMap.sorted m = true →
      namesCount (q.foldl (fun m1 g => appendName m1 g.ServerName g.OriginalName) m)
        = namesCount m + q.length := by
  induction q with
  | nil => intro m _; simp
  | cons f q ih =>
    intro m hs
    have hs2 : GoMap.sorted (appendName m f.ServerName f.OriginalName) = true :=
      GoMap.sorted_set _ _ _ hs
    rw [List.foldl_cons, ih _ hs2, namesCount_appendName _ _ _ hs]
    simp only [List.length_cons]
    omega

/-- C5: what the drain at the exhaustion of the upload attempts does, given the job
`obj` that failed and the content `q` of the channel. With `q` empty
`getAllFilesFromChannel` does not return: it waits in `range ch` for a value, holding
the map with the name of the failed job. With `q` not empty it returns, and the map
lists under every server name the original names of the failed job and of the jobs of
`q` of that server, in the order of the channel, `1 + length q` names in all. -/
theorem getAllFilesFromChannel_drain (obj : FileToUpload) (q : List FileToUpload) :
    (q = [] →
      getAllFilesFromChannel q (appendName [] obj.ServerName obj.OriginalName)
        = .blocked [(obj.ServerName, [obj.OriginalName])])
    ∧ (q ≠ [] →
      ∃ m1, getAllFilesFromChannel q (appendName [] obj.ServerName obj.OriginalName)
          = .returned m1
        ∧ (∀ s : GoString, (m1.get s).getD []
            = ((obj :: q).filter (fun g => decide (g.ServerName = s))).map
                (fun g => g.OriginalName))
        ∧ namesCount m1 = 1 + q.length) := by
  constructor
  · intro h
    subst h
    simp [getAllFilesFromChannel, appendName, GoMap.set, GoMap.get]
  · intro h
    obtain ⟨f, rest, rfl⟩ : ∃ f rest, q = f :: rest := by
      cases q with
      | nil => exact absurd rfl h
      | cons f rest => exact ⟨f, rest, rfl⟩
    refine ⟨_, getAllFilesFromChannel_returns f rest _, ?_, ?_⟩
    · intro s
      have h1 := foldl_appendName_get (obj :: f :: rest) s []
      simp only [List.foldl_cons] at h1 ⊢
      rw [h1]
      simp [GoMap.get]
    · have h1 := foldl_appendName_count (obj :: f :: rest) [] rfl
      simp only [List.foldl_cons] at h1 ⊢
      rw [h1]
      simp only [namesCount, List.map_nil, List.sum_nil, List.length_cons]
      omega

/-- A witness of C5, and the input on which the code leaves it: the job `a.csv` of
server `alpha` failed and the channel is empty. The drain waits for a value to receive. -/
theorem getAllFilesFromChannel_drain_witness :
    getAllFilesFromChannel []
        (appendName [] (jobOf "alpha" "a.csv").ServerName (jobOf "alpha" "a.csv").OriginalName)
      = .blocked [((jobOf "alpha" "a.csv").ServerName, [(jobOf "alpha" "a.csv").OriginalName])] :=
  (getAllFilesFromChannel_drain (jobOf "alpha" "a.csv") []).1 rfl

/-! ### The flag `uploadFiles` (C6) -/

theorem loopBody_flag (clientConf : Server) (w : World) (f : Entry) (out : FileOutcome) :
    (loopBody clientConf w f out).1.uploadFiles = w.uploadFiles
    ∧ (loopBody clientConf w f out).1.flagLog = w.flagLog
    ∧ (loopBody clientConf w f out).1.uploader = w.uploader := by
  unfold loopBody
  dsimp only
  repeat' split
  all_goals exact ⟨rfl, rfl, rfl⟩

theorem uploadJob_flag (cs : CloudStorage) (uploadOk : Nat → Bool) (fuel : Nat) (w w1 : World)
    (obj : FileToUpload) (h : uploadJob cs uploadOk fuel w obj = some w1) :
    (w1.uploadFiles = w.uploadFiles ∧ w1.flagLog = w.flagLog ∧ w1.uploader = w.uploader)
    ∨ (w1.uploadFiles = false ∧ w1.flagLog = w.flagLog ++ [false]
        ∧ w1.uploader ≠ .running) := by
  unfold uploadJob at h
  cases hu : uploadAttempts cs uploadOk obj fuel 1 w.uploadLog with
  | none => simp [hu] at h
  | some r =>
    obtain ⟨ok, log⟩ := r
    cases ok with
    | true =>
      simp only [hu, Option.some.injEq] at h
      subst h
      exact Or.inl ⟨rfl, rfl, rfl⟩
    | false =>
      simp only [hu] at h
      cases hd : getAllFilesFromChannel w.fileChannel
          (appendName [] obj.ServerName obj.OriginalName) with
      | returned m =>
        simp only [hd, Option.some.injEq] at h
        subst h
        exact Or.inr ⟨rfl, rfl, by simp⟩
      | blocked m =>
        simp only [hd, Option.some.injEq] at h
        subst h
        exact Or.inr ⟨rfl, rfl, by simp⟩

theorem resumeDrain_flag (w : World) (m : GoMap (List GoString)) :
    (resumeDrain w m).uploadFiles = w.uploadFiles ∧ (resumeDrain w m).flagLog = w.flagLog
    ∧ (resumeDrain w m).uploader ≠ .running := by
  unfold resumeDrain
  split <;> exact ⟨rfl, rfl, by simp⟩

theorem Step.flag_false (cs : CloudStorage) (w w1 : World) (h : Step cs w w1)
    (hf : w.uploadFiles = false) : w1.uploadFiles = false := by
  cases h with
  | poll clientConf _ f out => rw [(loopBody_flag clientConf w f out).1, hf]
  | save => exact hf
  | upload uploadOk fuel _ _ obj rest hrun hch hjob =>
    rcases uploadJob_flag cs uploadOk fuel _ w1 obj hjob with h1 | h1
    · rw [h1.1]
      exact hf
    · exact h1.1
  | drain _ m hb hne => rw [(resumeDrain_flag w m).1, hf]

theorem Step.flagLog_inv (cs : CloudStorage) (w w1 : World) (h : Step cs w w1)
    (hinv : w.flagLog.length ≤ 1 ∧ (w.uploader = .running → w.flagLog = [])
      ∧ ∀ b ∈ w.flagLog, b = false) :
    w1.flagLog.length ≤ 1 ∧ (w1.uploader = .running → w1.flagLog = [])
      ∧ ∀ b ∈ w1.flagLog, b = false := by
  cases h with
  | poll clientConf _ f out =>
    obtain ⟨_, h2, h3⟩ := loopBody_flag clientConf w f out
    rw [h2, h3]
    exact hinv
  | save => exact hinv
  | upload uploadOk fuel _ _ obj rest hrun hch hjob =>
    rcases uploadJob_flag cs uploadOk fuel _ w1 obj hjob with h1 | h1
    · obtain ⟨_, h2, h3⟩ := h1
      rw [h2, h3]
      exact hinv
    · obtain ⟨_, h2, h3⟩ := h1
      have h0 : w.flagLog = [] := hinv.2.1 hrun
      simp only [h0, List.nil_append] at h2
      rw [h2]
      exact ⟨by simp, fun hr => absurd hr h3, by simp⟩
  | drain _ m hb hne =>
    obtain ⟨_, h2, h3⟩ := resumeDrain_flag w m
    rw [h2]
    exact ⟨hinv.1, fun hr => absurd hr h3, hinv.2.2⟩

/-- C6: the flag `uploadFiles` is one-way. In every run, once the flag is false no step
of a poller or of the uploader sets it back to true; and in every run started by `main`
the uploader assigns the flag at most once, the value false, and once it has assigned
it the uploader is out of its upload loop for good. -/
theorem uploadFiles_one_way (cs : CloudStorage) :
    (∀ w w1 : World, Run cs w w1 → w.uploadFiles = false → w1.uploadFiles = false)
    ∧ (∀ (storage : Storage) (clientStorageErr : Bool) (w : World),
        Run cs (mainInit storage clientStorageErr) w →
        w.flagLog.length ≤ 1 ∧ (∀ b ∈ w.flagLog, b = false)
          ∧ (w.flagLog ≠ [] → w.uploader ≠ .running)) := by
  constructor
  · intro w w1 hrun hf
    induction hrun with
    | done => exact hf
    | next w1 w2 _ hstep ih => exact Step.flag_false cs w1 w2 hstep ih
  · intro storage clientStorageErr w hrun
    have key : w.flagLog.length ≤ 1 ∧ (w.uploader = .running → w.flagLog = [])
        ∧ ∀ b ∈ w.flagLog, b = false := by
      induction hrun with
      | done => simp [mainInit]
      | next w1 w2 _ hstep ih => exact Step.flagLog_inv cs w1 w2 hstep ih
    exact ⟨key.1, key.2.2, fun hne hrun => hne (key.2.1 hrun)⟩

/-- A witness of C6: from the start of `main`, a poller sends the new file `a.csv` to the
channel, the uploader gives up on it (ceiling 1, the upload fails) and sets the flag to
false, then a poller handles the new file `b.csv`: the flag was assigned once, the
value false, and the uploader is out of its loop. -/
theorem uploadFiles_one_way_witness :
    afterSecondPoll.flagLog.length ≤ 1 ∧ (∀ b ∈ afterSecondPoll.flagLog, b = false)
      ∧ (afterSecondPoll.flagLog ≠ [] → afterSecondPoll.uploader ≠ .running) :=
  (uploadFiles_one_way (cloudConf 1)).2 [] false afterSecondPoll
    (Run.next _ _ _
      (Run.next _ _ _
        (Run.next _ _ _ (Run.done _)
          (Step.poll alphaCsv _ (fileEntry "a.csv" 100) allOk))
        (Step.upload (fun _ => false) 1 afterFirstPoll afterGiveUp sentJob []
          (by decide) (by decide) (by decide)))
      (Step.poll alphaCsv afterGiveUp (fileEntry "b.csv" 100) allOk))

/-! ### The extension filter (C8) -/

theorem stringsSplit_ne_nil (s : GoString) (sep : Nat) : stringsSplit s sep ≠ [] := by
  induction s with
  | nil => simp [stringsSplit]
  | cons c cs ih =>
    unfold stringsSplit
    split
    · simp
    · split <;> simp

theorem stringsSplit_noSep (s : GoString) (sep : Nat) (h : sep ∉ s) :
    stringsSplit s sep = [s] := by
  induction s with
  | nil => rfl
  | cons c cs ih =>
    have hc : c ≠ sep := fun e => h (by simp [e])
    have hcs : sep ∉ cs := fun e => h (List.mem_cons_of_mem _ e)
    simp [stringsSplit, hc, ih hcs]

theorem stringsSplit_append (p r : GoString) (sep : Nat) :
    stringsSplit (p ++ sep :: r) sep = stringsSplit p sep ++ stringsSplit r sep := by
  induction p with
  | nil => simp [stringsSplit]
  | cons c p ih =>
    by_cases hc : c = sep
    · simp [stringsSplit, hc, ih]
    · obtain ⟨h, t, ht⟩ : ∃ h t, stringsSplit p sep = h :: t := by
        cases hs : stringsSplit p sep with
        | nil => exact absurd hs (stringsSplit_ne_nil p sep)
        | cons h t => exact ⟨h, t, rfl⟩
      simp [stringsSplit, hc, ih, ht]

theorem lastSegment_append (p e : GoString) (h : 46 ∉ e) : lastSegment (p ++ 46 :: e) = e := by
  unfold lastSegment
  rw [stringsSplit_append, stringsSplit_noSep e 46 h]
  simp [List.getLastD_eq_getLast?]

theorem lastSegment_noDot (name : GoString) (h : 46 ∉ name) : lastSegment name = name := by
  unfold lastSegment
  rw [stringsSplit_noSep name 46 h]
  rfl

theorem firstSegment_append (p r : GoString) (h : 46 ∉ p) : firstSegment (p ++ 46 :: r) = p := by
  unfold firstSegment
  rw [stringsSplit_append, stringsSplit_noSep p 46 h]
  rfl

theorem firstSegment_noDot (name : GoString) (h : 46 ∉ name) : firstSegment name = name := by
  unfold firstSegment
  rw [stringsSplit_noSep name 46 h]
  rfl

theorem EntryType.String_eq_file (t : EntryType) :
    t.String = ascii "file" ↔ t = .EntryTypeFile := by
  cases t <;> decide

theorem detect_record_ne_none (storage : Storage) (clientConf : Server) (f : Entry) :
    (detect storage clientConf f).1.record clientConf.ServerName f.Name ≠ none := by
  cases hd : (detect storage clientConf f).2 with
  | true => rw [detect_record_same _ _ _ hd]; simp
  | false =>
    cases h1 : storage.get clientConf.ServerName with
    | none =>
      rw [detect_noServer _ _ _ h1] at hd
      simp at hd
    | some inner =>
      cases h2 : inner.get f.Name with
      | none =>
        rw [detect_noFile _ _ _ _ h1 h2] at hd
        simp at hd
      | some saved =>
        rw [detect_unmarked _ _ _ hd]
        simp [Storage.record, h1, h2]

/-- C8: a listed entry is handled by the detect step exactly when its kind is `file` and
either the filter of the server is `*` or the last segment of its name between dots is
the filter. When the condition holds the body of the loop runs the detect step, after
which the ledger holds a record for the entry; when it fails the body changes nothing.
The last segment is what follows the last dot, and the whole name when the name has no
dot, so that the filter `*` lets every entry of kind `file` through. -/
theorem extension_filter (clientConf : Server) (w : World) (f : Entry) (out : FileOutcome) :
    ((f.Typ = .EntryTypeFile ∧ (clientConf.FileExtension = ascii "*"
          ∨ lastSegment f.Name = clientConf.FileExtension)) →
      (loopBody clientConf w f out).1.storage = (detect w.storage clientConf f).1
      ∧ (loopBody clientConf w f out).1.storage.record clientConf.ServerName f.Name ≠ none)
    ∧ (¬ (f.Typ = .EntryTypeFile ∧ (clientConf.FileExtension = ascii "*"
          ∨ lastSegment f.Name = clientConf.FileExtension)) →
      loopBody clientConf w f out = (w, false))
    ∧ (∀ p e : GoString, 46 ∉ e → lastSegment (p ++ 46 :: e) = e)
    ∧ (46 ∉ f.Name → lastSegment f.Name = f.Name) := by
  refine ⟨?_, ?_, lastSegment_append, lastSegment_noDot f.Name⟩
  · intro h
    have hfile : f.Typ.String = ascii "file" := (EntryType.String_eq_file _).2 h.1
    have hext : extensionMatches clientConf f = true := by
      rcases h.2 with h2 | h2 <;> simp [extensionMatches, h2]
    rw [loopBody_storage clientConf w f out hfile hext]
    exact ⟨rfl, detect_record_ne_none _ _ _⟩
  · intro h
    unfold loopBody
    by_cases hfile : f.Typ.String = ascii "file"
    · have hk := (EntryType.String_eq_file _).1 hfile
      have hext : ¬ extensionMatches clientConf f = true := by
        intro he
        apply h
        refine ⟨hk, ?_⟩
        simp only [extensionMatches, Bool.or_eq_true, decide_eq_true_eq] at he
        rcases he with he | he
        · exact Or.inr he
        · exact Or.inl he
      rw [if_pos hfile, if_neg hext]
    · rw [if_neg hfile]

/-- A witness of C8: with the filter `*` the file `README`, whose name has no dot, is
handled and recorded. -/
theorem extension_filter_witness :
    (loopBody alphaAny (mainInit [] false) (fileEntry "README" 100) allOk).1.storage
        = (detect (mainInit [] false).storage alphaAny (fileEntry "README" 100)).1
      ∧ (loopBody alphaAny (mainInit [] false) (fileEntry "README" 100) allOk).1.storage.record
          alphaAny.ServerName (fileEntry "README" 100).Name ≠ none :=
  (extension_filter alphaAny (mainInit [] false) (fileEntry "README" 100) allOk).1
    ⟨rfl, Or.inl rfl⟩

/-! ### Local file names and cloud object names (C9) -/

theorem loopBody_local (clientConf : Server) (w : World) (f : Entry) (out : FileOutcome)
    (data : GoString) (hfile : f.Typ.String = ascii "file")
    (hext : extensionMatches clientConf f = true)
    (hd : (detect w.storage clientConf f).2 = true) (hu : w.uploadFiles = false)
    (hr : out.retr = some data) (hc : out.create = true) :
    (loopBody clientConf w f out).1.created = w.created ++
      [ascii "./files/" ++ clientConf.ServerName ++ ascii "/"
        ++ GetFilenameFormatted f clientConf.FileExtension] := by
  unfold loopBody
  simp only [hfile, hext, hd, hr, hu, hc, if_true, Bool.not_false, Bool.not_true]
  cases out.copy <;> simp

theorem loopBody_cloud (clientConf : Server) (w : World) (f : Entry) (out : FileOutcome)
    (data : GoString) (hfile : f.Typ.String = ascii "file")
    (hext : extensionMatches clientConf f = true)
    (hd : (detect w.storage clientConf f).2 = true) (hu : w.uploadFiles = true)
    (hr : out.retr = some data) (ha : out.readAll = true) :
    (loopBody clientConf w f out).1.fileChannel = w.fileChannel ++
      [{ Data := data
         Filename := GetFilenameFormatted f (lastSegment f.Name)
         OriginalName := f.Name
         Host := clientConf.Host
         ServerName := clientConf.ServerName }] := by
  unfold loopBody
  simp only [hfile, hext, hd, hr, hu, ha, if_true, Bool.not_true]
  simp

theorem saveFilesOfServer_created_mem (clientConf : Server) (clientOk : Bool)
    (outcome : Nat → FileOutcome) (p : GoString) :
    ∀ (names : List GoString) (s : SaveState),
      p ∈ (saveFilesOfServer clientConf clientOk outcome names s).created →
      p ∈ s.created ∨ ∃ filename ∈ names,
        p = ascii "./files/" ++ clientConf.ServerName ++ ascii "/" ++ filename := by
  intro names
  induction names with
  | nil => intro s h; exact Or.inl h
  | cons filename rest ih =>
    intro s h
    unfold saveFilesOfServer at h
    cases clientOk with
    | false => exact Or.inl (by simpa using h)
    | true =>
      simp only [Bool.not_true, Bool.false_eq_true, if_false] at h
      cases hc : (outcome s.retrLog.length).create <;>
        cases hr : (outcome s.retrLog.length).retr <;>
        simp only [hc, hr, if_true, if_false, Bool.false_eq_true, List.mem_append,
          List.mem_singleton] at h
      · exact Or.inl h
      · rcases ih _ h with h1 | ⟨n, hn, hp⟩
        · exact Or.inl h1
        · exact Or.inr ⟨n, List.mem_cons_of_mem _ hn, hp⟩
      · rcases h with h | h
        · exact Or.inl h
        · exact Or.inr ⟨filename, List.mem_cons_self _ _, h⟩
      · rcases ih _ h with h1 | ⟨n, hn, hp⟩
        · simp only [List.mem_append, List.mem_singleton] at h1
          rcases h1 with h1 | h1
          · exact Or.inl h1
          · exact Or.inr ⟨filename, List.mem_cons_self _ _, h1⟩
        · exact Or.inr ⟨n, List.mem_cons_of_mem _ hn, hp⟩

theorem saveFilesOfKey_created_mem (newClientOk : Nat → Bool) (outcome : Nat → FileOutcome)
    (serverName : GoString) (names : List GoString) (p : GoString) :
    ∀ (clientsConf : List Server) (s : SaveState),
      p ∈ (saveFilesOfKey newClientOk outcome serverName names clientsConf s).created →
      p ∈ s.created ∨ ∃ clientConf ∈ clientsConf, clientConf.ServerName = serverName ∧
        ∃ filename ∈ names,
          p = ascii "./files/" ++ clientConf.ServerName ++ ascii "/" ++ filename := by
  intro clientsConf
  induction clientsConf with
  | nil => intro s h; exact Or.inl h
  | cons clientConf rest ih =>
    intro s h
    unfold saveFilesOfKey at h
    by_cases hs : serverName = clientConf.ServerName
    · simp only [hs, if_true] at h
      have key : p ∈ (saveFilesOfServer clientConf (newClientOk s.clients) outcome names
          { s with clients := s.clients + 1 }).created ∨
          ∃ cc ∈ rest, cc.ServerName = serverName ∧ ∃ filename ∈ names,
            p = ascii "./files/" ++ cc.ServerName ++ ascii "/" ++ filename := by
        split at h
        · exact Or.inl h
        · rcases ih _ (by rw [hs]; exact h) with h1 | ⟨cc, hcc, hn⟩
          · exact Or.inl h1
          · exact Or.inr ⟨cc, hcc, hn⟩
      rcases key with h1 | ⟨cc, hcc, hn⟩
      · rcases saveFilesOfServer_created_mem _ _ _ _ _ _ h1 with h2 | h2
        · exact Or.inl h2
        · exact Or.inr ⟨clientConf, List.mem_cons_self _ _, hs.symm, h2⟩
      · exact Or.inr ⟨cc, List.mem_cons_of_mem _ hcc, hn⟩
    · simp only [hs, if_false] at h
      rcases ih _ h with h1 | ⟨cc, hcc, hn⟩
      · exact Or.inl h1
      · exact Or.inr ⟨cc, List.mem_cons_of_mem _ hcc, hn⟩

theorem saveFilesLoop_created_mem (clientsConf : List Server) (newClientOk : Nat → Bool)
    (outcome : Nat → FileOutcome) (p : GoString) :
    ∀ (m : GoMap (List GoString)) (s : SaveState),
      p ∈ (saveFilesLoop clientsConf newClientOk outcome m s).created →
      p ∈ s.created ∨ ∃ clientConf ∈ clientsConf, ∃ names,
        (clientConf.ServerName, names) ∈ m ∧ ∃ filename ∈ names,
          p = ascii "./files/" ++ clientConf.ServerName ++ ascii "/" ++ filename := by
  intro m
  induction m with
  | nil => intro s h; exact Or.inl h
  | cons kv rest ih =>
    intro s h
    obtain ⟨serverName, names⟩ := kv
    unfold saveFilesLoop at h
    have key : p ∈ (saveFilesOfKey newClientOk outcome serverName names clientsConf s).created ∨
        ∃ cc ∈ clientsConf, ∃ ns, (cc.ServerName, ns) ∈ rest ∧ ∃ filename ∈ ns,
          p = ascii "./files/" ++ cc.ServerName ++ ascii "/" ++ filename := by
      simp only at h
      split at h
      · exact Or.inl h
      · rcases ih _ h with h1 | h1
        · exact Or.inl h1
        · exact Or.inr h1
    rcases key with h1 | ⟨cc, hcc, ns, hns, hn⟩
    · rcases saveFilesOfKey_created_mem _ _ _ _ _ _ _ h1 with h2 | ⟨cc, hcc, hname, hn⟩
      · exact Or.inl h2
      · exact Or.inr ⟨cc, hcc, names, by rw [hname]; exact List.mem_cons_self _ _, hn⟩
    · exact Or.inr ⟨cc, hcc, ns, List.mem_cons_of_mem _ hns, hn⟩

theorem saveFilesOfServer_ok (clientConf : Server) (outcome : Nat → FileOutcome) :
    ∀ (names : List GoString) (s : SaveState),
      (∀ i < names.length, (outcome (s.retrLog.length + i)).retr ≠ none
        ∧ (outcome (s.retrLog.length + i)).create = true) →
      saveFilesOfServer clientConf true outcome names s =
        { s with
          retrLog := s.retrLog ++ names.map fun filename => (clientConf.ServerName, filename)
          created := s.created ++ names.map fun filename =>
            ascii "./files/" ++ clientConf.ServerName ++ ascii "/" ++ filename } := by
  intro names
  induction names with
  | nil => intro s _; simp [saveFilesOfServer]
  | cons filename rest ih =>
    intro s h
    have h0 := h 0 (by simp)
    simp only [Nat.add_zero] at h0
    obtain ⟨data, hd⟩ := Option.ne_none_iff_exists'.1 h0.1
    unfold saveFilesOfServer
    simp only [Bool.not_true, Bool.false_eq_true, if_false, h0.2, if_true, hd]
    rw [ih]
    · simp
    · intro i hi
      have := h (i + 1) (by simp; omega)
      simpa [Nat.add_assoc, Nat.add_comm 1 i] using this

theorem saveFilesOfServer_retr_fails (clientConf : Server) (outcome : Nat → FileOutcome)
    (n : GoString) (post : List GoString) :
    ∀ (pre : List GoString) (s : SaveState),
      (∀ i < pre.length, (outcome (s.retrLog.length + i)).retr ≠ none
        ∧ (outcome (s.retrLog.length + i)).create = true) →
      (outcome (s.retrLog.length + pre.length)).retr = none →
      (outcome (s.retrLog.length + pre.length)).create = true →
      saveFilesOfServer clientConf true outcome (pre ++ n :: post) s =
        { s with
          retrLog := s.retrLog ++ (pre ++ [n]).map fun filename =>
            (clientConf.ServerName, filename)
          created := s.created ++ (pre ++ [n]).map fun filename =>
            ascii "./files/" ++ clientConf.ServerName ++ ascii "/" ++ filename
          panicked := true } := by
  intro pre
  induction pre with
  | nil =>
    intro s _ hr hc
    simp only [List.length_nil, Nat.add_zero] at hr hc
    simp [saveFilesOfServer, hr, hc]
  | cons filename rest ih =>
    intro s h hr hc
    have h0 := h 0 (by simp)
    simp only [Nat.add_zero] at h0
    obtain ⟨data, hd⟩ := Option.ne_none_iff_exists'.1 h0.1
    simp only [List.cons_append]
    unfold saveFilesOfServer
    simp only [Bool.not_true, Bool.false_eq_true, if_false, h0.2, if_true, hd]
    rw [ih]
    · simp
    · intro i hi
      have := h (i + 1) (by simp; omega)
      simpa [Nat.add_assoc, Nat.add_comm 1 i] using this
    · simpa [Nat.add_assoc, Nat.add_comm 1 rest.length] using hr
    · simpa [Nat.add_assoc, Nat.add_comm 1 rest.length] using hc

/-- C9 fails as stated. With the filter `*` the poller saves `report.csv` locally as
`report__1-1-1970_0-0-0.*`, while the object name sent to the cloud for the same entry
is `report__1-1-1970_0-0-0.csv`. And the drain path, with every call succeeding, saves
the file under its original name `report.csv`. -/
theorem local_name_counterexample :
    (loopBody alphaAny { mainInit [] false with uploadFiles := false }
        (fileEntry "report.csv" 0) allOk).1.created
      = [ascii "./files/alpha/report__1-1-1970_0-0-0.*"]
    ∧ (loopBody alphaAny (mainInit [] false) (fileEntry "report.csv" 0) allOk).1.fileChannel.map
        (fun job => ascii "./files/" ++ job.ServerName ++ ascii "/" ++ job.Filename)
      = [ascii "./files/alpha/report__1-1-1970_0-0-0.csv"]
    ∧ (saveFilesLocallyFromChannel [alphaCsv] [(ascii "alpha", [ascii "report.csv"])]
        (fun _ => true) (fun _ => allOk)).created
      = [ascii "./files/alpha/report.csv"] := by
  decide

/-- C9, amended: for every retrieved entry whose last segment between dots is the filter
of the server, which is every entry that passes a filter other than `*`, the name under
which the poller saves the file locally is the object name the entry gets on the cloud
path. Every file that the drain path creates, whatever its calls return, is a file
`./files/<server name>/<original name>` for a configured server and a name that the map
holds for it. With one server and every call succeeding, the drain path creates one such
file for each name and ends without a panic; when `Retr` fails for a name, that file is
still created, the task panics, and the names after it get no file. -/
theorem local_name_eq_cloud_name (clientConf : Server) (w : World) (f : Entry)
    (out : FileOutcome) (data : GoString) (names pre post : List GoString) (n : GoString)
    (clientsConf : List Server) (m : GoMap (List GoString)) (newClientOk : Nat → Bool)
    (drainOutcome : Nat → FileOutcome) :
    (extensionMatches clientConf f = true → clientConf.FileExtension ≠ ascii "*" →
      lastSegment f.Name = clientConf.FileExtension)
    ∧ (lastSegment f.Name = clientConf.FileExtension → f.Typ = .EntryTypeFile →
        (detect w.storage clientConf f).2 = true →
        out.retr = some data → out.create = true → out.readAll = true →
        (loopBody clientConf { w with uploadFiles := false } f out).1.created
            = w.created ++ [ascii "./files/" ++ clientConf.ServerName ++ ascii "/"
                ++ GetFilenameFormatted f (lastSegment f.Name)]
        ∧ (loopBody clientConf { w with uploadFiles := true } f out).1.fileChannel
            = w.fileChannel ++
              [{ Data := data
                 Filename := GetFilenameFormatted f (lastSegment f.Name)
                 OriginalName := f.Name
                 Host := clientConf.Host
                 ServerName := clientConf.ServerName }])
    ∧ (∀ p ∈ (saveFilesLocallyFromChannel clientsConf m newClientOk drainOutcome).created,
        ∃ server ∈ clientsConf, ∃ originalNames, (server.ServerName, originalNames) ∈ m ∧
          ∃ filename ∈ originalNames,
            p = ascii "./files/" ++ server.ServerName ++ ascii "/" ++ filename)
    ∧ (newClientOk 0 = true →
        (∀ i < names.length, (drainOutcome i).retr ≠ none ∧ (drainOutcome i).create = true) →
        (saveFilesLocallyFromChannel [clientConf] [(clientConf.ServerName, names)]
            newClientOk drainOutcome).created
          = (names.map fun filename =>
              ascii "./files/" ++ clientConf.ServerName ++ ascii "/" ++ filename)
        ∧ (saveFilesLocallyFromChannel [clientConf] [(clientConf.ServerName, names)]
            newClientOk drainOutcome).panicked = false)
    ∧ (newClientOk 0 = true →
        (∀ i < pre.length, (drainOutcome i).retr ≠ none ∧ (drainOutcome i).create = true) →
        (drainOutcome pre.length).retr = none → (drainOutcome pre.length).create = true →
        (saveFilesLocallyFromChannel [clientConf] [(clientConf.ServerName, pre ++ n :: post)]
            newClientOk drainOutcome).created
          = ((pre ++ [n]).map fun filename =>
              ascii "./files/" ++ clientConf.ServerName ++ ascii "/" ++ filename)
        ∧ (saveFilesLocallyFromChannel [clientConf] [(clientConf.ServerName, pre ++ n :: post)]
            newClientOk drainOutcome).panicked = true) := by
  refine ⟨?_, ?_, ?_, ?_, ?_⟩
  · intro hext hstar
    simp only [extensionMatches, Bool.or_eq_true, decide_eq_true_eq] at hext
    rcases hext with h | h
    · exact h
    · exact absurd h hstar
  · intro hseg hfile hd hr hc ha
    have hfile2 : f.Typ.String = ascii "file" := (EntryType.String_eq_file _).2 hfile
    have hext : extensionMatches clientConf f = true := by
      simp [extensionMatches, hseg]
    constructor
    · rw [loopBody_local clientConf { w with uploadFiles := false } f out data hfile2 hext hd
        rfl hr hc, hseg]
    · rw [loopBody_cloud clientConf { w with uploadFiles := true } f out data hfile2 hext hd
        rfl hr ha]
  · intro p hp
    rcases saveFilesLoop_created_mem _ _ _ _ _ _ hp with h | h
    · simp at h
    · exact h
  · intro hc hall
    have h := saveFilesOfServer_ok clientConf drainOutcome names
      { clients := 1, retrLog := [], created := [], panicked := false }
      (by simpa using hall)
    simp [saveFilesLocallyFromChannel, saveFilesLoop, saveFilesOfKey, hc, h]
  · intro hc hall hr hcr
    have h := saveFilesOfServer_retr_fails clientConf drainOutcome n post pre
      { clients := 1, retrLog := [], created := [], panicked := false }
      (by simpa using hall) (by simpa using hr) (by simpa using hcr)
    simp [saveFilesLocallyFromChannel, saveFilesLoop, saveFilesOfKey, hc, h]

/-- A witness of the amended C9: the file `report.csv` of a server with the filter `csv`
gets the same name on the local path and on the cloud path; and a drain task for the
names `a.csv`, `missing.csv`, `after.csv` in which `Retr` fails for `missing.csv` creates
`a.csv` and `missing.csv` under their original names and panics before `after.csv`. -/
theorem local_name_eq_cloud_name_witness :
    ((loopBody alphaCsv { mainInit [] false with uploadFiles := false }
        (fileEntry "report.csv" 0) allOk).1.created
      = (mainInit [] false).created ++ [ascii "./files/" ++ alphaCsv.ServerName ++ ascii "/"
          ++ GetFilenameFormatted (fileEntry "report.csv" 0)
              (lastSegment (fileEntry "report.csv" 0).Name)]
    ∧ (loopBody alphaCsv { mainInit [] false with uploadFiles := true }
        (fileEntry "report.csv" 0) allOk).1.fileChannel
      = (mainInit [] false).fileChannel ++
          [{ Data := [1, 2, 3]
             Filename := GetFilenameFormatted (fileEntry "report.csv" 0)
                (lastSegment (fileEntry "report.csv" 0).Name)
             OriginalName := (fileEntry "report.csv" 0).Name
             Host := alphaCsv.Host
             ServerName := alphaCsv.ServerName }])
    ∧ ((saveFilesLocallyFromChannel [alphaCsv]
          [(alphaCsv.ServerName, [ascii "a.csv"] ++ ascii "missing.csv" :: [ascii "after.csv"])]
          (fun _ => true) (fun i => if i = 1 then retrFails else allOk)).created
        = ([ascii "a.csv"] ++ [ascii "missing.csv"]).map fun filename =>
            ascii "./files/" ++ alphaCsv.ServerName ++ ascii "/" ++ filename)
      ∧ (saveFilesLocallyFromChannel [alphaCsv]
          [(alphaCsv.ServerName, [ascii "a.csv"] ++ ascii "missing.csv" :: [ascii "after.csv"])]
          (fun _ => true) (fun i => if i = 1 then retrFails else allOk)).panicked = true :=
  ⟨(local_name_eq_cloud_name alphaCsv (mainInit [] false) (fileEntry "report.csv" 0) allOk
      [1, 2, 3] [] [] [] [] [] [] (fun _ => true) (fun _ => allOk)).2.1
        (by decide) rfl (by decide) rfl rfl rfl,
   (local_name_eq_cloud_name alphaCsv (mainInit [] false) (fileEntry "report.csv" 0) allOk
      [1, 2, 3] [] [ascii "a.csv"] [ascii "after.csv"] (ascii "missing.csv") [] []
      (fun _ => true) (fun i => if i = 1 then retrFails else allOk)).2.2.2.2
        rfl (by decide) (by decide) (by decide)⟩

/-! ### Uniqueness of the object names (C10) -/

theorem append_sep_inj_left (sep : Nat) :
    ∀ (a a2 b b2 : List Nat), sep ∉ a → sep ∉ a2 → a ++ sep :: b = a2 ++ sep :: b2 →
      a = a2 ∧ b = b2 := by
  intro a
  induction a with
  | nil =>
    intro a2 b b2 _ ha2 h
    cases a2 with
    | nil => simpa using h
    | cons c a2 =>
      simp only [List.nil_append, List.cons_append, List.cons.injEq] at h
      exact absurd (by simp [h.1]) ha2
  | cons c a ih =>
    intro a2 b b2 ha ha2 h
    cases a2 with
    | nil =>
      simp only [List.nil_append, List.cons_append, List.cons.injEq] at h
      exact absurd (by simp [h.1]) ha
    | cons c2 a2 =>
      simp only [List.cons_append, List.cons.injEq] at h
      obtain ⟨h1, h2⟩ := ih a2 b b2 (fun e => ha (List.mem_cons_of_mem _ e))
        (fun e => ha2 (List.mem_cons_of_mem _ e)) h.2
      exact ⟨by rw [h.1, h1], h2⟩

theorem append_sep_inj_right (sep : Nat) (a a2 b b2 : List Nat) (hb : sep ∉ b) (hb2 : sep ∉ b2)
    (h : a ++ sep :: b = a2 ++ sep :: b2) : a = a2 ∧ b = b2 := by
  have h2 : b.reverse ++ sep :: a.reverse = b2.reverse ++ sep :: a2.reverse := by
    have := congrArg List.reverse h
    simpa using this
  obtain ⟨h3, h4⟩ := append_sep_inj_left sep b.reverse b2.reverse a.reverse a2.reverse
    (by simpa using hb) (by simpa using hb2) h2
  exact ⟨List.reverse_injective h4, List.reverse_injective h3⟩

theorem stringsSplit_noSep_mem (s : GoString) (sep : Nat) :
    ∀ seg ∈ stringsSplit s sep, sep ∉ seg := by
  induction s with
  | nil => simp [stringsSplit]
  | cons c cs ih =>
    by_cases hc : c = sep
    · simp only [stringsSplit, hc, if_true, List.mem_cons]
      rintro seg (h | h)
      · simp [h]
      · exact ih seg h
    · obtain ⟨h, t, ht⟩ : ∃ h t, stringsSplit cs sep = h :: t := by
        cases hs : stringsSplit cs sep with
        | nil => exact absurd hs (stringsSplit_ne_nil cs sep)
        | cons h t => exact ⟨h, t, rfl⟩
      simp only [stringsSplit, hc, if_false, ht, List.mem_cons]
      rintro seg (hseg | hseg)
      · subst hseg
        have := ih h (by simp [ht])
        simp only [List.mem_cons, not_or]
        exact ⟨fun e => hc e.symm, this⟩
      · exact ih seg (by simp [ht, hseg])

theorem lastSegment_noDot_mem (name : GoString) : 46 ∉ lastSegment name := by
  unfold lastSegment
  have hne := stringsSplit_ne_nil name 46
  rw [List.getLastD_eq_getLast?, List.getLast?_eq_getLast _ hne]
  exact stringsSplit_noSep_mem name 46 _ (List.getLast_mem hne)

theorem firstSegment_noDot_mem (name : GoString) : 46 ∉ firstSegment name := by
  unfold firstSegment
  cases hs : stringsSplit name 46 with
  | nil => exact absurd hs (stringsSplit_ne_nil name 46)
  | cons h t =>
    exact stringsSplit_noSep_mem name 46 h (by simp [hs])

theorem decimalRev_digits (fuel : Nat) : ∀ n, ∀ d ∈ decimalRev fuel n, 48 ≤ d ∧ d ≤ 57 := by
  induction fuel with
  | zero => intro n d h; simp [decimalRev] at h
  | succ fuel ih =>
    intro n d h
    unfold decimalRev at h
    split at h
    · simp only [List.mem_singleton] at h
      omega
    · simp only [List.mem_cons] at h
      rcases h with h | h
      · omega
      · exact ih _ d h

theorem decimalRev_value (fuel : Nat) : ∀ n, n < fuel →
    (decimalRev fuel n).foldr (fun d acc => d - 48 + 10 * acc) 0 = n := by
  induction fuel with
  | zero => intro n h; omega
  | succ fuel ih =>
    intro n h
    unfold decimalRev
    split
    · simp
    · simp only [List.foldr_cons]
      rw [ih (n / 10) (by omega)]
      omega

theorem decimalRev_ne_nil (n : Nat) : decimalRev (n + 1) n ≠ [] := by
  unfold decimalRev
  split <;> simp

theorem formatNat_injective (n m : Nat) (h : formatNat n = formatNat m) : n = m := by
  unfold formatNat at h
  have h2 := List.reverse_injective h
  have h3 := decimalRev_value (n + 1) n (by omega)
  have h4 := decimalRev_value (m + 1) m (by omega)
  rw [h2] at h3
  omega

theorem formatNat_digits (n : Nat) : ∀ d ∈ formatNat n, 48 ≤ d ∧ d ≤ 57 := by
  intro d h
  unfold formatNat at h
  exact decimalRev_digits _ _ d (by simpa using h)

theorem formatNat_ne_nil (n : Nat) : formatNat n ≠ [] := by
  unfold formatNat
  simpa using decimalRev_ne_nil n

theorem formatNat_not_mem (n c : Nat) (hc : c < 48) : c ∉ formatNat n := by
  intro h
  have := formatNat_digits n c h
  omega

theorem formatInt_not_mem (i : Int) (c : Nat) (hc : c < 48) (h45 : c ≠ 45) : c ∉ formatInt i := by
  unfold formatInt
  split
  · simp only [List.mem_cons, not_or]
    exact ⟨h45, formatNat_not_mem _ c hc⟩
  · exact formatNat_not_mem _ c hc

theorem formatNat_not_mem_95 (n : Nat) : 95 ∉ formatNat n := by
  intro h
  have := formatNat_digits n 95 h
  omega

theorem formatInt_not_mem_95 (i : Int) : 95 ∉ formatInt i := by
  unfold formatInt
  split
  · simp only [List.mem_cons, not_or]
    exact ⟨by decide, formatNat_not_mem_95 _⟩
  · exact formatNat_not_mem_95 _

theorem formatInt_injective (i j : Int) (h : formatInt i = formatInt j) : i = j := by
  unfold formatInt at h
  have hd : ∀ n : Nat, ∀ rest, formatNat n ≠ 45 :: rest := by
    intro n rest e
    have := formatNat_digits n 45 (by simp [e])
    omega
  by_cases hi : i < 0 <;> by_cases hj : j < 0
  · simp only [hi, hj, if_true, List.cons.injEq, true_and] at h
    have := formatNat_injective _ _ h
    omega
  · simp only [hi, hj, if_true, if_false] at h
    exact absurd h.symm (hd _ _)
  · simp only [hi, hj, if_true, if_false] at h
    exact absurd h (hd _ _)
  · simp only [hi, hj, if_false] at h
    have := formatNat_injective _ _ h
    omega

theorem absYearDay_spec (abs : Nat) :
    ∃ a b c e : Nat, abs / 86400 = 146097 * a + 36524 * b + 1461 * c + 365 * e + (absYearDay abs).2
      ∧ (absYearDay abs).1 = 400 * a + 100 * b + 4 * c + e
      ∧ b ≤ 3 ∧ c ≤ 24 ∧ e ≤ 3 ∧ (absYearDay abs).2 ≤ 365 := by
  refine ⟨abs / 86400 / 146097,
    (abs / 86400 - 146097 * (abs / 86400 / 146097)) / 36524
      - (abs / 86400 - 146097 * (abs / 86400 / 146097)) / 36524 / 4,
    (abs / 86400 - 146097 * (abs / 86400 / 146097)
      - 36524 * ((abs / 86400 - 146097 * (abs / 86400 / 146097)) / 36524
        - (abs / 86400 - 146097 * (abs / 86400 / 146097)) / 36524 / 4)) / 1461,
    (abs / 86400 - 146097 * (abs / 86400 / 146097)
      - 36524 * ((abs / 86400 - 146097 * (abs / 86400 / 146097)) / 36524
        - (abs / 86400 - 146097 * (abs / 86400 / 146097)) / 36524 / 4)
      - 1461 * ((abs / 86400 - 146097 * (abs / 86400 / 146097)
        - 36524 * ((abs / 86400 - 146097 * (abs / 86400 / 146097)) / 36524
          - (abs / 86400 - 146097 * (abs / 86400 / 146097)) / 36524 / 4)) / 1461)) / 365
      - (abs / 86400 - 146097 * (abs / 86400 / 146097)
      - 36524 * ((abs / 86400 - 146097 * (abs / 86400 / 146097)) / 36524
        - (abs / 86400 - 146097 * (abs / 86400 / 146097)) / 36524 / 4)
      - 1461 * ((abs / 86400 - 146097 * (abs / 86400 / 146097)
        - 36524 * ((abs / 86400 - 146097 * (abs / 86400 / 146097)) / 36524
          - (abs / 86400 - 146097 * (abs / 86400 / 146097)) / 36524 / 4)) / 1461)) / 365 / 4,
    ?_, ?_, ?_, ?_, ?_, ?_⟩ <;> (try simp only [absYearDay]) <;> omega

theorem absYearDay_injective (abs1 abs2 : Nat) (h : absYearDay abs1 = absYearDay abs2) :
    abs1 / 86400 = abs2 / 86400 := by
  obtain ⟨a1, b1, c1, e1, hd1, hy1, hb1, hc1, he1, _⟩ := absYearDay_spec abs1
  obtain ⟨a2, b2, c2, e2, hd2, hy2, hb2, hc2, he2, _⟩ := absYearDay_spec abs2
  rw [h] at hd1 hy1
  omega
set_option maxRecDepth 100000 in
theorem monthDay_yday : ∀ leap : Bool, ∀ yday, yday < 366 →
    daysBefore.getD ((monthDay leap yday).1 - 1) 0 + (monthDay leap yday).2 - 1
      + (if leap && decide ((monthDay leap yday).1 > 2) then 1 else 0) = yday := by
  decide

theorem unixDate_injective (t1 t2 : Int) (h : unixDate t1 = unixDate t2) :
    absSeconds t1 / 86400 = absSeconds t2 / 86400 := by
  unfold unixDate at h
  simp only [Prod.mk.injEq] at h
  obtain ⟨hy, hm, hd⟩ := h
  have hy2 : (absYearDay (absSeconds t1)).1 = (absYearDay (absSeconds t2)).1 := by omega
  obtain ⟨_, _, _, _, _, _, _, _, _, hb1⟩ := absYearDay_spec (absSeconds t1)
  obtain ⟨_, _, _, _, _, _, _, _, _, hb2⟩ := absYearDay_spec (absSeconds t2)
  have h1 := monthDay_yday (isLeap (((absYearDay (absSeconds t1)).1 : Int) + absoluteZeroYear))
    (absYearDay (absSeconds t1)).2 (by omega)
  have h2 := monthDay_yday (isLeap (((absYearDay (absSeconds t2)).1 : Int) + absoluteZeroYear))
    (absYearDay (absSeconds t2)).2 (by omega)
  rw [hy] at hm hd h1
  rw [hm, hd] at h1
  have hyd : (absYearDay (absSeconds t1)).2 = (absYearDay (absSeconds t2)).2 :=
    h1.symm.trans h2
  exact absYearDay_injective _ _ (Prod.ext hy2 hyd)

theorem unix_time_injective (t1 t2 : Int)
    (h1 : -9223372036854775808 ≤ t1 ∧ t1 < 9223372036854775808)
    (h2 : -9223372036854775808 ≤ t2 ∧ t2 < 9223372036854775808)
    (hdate : unixDate t1 = unixDate t2) (hh : unixHour t1 = unixHour t2)
    (hm : unixMinute t1 = unixMinute t2) (hs : unixSecond t1 = unixSecond t2) : t1 = t2 := by
  have hd := unixDate_injective t1 t2 hdate
  unfold unixHour at hh
  unfold unixMinute at hm
  unfold unixSecond at hs
  have habs : absSeconds t1 = absSeconds t2 := by omega
  unfold absSeconds toUint64 at habs
  omega

theorem GetFilenameFormatted_eq (file : Entry) (ext : GoString) :
    GetFilenameFormatted file ext =
      (((firstSegment file.Name ++ [95]) ++ 95 ::
          (formatNat (unixDate file.Time).2.2 ++ 45 ::
            (formatNat (unixDate file.Time).2.1 ++ 45 :: formatInt (unixDate file.Time).1)))
        ++ 95 :: (formatNat (unixHour file.Time) ++ 45 ::
            (formatNat (unixMinute file.Time) ++ 45 :: formatNat (unixSecond file.Time))))
        ++ 46 :: ext := by
  simp [GetFilenameFormatted, List.append_assoc]

theorem GetFilenameFormatted_injective (f1 f2 : Entry) (ext1 ext2 : GoString)
    (he1 : 46 ∉ ext1) (he2 : 46 ∉ ext2)
    (h : GetFilenameFormatted f1 ext1 = GetFilenameFormatted f2 ext2) :
    firstSegment f1.Name = firstSegment f2.Name ∧ ext1 = ext2
      ∧ unixDate f1.Time = unixDate f2.Time ∧ unixHour f1.Time = unixHour f2.Time
      ∧ unixMinute f1.Time = unixMinute f2.Time ∧ unixSecond f1.Time = unixSecond f2.Time := by
  rw [GetFilenameFormatted_eq, GetFilenameFormatted_eq] at h
  have n45 : ∀ n, 45 ∉ formatNat n := fun n => formatNat_not_mem n 45 (by decide)
  have n95 : ∀ n, 95 ∉ formatNat n := formatNat_not_mem_95
  have clock : ∀ a b c : Nat, 95 ∉ formatNat a ++ 45 :: (formatNat b ++ 45 :: formatNat c) := by
    intro a b c
    simp only [List.mem_append, List.mem_cons, not_or]
    exact ⟨n95 a, by decide, n95 b, by decide, n95 c⟩
  have date : ∀ (a b : Nat) (c : Int),
      95 ∉ formatNat a ++ 45 :: (formatNat b ++ 45 :: formatInt c) := by
    intro a b c
    simp only [List.mem_append, List.mem_cons, not_or]
    exact ⟨n95 a, by decide, n95 b, by decide, formatInt_not_mem_95 c⟩
  obtain ⟨h1, hext⟩ := append_sep_inj_right 46 _ _ _ _ he1 he2 h
  obtain ⟨h2, hclock⟩ := append_sep_inj_right 95 _ _ _ _ (clock _ _ _) (clock _ _ _) h1
  obtain ⟨h3, hdate⟩ := append_sep_inj_right 95 _ _ _ _ (date _ _ _) (date _ _ _) h2
  have hname : firstSegment f1.Name = firstSegment f2.Name := List.append_cancel_right h3
  obtain ⟨hd, hdate2⟩ := append_sep_inj_left 45 _ _ _ _ (n45 _) (n45 _) hdate
  obtain ⟨hm, hy⟩ := append_sep_inj_left 45 _ _ _ _ (n45 _) (n45 _) hdate2
  obtain ⟨hh, hclock2⟩ := append_sep_inj_left 45 _ _ _ _ (n45 _) (n45 _) hclock
  obtain ⟨hmi, hs⟩ := append_sep_inj_left 45 _ _ _ _ (n45 _) (n45 _) hclock2
  refine ⟨hname, hext, ?_, formatNat_injective _ _ hh, formatNat_injective _ _ hmi,
    formatNat_injective _ _ hs⟩
  exact Prod.ext (formatInt_injective _ _ hy)
    (Prod.ext (formatNat_injective _ _ hm) (formatNat_injective _ _ hd))

/-- C10 fails as stated: the entries `a.b.csv` and `a.c.csv` of one server, listed with
the same time, differ in name and get the same object name `a__1-1-1970_0-0-0.csv`. -/
theorem object_name_counterexample :
    (fileEntry "a.b.csv" 0).Name ≠ (fileEntry "a.c.csv" 0).Name
    ∧ GetFilenameFormatted (fileEntry "a.b.csv" 0) (lastSegment (fileEntry "a.b.csv" 0).Name)
      = GetFilenameFormatted (fileEntry "a.c.csv" 0) (lastSegment (fileEntry "a.c.csv" 0).Name)
    ∧ GetFilenameFormatted (fileEntry "a.b.csv" 0) (lastSegment (fileEntry "a.b.csv" 0).Name)
      = ascii "a__1-1-1970_0-0-0.csv" := by
  decide

/-- C10, amended: two file entries whose times are signed 64-bit numbers of seconds and
that differ in the time, in the segment of the name before the first dot or in the
segment after the last dot get different object names on the cloud path. -/
theorem object_name_unique (f1 f2 : Entry)
    (h1 : -9223372036854775808 ≤ f1.Time ∧ f1.Time < 9223372036854775808)
    (h2 : -9223372036854775808 ≤ f2.Time ∧ f2.Time < 9223372036854775808)
    (hne : f1.Time ≠ f2.Time ∨ firstSegment f1.Name ≠ firstSegment f2.Name
      ∨ lastSegment f1.Name ≠ lastSegment f2.Name) :
    GetFilenameFormatted f1 (lastSegment f1.Name)
      ≠ GetFilenameFormatted f2 (lastSegment f2.Name) := by
  intro h
  obtain ⟨hname, hext, hdate, hh, hm, hs⟩ := GetFilenameFormatted_injective f1 f2 _ _
    (lastSegment_noDot_mem _) (lastSegment_noDot_mem _) h
  rcases hne with hne | hne | hne
  · exact hne (unix_time_injective _ _ h1 h2 hdate hh hm hs)
  · exact hne hname
  · exact hne hext

/-- A witness of the amended C10: `report.csv` listed with the times 0 and 1. -/
theorem object_name_unique_witness :
    GetFilenameFormatted (fileEntry "report.csv" 0) (lastSegment (fileEntry "report.csv" 0).Name)
      ≠ GetFilenameFormatted (fileEntry "report.csv" 1)
          (lastSegment (fileEntry "report.csv" 1).Name) :=
  object_name_unique (fileEntry "report.csv" 0) (fileEntry "report.csv" 1)
    (by decide) (by decide) (Or.inl (by decide))

/-! ### The ledger file (C7) -/

theorem DecodeRune_cases (s0 : Nat) (t : GoString) :
    (s0 < 128 ∧ DecodeRuneInString (s0 :: t) = (s0, 1))
    ∨ DecodeRuneInString (s0 :: t) = (RuneError, 1)
    ∨ (∃ s1 t1, t = s1 :: t1 ∧ 194 ≤ s0 ∧ s0 ≤ 223 ∧ 128 ≤ s1 ∧ s1 ≤ 191
        ∧ DecodeRuneInString (s0 :: t) = (s0 % 32 * 64 + s1 % 64, 2))
    ∨ (∃ s1 s2 t2, t = s1 :: s2 :: t2 ∧ 224 ≤ s0 ∧ s0 ≤ 239 ∧ (s0 = 224 → 160 ≤ s1)
        ∧ (s0 = 237 → s1 ≤ 159) ∧ 128 ≤ s1 ∧ s1 ≤ 191 ∧ 128 ≤ s2 ∧ s2 ≤ 191
        ∧ DecodeRuneInString (s0 :: t) = (s0 % 16 * 4096 + s1 % 64 * 64 + s2 % 64, 3))
    ∨ (∃ s1 s2 s3 t3, t = s1 :: s2 :: s3 :: t3 ∧ 240 ≤ s0 ∧ s0 ≤ 244 ∧ (s0 = 240 → 144 ≤ s1)
        ∧ (s0 = 244 → s1 ≤ 143) ∧ 128 ≤ s1 ∧ s1 ≤ 191 ∧ 128 ≤ s2 ∧ s2 ≤ 191
        ∧ 128 ≤ s3 ∧ s3 ≤ 191
        ∧ DecodeRuneInString (s0 :: t)
          = (s0 % 8 * 262144 + s1 % 64 * 4096 + s2 % 64 * 64 + s3 % 64, 4)) := by
  by_cases h0 : s0 < 128
  · left
    exact ⟨h0, by simp [DecodeRuneInString, h0]⟩
  by_cases h1 : s0 < 194 ∨ 244 < s0
  · right; left
    simp [DecodeRuneInString, h0, h1]
  right
  cases t with
  | nil =>
    left
    simp [DecodeRuneInString, h0, h1]
  | cons s1 t1 =>
    by_cases hr : s1 < (if s0 = 224 then 160 else if s0 = 240 then 144 else 128)
        ∨ (if s0 = 237 then 159 else if s0 = 244 then 143 else 191) < s1
    · left
      simp only [DecodeRuneInString, h0, h1, if_false, hr, if_true]
      split_ifs <;> rfl
    have hr1 : 128 ≤ s1 ∧ s1 ≤ 191 ∧ (s0 = 224 → 160 ≤ s1) ∧ (s0 = 240 → 144 ≤ s1)
        ∧ (s0 = 237 → s1 ≤ 159) ∧ (s0 = 244 → s1 ≤ 143) := by
      split_ifs at hr <;> omega
    by_cases h2 : s0 < 224
    · right; left
      refine ⟨s1, t1, rfl, by omega, by omega, hr1.1, hr1.2.1, ?_⟩
      simp [DecodeRuneInString, h0, h1, hr, h2]
    cases t1 with
    | nil =>
      left
      simp only [DecodeRuneInString, h0, h1, if_false, hr, h2]
      split_ifs <;> first | rfl | (simp at *)
    | cons s2 t2 =>
      by_cases hr2 : s2 < 128 ∨ 191 < s2
      · left
        simp only [DecodeRuneInString, h0, h1, if_false, hr, h2, hr2, if_true]
        split_ifs <;> first | rfl | (simp at *)
      by_cases h3 : s0 < 240
      · right; right; left
        refine ⟨s1, s2, t2, rfl, by omega, by omega, hr1.2.2.1, hr1.2.2.2.2.1, hr1.1, hr1.2.1,
          by omega, by omega, ?_⟩
        simp [DecodeRuneInString, h0, h1, hr, h2, h3, hr2]
      cases t2 with
      | nil =>
        left
        simp only [DecodeRuneInString, h0, h1, if_false, hr, h2, h3, hr2]
        split_ifs <;> first | rfl | (simp at *)
      | cons s3 t3 =>
        by_cases hr3 : s3 < 128 ∨ 191 < s3
        · left
          simp only [DecodeRuneInString, h0, h1, if_false, hr, h2, h3, hr2, hr3, if_true]
          split_ifs <;> first | rfl | (simp at *)
        right; right; right
        refine ⟨s1, s2, s3, t3, rfl, by omega, by omega, hr1.2.2.2.1, hr1.2.2.2.2.2, hr1.1,
          hr1.2.1, by omega, by omega, by omega, by omega, ?_⟩
        simp [DecodeRuneInString, h0, h1, hr, h2, h3, hr2, hr3]

theorem DecodeRune_two (s0 s1 : Nat) (t : GoString) (h0 : 194 ≤ s0 ∧ s0 ≤ 223)
    (h1 : 128 ≤ s1 ∧ s1 ≤ 191) :
    DecodeRuneInString (s0 :: s1 :: t) = (s0 % 32 * 64 + s1 % 64, 2) := by
  have a0 : ¬ s0 < 128 := by omega
  have a1 : ¬ (s0 < 194 ∨ 244 < s0) := by omega
  have a2 : s0 < 224 := by omega
  have hr : ¬ (s1 < (if s0 = 224 then 160 else if s0 = 240 then 144 else 128)
      ∨ (if s0 = 237 then 159 else if s0 = 244 then 143 else 191) < s1) := by
    split_ifs <;> omega
  simp [DecodeRuneInString, a0, a1, a2, hr]

theorem DecodeRune_three (s0 s1 s2 : Nat) (t : GoString) (h0 : 224 ≤ s0 ∧ s0 ≤ 239)
    (h1 : 128 ≤ s1 ∧ s1 ≤ 191) (ha : s0 = 224 → 160 ≤ s1) (hb : s0 = 237 → s1 ≤ 159)
    (h2 : 128 ≤ s2 ∧ s2 ≤ 191) :
    DecodeRuneInString (s0 :: s1 :: s2 :: t)
      = (s0 % 16 * 4096 + s1 % 64 * 64 + s2 % 64, 3) := by
  have a0 : ¬ s0 < 128 := by omega
  have a1 : ¬ (s0 < 194 ∨ 244 < s0) := by omega
  have a2 : ¬ s0 < 224 := by omega
  have a3 : s0 < 240 := by omega
  have hr : ¬ (s1 < (if s0 = 224 then 160 else if s0 = 240 then 144 else 128)
      ∨ (if s0 = 237 then 159 else if s0 = 244 then 143 else 191) < s1) := by
    split_ifs <;> omega
  have hr2 : ¬ (s2 < 128 ∨ 191 < s2) := by omega
  simp [DecodeRuneInString, a0, a1, a2, a3, hr, hr2]

theorem DecodeRune_four (s0 s1 s2 s3 : Nat) (t : GoString) (h0 : 240 ≤ s0 ∧ s0 ≤ 244)
    (h1 : 128 ≤ s1 ∧ s1 ≤ 191) (ha : s0 = 240 → 144 ≤ s1) (hb : s0 = 244 → s1 ≤ 143)
    (h2 : 128 ≤ s2 ∧ s2 ≤ 191) (h3 : 128 ≤ s3 ∧ s3 ≤ 191) :
    DecodeRuneInString (s0 :: s1 :: s2 :: s3 :: t)
      = (s0 % 8 * 262144 + s1 % 64 * 4096 + s2 % 64 * 64 + s3 % 64, 4) := by
  have a0 : ¬ s0 < 128 := by omega
  have a1 : ¬ (s0 < 194 ∨ 244 < s0) := by omega
  have a2 : ¬ s0 < 224 := by omega
  have a3 : ¬ s0 < 240 := by omega
  have hr : ¬ (s1 < (if s0 = 224 then 160 else if s0 = 240 then 144 else 128)
      ∨ (if s0 = 237 then 159 else if s0 = 244 then 143 else 191) < s1) := by
    split_ifs <;> omega
  have hr2 : ¬ (s2 < 128 ∨ 191 < s2) := by omega
  have hr3 : ¬ (s3 < 128 ∨ 191 < s3) := by omega
  simp [DecodeRuneInString, a0, a1, a2, a3, hr, hr2, hr3]

theorem EncodeRune_two (s0 s1 : Nat) (h0 : 194 ≤ s0 ∧ s0 ≤ 223) (h1 : 128 ≤ s1 ∧ s1 ≤ 191) :
    EncodeRune (s0 % 32 * 64 + s1 % 64) = [s0, s1] := by
  have a1 : ¬ s0 % 32 * 64 + s1 % 64 ≤ 127 := by omega
  have a2 : s0 % 32 * 64 + s1 % 64 ≤ 2047 := by omega
  have e1 : 192 + (s0 % 32 * 64 + s1 % 64) / 64 = s0 := by omega
  have e2 : 128 + (s0 % 32 * 64 + s1 % 64) % 64 = s1 := by omega
  simp only [EncodeRune, a1, a2, if_true, if_false, e1, e2]

theorem EncodeRune_three (s0 s1 s2 : Nat) (h0 : 224 ≤ s0 ∧ s0 ≤ 239)
    (h1 : 128 ≤ s1 ∧ s1 ≤ 191) (ha : s0 = 224 → 160 ≤ s1) (hb : s0 = 237 → s1 ≤ 159)
    (h2 : 128 ≤ s2 ∧ s2 ≤ 191) :
    EncodeRune (s0 % 16 * 4096 + s1 % 64 * 64 + s2 % 64) = [s0, s1, s2] := by
  have a1 : ¬ s0 % 16 * 4096 + s1 % 64 * 64 + s2 % 64 ≤ 127 := by omega
  have a2 : ¬ s0 % 16 * 4096 + s1 % 64 * 64 + s2 % 64 ≤ 2047 := by omega
  have a3 : ¬ (s0 % 16 * 4096 + s1 % 64 * 64 + s2 % 64 > 1114111
      ∨ (55296 ≤ s0 % 16 * 4096 + s1 % 64 * 64 + s2 % 64
        ∧ s0 % 16 * 4096 + s1 % 64 * 64 + s2 % 64 ≤ 57343)) := by omega
  have a4 : s0 % 16 * 4096 + s1 % 64 * 64 + s2 % 64 ≤ 65535 := by omega
  have e1 : 224 + (s0 % 16 * 4096 + s1 % 64 * 64 + s2 % 64) / 4096 = s0 := by omega
  have e2 : 128 + (s0 % 16 * 4096 + s1 % 64 * 64 + s2 % 64) / 64 % 64 = s1 := by omega
  have e3 : 128 + (s0 % 16 * 4096 + s1 % 64 * 64 + s2 % 64) % 64 = s2 := by omega
  simp only [EncodeRune, a1, a2, a3, a4, if_true, if_false, e1, e2, e3]

theorem EncodeRune_four (s0 s1 s2 s3 : Nat) (h0 : 240 ≤ s0 ∧ s0 ≤ 244)
    (h1 : 128 ≤ s1 ∧ s1 ≤ 191) (ha : s0 = 240 → 144 ≤ s1) (hb : s0 = 244 → s1 ≤ 143)
    (h2 : 128 ≤ s2 ∧ s2 ≤ 191) (h3 : 128 ≤ s3 ∧ s3 ≤ 191) :
    EncodeRune (s0 % 8 * 262144 + s1 % 64 * 4096 + s2 % 64 * 64 + s3 % 64)
      = [s0, s1, s2, s3] := by
  have a1 : ¬ s0 % 8 * 262144 + s1 % 64 * 4096 + s2 % 64 * 64 + s3 % 64 ≤ 127 := by omega
  have a2 : ¬ s0 % 8 * 262144 + s1 % 64 * 4096 + s2 % 64 * 64 + s3 % 64 ≤ 2047 := by omega
  have a3 : ¬ (s0 % 8 * 262144 + s1 % 64 * 4096 + s2 % 64 * 64 + s3 % 64 > 1114111
      ∨ (55296 ≤ s0 % 8 * 262144 + s1 % 64 * 4096 + s2 % 64 * 64 + s3 % 64
        ∧ s0 % 8 * 262144 + s1 % 64 * 4096 + s2 % 64 * 64 + s3 % 64 ≤ 57343)) := by omega
  have a4 : ¬ s0 % 8 * 262144 + s1 % 64 * 4096 + s2 % 64 * 64 + s3 % 64 ≤ 65535 := by omega
  have e1 : 240 + (s0 % 8 * 262144 + s1 % 64 * 4096 + s2 % 64 * 64 + s3 % 64) / 262144 = s0 := by
    omega
  have e2 : 128 + (s0 % 8 * 262144 + s1 % 64 * 4096 + s2 % 64 * 64 + s3 % 64) / 4096 % 64
      = s1 := by omega
  have e3 : 128 + (s0 % 8 * 262144 + s1 % 64 * 4096 + s2 % 64 * 64 + s3 % 64) / 64 % 64
      = s2 := by omega
  have e4 : 128 + (s0 % 8 * 262144 + s1 % 64 * 4096 + s2 % 64 * 64 + s3 % 64) % 64 = s3 := by
    omega
  simp only [EncodeRune, a1, a2, a3, a4, if_true, if_false, e1, e2, e3, e4]

/-- What a well-formed first rune of a string that starts with a byte above 127 looks
like: its width `n` is between 2 and 4 and within the string, it is not below 128,
`EncodeRune` gives back the first `n` bytes, and the result does not depend on what
follows them. -/
theorem DecodeRune_valid (s0 : Nat) (t : GoString) (h0 : ¬ s0 < 128)
    (hv : ¬ ((DecodeRuneInString (s0 :: t)).1 = RuneError
      ∧ (DecodeRuneInString (s0 :: t)).2 = 1)) :
    ∃ chunk rest, s0 :: t = chunk ++ rest ∧ chunk.length = (DecodeRuneInString (s0 :: t)).2
      ∧ 2 ≤ chunk.length
      ∧ EncodeRune (DecodeRuneInString (s0 :: t)).1 = chunk
      ∧ 128 ≤ (DecodeRuneInString (s0 :: t)).1
      ∧ (∀ u, DecodeRuneInString (chunk ++ u) = DecodeRuneInString (s0 :: t))
      ∧ (∃ c0 ct, chunk = c0 :: ct ∧ ¬ c0 < 128) := by
  rcases DecodeRune_cases s0 t with h | h | h | h | h
  · exact absurd h.1 h0
  · rw [h] at hv
    exact absurd ⟨rfl, rfl⟩ hv
  · obtain ⟨s1, t1, rfl, a, b, c, d, e⟩ := h
    rw [e]
    refine ⟨[s0, s1], t1, rfl, rfl, by simp, EncodeRune_two s0 s1 ⟨a, b⟩ ⟨c, d⟩, by omega,
      fun u => DecodeRune_two s0 s1 u ⟨a, b⟩ ⟨c, d⟩, s0, [s1], rfl, h0⟩
  · obtain ⟨s1, s2, t2, rfl, a, b, ha, hb, c, d, e, f, g⟩ := h
    rw [g]
    refine ⟨[s0, s1, s2], t2, rfl, rfl, by simp,
      EncodeRune_three s0 s1 s2 ⟨a, b⟩ ⟨c, d⟩ ha hb ⟨e, f⟩, by omega,
      fun u => DecodeRune_three s0 s1 s2 u ⟨a, b⟩ ⟨c, d⟩ ha hb ⟨e, f⟩, s0, [s1, s2], rfl, h0⟩
  · obtain ⟨s1, s2, s3, t3, rfl, a, b, ha, hb, c, d, e, f, g, i, j⟩ := h
    rw [j]
    refine ⟨[s0, s1, s2, s3], t3, rfl, rfl, by simp,
      EncodeRune_four s0 s1 s2 s3 ⟨a, b⟩ ⟨c, d⟩ ha hb ⟨e, f⟩ ⟨g, i⟩, by omega,
      fun u => DecodeRune_four s0 s1 s2 s3 u ⟨a, b⟩ ⟨c, d⟩ ha hb ⟨e, f⟩ ⟨g, i⟩,
      s0, [s1, s2, s3], rfl, h0⟩

theorem unquoteLoop_safe (fuel b : Nat) (x t after : GoString) (hb : htmlSafeSet b = true)
    (h : unquoteLoop fuel x = some (t, after)) :
    unquoteLoop (fuel + 1) (b :: x) = some (b :: t, after) := by
  simp only [htmlSafeSet, Bool.and_eq_true, decide_eq_true_eq] at hb
  have h1 : ¬ b = 34 := by omega
  have h2 : ¬ b = 92 := by omega
  have h3 : ¬ b < 32 := by omega
  have h4 : b < 128 := by omega
  simp [unquoteLoop, h1, h2, h3, h4, h]

theorem hexValue_hexDigit : ∀ x, x < 16 → hexValue (hexDigit x) = some x := by
  decide

theorem getu4_escape (a b c d : Nat) (x : GoString) (ha : a < 16) (hb : b < 16) (hc : c < 16)
    (hd : d < 16) :
    getu4 (92 :: 117 :: hexDigit a :: hexDigit b :: hexDigit c :: hexDigit d :: x)
      = some (a * 4096 + b * 256 + c * 16 + d) := by
  simp [getu4, hexValue_hexDigit a ha, hexValue_hexDigit b hb, hexValue_hexDigit c hc,
    hexValue_hexDigit d hd]

theorem unquoteLoop_u (fuel a b c d : Nat) (x t after : GoString) (ha : a < 16) (hb : b < 16)
    (hc : c < 16) (hd : d < 16)
    (hs : ¬ (55296 ≤ a * 4096 + b * 256 + c * 16 + d ∧ a * 4096 + b * 256 + c * 16 + d < 57344))
    (h : unquoteLoop fuel x = some (t, after)) :
    unquoteLoop (fuel + 1)
        (92 :: 117 :: hexDigit a :: hexDigit b :: hexDigit c :: hexDigit d :: x)
      = some (EncodeRune (a * 4096 + b * 256 + c * 16 + d) ++ t, after) := by
  have hg := getu4_escape a b c d x ha hb hc hd
  simp only [unquoteLoop]
  simp [hg, escapedRune, hs, h]

theorem unquoteLoop_escapeByte (fuel b : Nat) (x t after : GoString) (hb : b < 128)
    (hs : htmlSafeSet b = false) (h : unquoteLoop fuel x = some (t, after)) :
    unquoteLoop (fuel + 1) (escapeByte b ++ x) = some (b :: t, after) := by
  unfold escapeByte
  by_cases h1 : b = 92 ∨ b = 34
  · rcases h1 with h1 | h1 <;> subst h1 <;> simp [unquoteLoop, h]
  rw [if_neg h1]
  by_cases h2 : b = 8
  · subst h2; simp [unquoteLoop, h]
  rw [if_neg h2]
  by_cases h3 : b = 12
  · subst h3; simp [unquoteLoop, h]
  rw [if_neg h3]
  by_cases h4 : b = 10
  · subst h4; simp [unquoteLoop, h]
  rw [if_neg h4]
  by_cases h5 : b = 13
  · subst h5; simp [unquoteLoop, h]
  rw [if_neg h5]
  by_cases h6 : b = 9
  · subst h6; simp [unquoteLoop, h]
  rw [if_neg h6]
  have hz : hexDigit 0 = 48 := by decide
  have hu := unquoteLoop_u fuel 0 0 (b / 16) (b % 16) x t after (by omega) (by omega)
    (by omega) (by omega) (by omega) h
  rw [hz] at hu
  have hv : 0 * 4096 + 0 * 256 + b / 16 * 16 + b % 16 = b := by omega
  rw [hv] at hu
  have he : EncodeRune b = [b] := by
    simp [EncodeRune, show b ≤ 127 by omega]
  rw [he] at hu
  exact hu

theorem unquoteLoop_rune (fuel : Nat) (chunk x t after : GoString) (c0 : Nat) (ct : GoString)
    (hc : chunk = c0 :: ct) (h0 : ¬ c0 < 128)
    (hd : (DecodeRuneInString (chunk ++ x)).2 = chunk.length)
    (he : EncodeRune (DecodeRuneInString (chunk ++ x)).1 = chunk)
    (h : unquoteLoop fuel x = some (t, after)) :
    unquoteLoop (fuel + 1) (chunk ++ x) = some (chunk ++ t, after) := by
  subst hc
  have h1 : ¬ c0 = 34 := by omega
  have h2 : ¬ c0 = 92 := by omega
  have h3 : ¬ c0 < 32 := by omega
  have hdrop : List.drop (DecodeRuneInString (c0 :: ct ++ x)).2 (c0 :: (ct ++ x)) = x := by
    rw [hd]
    exact List.drop_left' rfl
  simp only [List.cons_append] at he hdrop ⊢
  simp only [unquoteLoop, h1, h2, h3, h0, if_false, hdrop, h, he]
  rfl

theorem escape_2028 (c : Nat) (hc : c = 8232 ∨ c = 8233) :
    [92, 117, 50, 48, 50, hexDigit (c % 16)]
      = [92, 117, hexDigit 2, hexDigit 0, hexDigit 2, hexDigit (c % 16)]
    ∧ 2 * 4096 + 0 * 256 + 2 * 16 + c % 16 = c := by
  rcases hc with hc | hc <;> subst hc <;> decide

theorem escapeByte_length (b : Nat) : 1 ≤ (escapeByte b).length := by
  unfold escapeByte
  split_ifs <;> simp

theorem unquote_appendString (n : Nat) : ∀ s : GoString, s.length ≤ n →
    validLoop n s = true → ∀ (rest : GoString) (fuel : Nat),
    (appendStringLoop n s).length < fuel →
    unquoteLoop fuel (appendStringLoop n s ++ 34 :: rest) = some (s, rest) := by
  induction n with
  | zero =>
    intro s hlen _ rest fuel hfuel
    have hs : s = [] := List.length_eq_zero.mp (by omega)
    subst hs
    obtain ⟨f, rfl⟩ : ∃ f, fuel = f + 1 := ⟨fuel - 1, by omega⟩
    simp [appendStringLoop, unquoteLoop]
  | succ n ih =>
    intro s hlen hvalid rest fuel hfuel
    cases s with
    | nil =>
      obtain ⟨f, rfl⟩ : ∃ f, fuel = f + 1 := ⟨fuel - 1, by omega⟩
      simp [appendStringLoop, unquoteLoop]
    | cons b t =>
      obtain ⟨f, rfl⟩ : ∃ f, fuel = f + 1 := ⟨fuel - 1, by omega⟩
      by_cases hb : b < 128
      · have hdec : DecodeRuneInString (b :: t) = (b, 1) := by
          simp [DecodeRuneInString, hb]
        have hne : ¬ (b = RuneError ∧ True) := by
          simp only [RuneError]
          omega
        have hvt : validLoop n t = true := by
          have h1 := hvalid
          simp only [validLoop, hdec, hne, if_false, List.drop_succ_cons, List.drop_zero] at h1
          exact h1
        have henc : appendStringLoop (n + 1) (b :: t)
            = (if htmlSafeSet b then [b] else escapeByte b) ++ appendStringLoop n t := by
          simp [appendStringLoop, hb]
        rw [henc] at hfuel ⊢
        have hlt : t.length ≤ n := by simpa using hlen
        have hX := escapeByte_length b
        cases hsafe : htmlSafeSet b with
        | true =>
          simp only [hsafe, if_true, List.length_append, List.length_singleton] at hfuel
          have := ih t hlt hvt rest f (by omega)
          simp only [if_true, List.cons_append, List.nil_append]
          exact unquoteLoop_safe f b _ t rest hsafe this
        | false =>
          simp only [hsafe, List.length_append] at hfuel
          have := ih t hlt hvt rest f (by simp only [Bool.false_eq_true, if_false] at hfuel; omega)
          simp only [Bool.false_eq_true, if_false, List.append_assoc]
          exact unquoteLoop_escapeByte f b _ t rest hb hsafe this
      · have hv : ¬ ((DecodeRuneInString (b :: t)).1 = RuneError
            ∧ (DecodeRuneInString (b :: t)).2 = 1) := by
          intro hc
          simp [validLoop, hc] at hvalid
        obtain ⟨chunk, r, hsplit, hclen, h2, henc, h128, hindep, c0, ct, hc0, hc128⟩ :=
          DecodeRune_valid b t hb hv
        have hdrop : List.drop (DecodeRuneInString (b :: t)).2 (b :: t) = r := by
          rw [← hclen, hsplit]
          exact List.drop_left' rfl
        have htake : List.take (DecodeRuneInString (b :: t)).2 (b :: t) = chunk := by
          rw [← hclen, hsplit]
          exact List.take_left' rfl
        have hvr : validLoop n r = true := by
          have := hvalid
          simp only [validLoop, hv, if_false, hdrop] at this
          exact this
        have hrl : r.length ≤ n := by
          have := congrArg List.length hsplit
          simp only [List.length_cons, List.length_append] at this
          simp only [List.length_cons] at hlen
          omega
        by_cases hls : (DecodeRuneInString (b :: t)).1 = 8232
            ∨ (DecodeRuneInString (b :: t)).1 = 8233
        · have hE : appendStringLoop (n + 1) (b :: t)
              = [92, 117, 50, 48, 50, hexDigit ((DecodeRuneInString (b :: t)).1 % 16)]
                ++ appendStringLoop n r := by
            simp only [appendStringLoop, hb, if_false, hv, hls, if_true, hdrop]
          rw [hE] at hfuel ⊢
          simp only [List.length_append, List.length_cons, List.length_nil] at hfuel
          have := ih r hrl hvr rest f (by omega)
          obtain ⟨e1, e2⟩ := escape_2028 _ hls
          have hu := unquoteLoop_u f 2 0 2 ((DecodeRuneInString (b :: t)).1 % 16) _ r rest
            (by omega) (by omega) (by omega) (by omega) (by rw [e2]; omega) this
          rw [e2, henc, ← hsplit] at hu
          rw [e1]
          exact hu
        · have hE : appendStringLoop (n + 1) (b :: t) = chunk ++ appendStringLoop n r := by
            simp only [appendStringLoop, hb, if_false, hv, hls, hdrop, htake]
          rw [hE] at hfuel ⊢
          simp only [List.length_append] at hfuel
          have := ih r hrl hvr rest f (by omega)
          have hu := unquoteLoop_rune f chunk (appendStringLoop n r ++ 34 :: rest) r rest c0 ct
            hc0 hc128 (by rw [hindep, hclen]) (by rw [hindep, henc]) this
          rw [List.append_assoc, hu, ← hsplit]

theorem unquote_marshalString (s rest : GoString) (hv : ValidString s = true) :
    unquoteLoop (appendStringLoop s.length s ++ 34 :: rest).length
        (appendStringLoop s.length s ++ 34 :: rest) = some (s, rest) :=
  unquote_appendString s.length s (le_refl _) hv rest _ (by simp)

theorem spanDigits_append (ds rest : GoString) (hds : ∀ d ∈ ds, 48 ≤ d ∧ d ≤ 57)
    (hrest : ∀ c r, rest = c :: r → ¬ (48 ≤ c ∧ c ≤ 57)) :
    spanDigits (ds ++ rest) = (ds, rest) := by
  induction ds with
  | nil =>
    cases rest with
    | nil => rfl
    | cons c r => simp [spanDigits, hrest c r rfl]
  | cons d ds ih =>
    have hd := hds d (by simp)
    have := ih (fun x hx => hds x (List.mem_cons_of_mem _ hx))
    simp [spanDigits, hd, this]

theorem digitsValue_formatNat (n : Nat) : digitsValue (formatNat n) = n := by
  unfold digitsValue formatNat
  rw [List.foldl_reverse]
  have hf : ∀ l : List Nat, l.foldr (fun x y => 10 * y + (x - 48)) 0
      = l.foldr (fun d acc => d - 48 + 10 * acc) 0 := by
    intro l
    induction l with
    | nil => rfl
    | cons a l ih =>
      simp only [List.foldr_cons, ih]
      omega
  exact (hf _).trans (decimalRev_value (n + 1) n (by omega))

theorem decimalRev_getLast (fuel : Nat) : ∀ n, n < fuel → 0 < n →
    (decimalRev fuel n).getLast? ≠ some 48 := by
  induction fuel with
  | zero => intro n h; omega
  | succ fuel ih =>
    intro n h hpos
    unfold decimalRev
    split
    · simp only [List.getLast?_singleton, ne_eq, Option.some.injEq]
      omega
    · have hih := ih (n / 10) (by omega) (by omega)
      cases hl : decimalRev fuel (n / 10) with
      | nil =>
        obtain ⟨f, rfl⟩ : ∃ f, fuel = f + 1 := ⟨fuel - 1, by omega⟩
        unfold decimalRev at hl
        split at hl <;> simp at hl
      | cons z zs =>
        rw [List.getLast?_cons_cons, ← hl]
        exact hih

theorem formatNat_no_leading_zero (n : Nat) :
    ¬ ((formatNat n).length > 1 ∧ (formatNat n).head? = some 48) := by
  intro h
  by_cases hn : n = 0
  · subst hn
    have : formatNat 0 = [48] := by decide
    rw [this] at h
    simp at h
  · have := decimalRev_getLast (n + 1) n (by omega) (by omega)
    unfold formatNat at h
    rw [List.head?_reverse] at h
    exact this h.2

theorem parseUint64_formatNat (n : Nat) (rest : GoString) (hn : n < 18446744073709551616)
    (hrest : ∀ c r, rest = c :: r → ¬ (48 ≤ c ∧ c ≤ 57)) :
    parseUint64 (formatNat n ++ rest) = some (n, rest) := by
  unfold parseUint64
  rw [spanDigits_append _ _ (formatNat_digits n) hrest]
  simp only [formatNat_ne_nil n, if_false, formatNat_no_leading_zero n, digitsValue_formatNat]
  simp [hn]

theorem skipSpace_formatNat (n : Nat) (rest : GoString) :
    skipSpace (formatNat n ++ rest) = formatNat n ++ rest := by
  cases h : formatNat n with
  | nil => exact absurd h (formatNat_ne_nil n)
  | cons d ds =>
    have := formatNat_digits n d (by simp [h])
    have hd : ¬ (d = 32 ∨ d = 9 ∨ d = 13 ∨ d = 10) := by omega
    simp [skipSpace, hd]

theorem marshalString_eq (k x : GoString) :
    marshalString k ++ x = 34 :: (appendStringLoop k.length k ++ 34 :: x) := by
  simp [marshalString]

theorem parseInnerMembers_member (fuel : Nat) (k : GoString) (v : Nat) (tail : GoString)
    (acc : GoMap Nat) (hk : ValidString k = true) (hv : v < 18446744073709551616) :
    parseInnerMembers (fuel + 1) (marshalString k ++ [58] ++ formatNat v ++ 44 :: tail) acc
      = parseInnerMembers fuel tail (acc.set k v)
    ∧ parseInnerMembers (fuel + 1) (marshalString k ++ [58] ++ formatNat v ++ 125 :: tail) acc
      = some (acc.set k v, tail) := by
  have key : ∀ d : Nat, d = 44 ∨ d = 125 →
      parseInnerMembers (fuel + 1) (marshalString k ++ [58] ++ formatNat v ++ d :: tail) acc
        = match d :: tail with
          | 44 :: s5 => parseInnerMembers fuel s5 (acc.set k v)
          | 125 :: s5 => some (acc.set k v, s5)
          | _ => none := by
    intro d hd
    have hin : marshalString k ++ [58] ++ formatNat v ++ d :: tail
        = 34 :: (appendStringLoop k.length k ++ 34 :: (58 :: (formatNat v ++ d :: tail))) := by
      simp [marshalString]
    have hnum : parseUint64 (formatNat v ++ d :: tail) = some (v, d :: tail) :=
      parseUint64_formatNat v (d :: tail) hv (by
        intro c r e
        simp only [List.cons.injEq] at e
        omega)
    have hsp : ¬ (d = 32 ∨ d = 9 ∨ d = 13 ∨ d = 10) := by omega
    rw [hin]
    simp only [parseInnerMembers, skipSpace, show ¬ ((34 : Nat) = 32 ∨ (34 : Nat) = 9
      ∨ (34 : Nat) = 13 ∨ (34 : Nat) = 10) by decide, if_false,
      unquote_marshalString k _ hk, show ¬ ((58 : Nat) = 32 ∨ (58 : Nat) = 9
      ∨ (58 : Nat) = 13 ∨ (58 : Nat) = 10) by decide, skipSpace_formatNat, hnum, hsp]
    rcases hd with rfl | rfl <;> rfl
  exact ⟨key 44 (Or.inl rfl), key 125 (Or.inr rfl)⟩

theorem joinMembers_cons_cons (x y : GoString) (rest : List GoString) (tail : GoString) :
    joinMembers (x :: y :: rest) ++ tail = x ++ 44 :: (joinMembers (y :: rest) ++ tail) := by
  simp [joinMembers]

theorem joinMembers_length (L : List GoString) (h : ∀ x ∈ L, x ≠ []) :
    L.length ≤ (joinMembers L).length := by
  induction L with
  | nil => simp
  | cons x L ih =>
    have hx : 1 ≤ x.length := by
      have := h x (by simp)
      cases x with
      | nil => exact absurd rfl this
      | cons a x => simp
    cases L with
    | nil => simpa [joinMembers] using hx
    | cons y L =>
      have := ih (fun z hz => h z (List.mem_cons_of_mem _ hz))
      simp only [joinMembers, List.length_append, List.length_cons, List.length_nil] at this ⊢
      omega

theorem joinMembers_head (a : Nat) (x : GoString) (L : List GoString) :
    ∃ y, joinMembers ((a :: x) :: L) = a :: y := by
  cases L with
  | nil => exact ⟨x, rfl⟩
  | cons y L => exact ⟨x ++ 44 :: joinMembers (y :: L), by simp [joinMembers]⟩

theorem parseInnerMembers_join (post : GoMap Nat) : ∀ (kv : GoString × Nat) (acc : GoMap Nat)
    (tail : GoString) (fuel : Nat), post.length < fuel →
    (∀ p ∈ kv :: post, ValidString p.1 = true ∧ p.2 < 18446744073709551616) →
    parseInnerMembers fuel
        (joinMembers ((kv :: post).map fun kv => marshalString kv.1 ++ [58] ++ formatNat kv.2)
          ++ 125 :: tail) acc
      = some ((kv :: post).foldl (fun m p => m.set p.1 p.2) acc, tail) := by
  induction post with
  | nil =>
    intro kv acc tail fuel hfuel hval
    obtain ⟨f, rfl⟩ : ∃ f, fuel = f + 1 := ⟨fuel - 1, by omega⟩
    have h := hval kv (by simp)
    simp only [List.map_cons, List.map_nil, joinMembers, List.foldl_cons, List.foldl_nil]
    exact (parseInnerMembers_member f kv.1 kv.2 tail acc h.1 h.2).2
  | cons q post ih =>
    intro kv acc tail fuel hfuel hval
    obtain ⟨f, rfl⟩ : ∃ f, fuel = f + 1 := ⟨fuel - 1, by omega⟩
    have h := hval kv (by simp)
    simp only [List.length_cons] at hfuel
    simp only [List.map_cons, joinMembers_cons_cons, List.foldl_cons]
    rw [(parseInnerMembers_member f kv.1 kv.2 _ acc h.1 h.2).1]
    have := ih q (acc.set kv.1 kv.2) tail f (by omega)
      (fun p hp => hval p (List.mem_cons_of_mem _ hp))
    simp only [List.map_cons, List.foldl_cons] at this
    exact this

theorem marshalString_cons (k : GoString) : ∃ y, marshalString k = 34 :: y :=
  ⟨appendStringLoop k.length k ++ [34], by simp [marshalString]⟩

theorem parseInner_marshalInner (m : GoMap Nat) (d : Nat) (tail : GoString)
    (hs : GoMap.sorted m = true)
    (hval : ∀ p ∈ m, ValidString p.1 = true ∧ p.2 < 18446744073709551616) :
    parseInner (marshalInner m ++ d :: tail) = some (m, d :: tail) := by
  cases m with
  | nil => simp [parseInner, marshalInner, joinMembers, skipSpace]
  | cons kv post =>
    obtain ⟨y, hy⟩ := marshalString_cons kv.1
    obtain ⟨z, hz⟩ := joinMembers_head 34 (y ++ [58] ++ formatNat kv.2)
      (post.map fun kv => marshalString kv.1 ++ [58] ++ formatNat kv.2)
    have hJ : joinMembers ((kv :: post).map fun kv => marshalString kv.1 ++ [58] ++ formatNat kv.2)
        = 34 :: z := by
      simp only [List.map_cons, hy, List.cons_append]
      exact hz
    have hlen : post.length < (joinMembers ((kv :: post).map fun kv =>
        marshalString kv.1 ++ [58] ++ formatNat kv.2) ++ 125 :: d :: tail).length := by
      have := joinMembers_length ((kv :: post).map fun kv =>
        marshalString kv.1 ++ [58] ++ formatNat kv.2) (by
          intro x hx
          simp only [List.mem_map] at hx
          obtain ⟨p, _, rfl⟩ := hx
          obtain ⟨y2, hy2⟩ := marshalString_cons p.1
          simp [hy2])
      simp only [List.length_map, List.length_cons, List.length_append] at this ⊢
      omega
    have hmain := parseInnerMembers_join post kv [] (d :: tail) _ hlen hval
    have hfold := GoMap.foldl_set_sorted (kv :: post) [] (by simpa using hs)
    rw [hfold] at hmain
    have hin : marshalInner (kv :: post) ++ d :: tail
        = 123 :: (joinMembers ((kv :: post).map fun kv =>
            marshalString kv.1 ++ [58] ++ formatNat kv.2) ++ 125 :: d :: tail) := by
      simp [marshalInner]
    rw [hin]
    unfold parseInner
    simp only [skipSpace, show ¬ ((123 : Nat) = 32 ∨ (123 : Nat) = 9 ∨ (123 : Nat) = 13
      ∨ (123 : Nat) = 10) by decide, if_false]
    rw [hJ] at hmain ⊢
    simp only [List.cons_append, skipSpace, show ¬ ((34 : Nat) = 32 ∨ (34 : Nat) = 9
      ∨ (34 : Nat) = 13 ∨ (34 : Nat) = 10) by decide, if_false]
    simp only [List.cons_append, List.nil_append] at hmain
    exact hmain

theorem parseStorageMembers_member (fuel : Nat) (k : GoString) (m : GoMap Nat)
    (tail : GoString) (acc : Storage) (hk : ValidString k = true)
    (hs : GoMap.sorted m = true)
    (hval : ∀ p ∈ m, ValidString p.1 = true ∧ p.2 < 18446744073709551616) :
    parseStorageMembers (fuel + 1) (marshalString k ++ [58] ++ marshalInner m ++ 44 :: tail) acc
      = parseStorageMembers fuel tail (acc.set k m)
    ∧ parseStorageMembers (fuel + 1) (marshalString k ++ [58] ++ marshalInner m ++ 125 :: tail)
        acc = some (acc.set k m, tail) := by
  have key : ∀ d : Nat, d = 44 ∨ d = 125 →
      parseStorageMembers (fuel + 1) (marshalString k ++ [58] ++ marshalInner m ++ d :: tail) acc
        = match d :: tail with
          | 44 :: s5 => parseStorageMembers fuel s5 (acc.set k m)
          | 125 :: s5 => some (acc.set k m, s5)
          | _ => none := by
    intro d hd
    have hin : marshalString k ++ [58] ++ marshalInner m ++ d :: tail
        = 34 :: (appendStringLoop k.length k ++ 34 :: (58 :: (marshalInner m ++ d :: tail))) := by
      simp [marshalString]
    have hobj := parseInner_marshalInner m d tail hs hval
    have hsp : ¬ (d = 32 ∨ d = 9 ∨ d = 13 ∨ d = 10) := by omega
    rw [hin]
    simp only [parseStorageMembers, skipSpace, show ¬ ((34 : Nat) = 32 ∨ (34 : Nat) = 9
      ∨ (34 : Nat) = 13 ∨ (34 : Nat) = 10) by decide, if_false,
      unquote_marshalString k _ hk, show ¬ ((58 : Nat) = 32 ∨ (58 : Nat) = 9
      ∨ (58 : Nat) = 13 ∨ (58 : Nat) = 10) by decide, hobj, hsp]
    rcases hd with rfl | rfl <;> rfl
  exact ⟨key 44 (Or.inl rfl), key 125 (Or.inr rfl)⟩

theorem parseStorageMembers_join (post : Storage) : ∀ (kv : GoString × GoMap Nat)
    (acc : Storage) (tail : GoString) (fuel : Nat), post.length < fuel →
    (∀ p ∈ kv :: post, ValidString p.1 = true ∧ GoMap.sorted p.2 = true
      ∧ ∀ q ∈ p.2, ValidString q.1 = true ∧ q.2 < 18446744073709551616) →
    parseStorageMembers fuel
        (joinMembers ((kv :: post).map fun kv => marshalString kv.1 ++ [58] ++ marshalInner kv.2)
          ++ 125 :: tail) acc
      = some ((kv :: post).foldl (fun m p => m.set p.1 p.2) acc, tail) := by
  induction post with
  | nil =>
    intro kv acc tail fuel hfuel hval
    obtain ⟨f, rfl⟩ : ∃ f, fuel = f + 1 := ⟨fuel - 1, by omega⟩
    have h := hval kv (by simp)
    simp only [List.map_cons, List.map_nil, joinMembers, List.foldl_cons, List.foldl_nil]
    exact (parseStorageMembers_member f kv.1 kv.2 tail acc h.1 h.2.1 h.2.2).2
  | cons q post ih =>
    intro kv acc tail fuel hfuel hval
    obtain ⟨f, rfl⟩ : ∃ f, fuel = f + 1 := ⟨fuel - 1, by omega⟩
    have h := hval kv (by simp)
    simp only [List.length_cons] at hfuel
    simp only [List.map_cons, joinMembers_cons_cons, List.foldl_cons]
    rw [(parseStorageMembers_member f kv.1 kv.2 _ acc h.1 h.2.1 h.2.2).1]
    have := ih q (acc.set kv.1 kv.2) tail f (by omega)
      (fun p hp => hval p (List.mem_cons_of_mem _ hp))
    simp only [List.map_cons, List.foldl_cons] at this
    exact this

theorem Storage.wellFormed_iff (storage : Storage) :
    storage.wellFormed = true ↔
      GoMap.sorted storage = true
      ∧ ∀ p ∈ storage, ValidString p.1 = true ∧ GoMap.sorted p.2 = true
        ∧ ∀ q ∈ p.2, ValidString q.1 = true ∧ q.2 < 18446744073709551616 := by
  simp [Storage.wellFormed, List.all_eq_true, and_assoc]

theorem unmarshal_marshalStorage (storage : Storage) (h : storage.wellFormed = true) :
    unmarshalStorage (marshalStorage storage) [] = some storage := by
  obtain ⟨hs, hval⟩ := (Storage.wellFormed_iff storage).1 h
  cases storage with
  | nil => simp [unmarshalStorage, marshalStorage, joinMembers, skipSpace]
  | cons kv post =>
    obtain ⟨y, hy⟩ := marshalString_cons kv.1
    obtain ⟨z, hz⟩ := joinMembers_head 34 (y ++ [58] ++ marshalInner kv.2)
      (post.map fun (kv : GoString × GoMap Nat) =>
        marshalString kv.1 ++ [58] ++ marshalInner kv.2)
    have hJ : joinMembers ((kv :: post).map fun (kv : GoString × GoMap Nat) =>
        marshalString kv.1 ++ [58] ++ marshalInner kv.2) = 34 :: z := by
      simp only [List.map_cons, hy, List.cons_append]
      exact hz
    have hlen : post.length < (joinMembers ((kv :: post).map fun (kv : GoString × GoMap Nat) =>
        marshalString kv.1 ++ [58] ++ marshalInner kv.2) ++ [125]).length := by
      have := joinMembers_length ((kv :: post).map fun (kv : GoString × GoMap Nat) =>
        marshalString kv.1 ++ [58] ++ marshalInner kv.2) (by
          intro x hx
          simp only [List.mem_map] at hx
          obtain ⟨p, _, rfl⟩ := hx
          obtain ⟨y2, hy2⟩ := marshalString_cons p.1
          simp [hy2])
      simp only [List.length_map, List.length_cons, List.length_append] at this ⊢
      omega
    have hmain := parseStorageMembers_join post kv [] [] _ hlen hval
    have hfold := GoMap.foldl_set_sorted (kv :: post) [] (by simpa using hs)
    rw [hfold] at hmain
    have hin : marshalStorage (kv :: post)
        = 123 :: (joinMembers ((kv :: post).map fun (kv : GoString × GoMap Nat) =>
            marshalString kv.1 ++ [58] ++ marshalInner kv.2) ++ [125]) := by
      simp [marshalStorage]
    rw [hin]
    unfold unmarshalStorage
    simp only [skipSpace, show ¬ ((123 : Nat) = 32 ∨ (123 : Nat) = 9 ∨ (123 : Nat) = 13
      ∨ (123 : Nat) = 10) by decide, if_false]
    rw [hJ] at hmain ⊢
    simp only [List.cons_append, skipSpace, show ¬ ((34 : Nat) = 32 ∨ (34 : Nat) = 9
      ∨ (34 : Nat) = 13 ∨ (34 : Nat) = 10) by decide, if_false]
    simp only [List.cons_append, List.nil_append] at hmain
    rw [hmain]
    simp [skipSpace]

theorem marshalStorage_length (storage : Storage) : 0 < (marshalStorage storage).length := by
  simp [marshalStorage]

/-- C7 fails as stated: the ledger that holds the timestamp 100 for the file of server
`alpha` whose name is the byte 255 followed by `.csv`, a name that is not well-formed
UTF-8. `SaveFilesInfo` writes the name as the escape of U+FFFD, and loading the file
gives a ledger with the name U+FFFD `.csv`, which is another ledger. -/
theorem ledger_roundtrip_counterexample :
    LoadInfoDownloadedFile
        (SaveFilesInfo
          { mainInit [(ascii "alpha", [([255, 46, 99, 115, 118], 100)])] false with
            logJson := [] }).logJson []
      = some [(ascii "alpha", [([239, 191, 189, 46, 99, 115, 118], 100)])]
    ∧ (SaveFilesInfo
          { mainInit [(ascii "alpha", [([255, 46, 99, 115, 118], 100)])] false with
            logJson := [] }).logJson
      = ascii "\x7b\"alpha\":\x7b\"\\ufffd.csv\":100\x7d\x7d"
    ∧ LoadInfoDownloadedFile
        (SaveFilesInfo
          { mainInit [(ascii "alpha", [([255, 46, 99, 115, 118], 100)])] false with
            logJson := [] }).logJson []
      ≠ some [(ascii "alpha", [([255, 46, 99, 115, 118], 100)])] := by
  decide

/-- C7, amended: for every ledger whose server names and file names are well-formed
UTF-8 (with the keys of its maps in ascending order, as the program keeps them, and
timestamps below `2 ^ 64`), loading into an empty ledger the bytes that `SaveFilesInfo`
writes gives back the ledger. -/
theorem ledger_roundtrip (w : World) (h : w.storage.wellFormed = true) :
    LoadInfoDownloadedFile (SaveFilesInfo w).logJson [] = some w.storage := by
  unfold LoadInfoDownloadedFile SaveFilesInfo
  simp only [marshalStorage_length, if_true]
  exact unmarshal_marshalStorage w.storage h

/-- A witness of the amended C7: a ledger with two servers and names that need
escapes. -/
theorem ledger_roundtrip_witness :
    LoadInfoDownloadedFile
        (SaveFilesInfo
          (mainInit [(ascii "alpha", [(ascii "a<b>.csv", 17), ([195, 169, 46, 99], 18)]),
            (ascii "beta", [])] false)).logJson []
      = some (mainInit [(ascii "alpha", [(ascii "a<b>.csv", 17), ([195, 169, 46, 99], 18)]),
            (ascii "beta", [])] false).storage :=
  ledger_roundtrip
    (mainInit [(ascii "alpha", [(ascii "a<b>.csv", 17), ([195, 169, 46, 99], 18)]),
      (ascii "beta", [])] false) (by decide)

/-! ### The order of the keys is kept by the program -/

theorem toUint64_lt (x : Int) : toUint64 x < 18446744073709551616 := by
  unfold toUint64
  omega

theorem Storage.wellFormed_set (storage : Storage) (serverName : GoString) (inner : GoMap Nat)
    (h : storage.wellFormed = true) (hs : ValidString serverName = true)
    (hi : GoMap.sorted inner = true)
    (hv : ∀ q ∈ inner, ValidString q.1 = true ∧ q.2 < 18446744073709551616) :
    Storage.wellFormed (GoMap.set storage serverName inner) = true := by
  rw [Storage.wellFormed_iff] at h ⊢
  refine ⟨GoMap.sorted_set _ _ _ h.1, ?_⟩
  intro p hp
  rcases GoMap.mem_set storage serverName inner p hp with hp | hp
  · exact h.2 p hp
  · subst hp
    exact ⟨hs, hi, hv⟩

theorem inner_set_valid (inner : GoMap Nat) (name : GoString) (t : Int)
    (hi : GoMap.sorted inner = true)
    (hv : ∀ q ∈ inner, ValidString q.1 = true ∧ q.2 < 18446744073709551616)
    (hn : ValidString name = true) :
    GoMap.sorted (inner.set name (toUint64 t)) = true
    ∧ ∀ q ∈ inner.set name (toUint64 t), ValidString q.1 = true ∧ q.2 < 18446744073709551616 := by
  refine ⟨GoMap.sorted_set _ _ _ hi, ?_⟩
  intro q hq
  rcases GoMap.mem_set inner name (toUint64 t) q hq with hq | hq
  · exact hv q hq
  · subst hq
    exact ⟨hn, toUint64_lt t⟩

/-- The detect step keeps the ledger well formed when the names of the server and of the
file are well-formed UTF-8. -/
theorem detect_wellFormed (storage : Storage) (clientConf : Server) (f : Entry)
    (h : storage.wellFormed = true) (hs : ValidString clientConf.ServerName = true)
    (hn : ValidString f.Name = true) :
    (detect storage clientConf f).1.wellFormed = true := by
  have hnil := inner_set_valid [] f.Name f.Time rfl (by simp) hn
  cases h1 : storage.get clientConf.ServerName with
  | none =>
    rw [detect_noServer _ _ _ h1]
    have hw1 : Storage.wellFormed (GoMap.set storage clientConf.ServerName []) = true :=
      Storage.wellFormed_set storage _ [] h hs rfl (by simp)
    simp only [UpdateMap, h1, GoMap.get_set_same]
    exact Storage.wellFormed_set _ _ _ hw1 hs hnil.1 hnil.2
  | some inner =>
    have hin := ((Storage.wellFormed_iff storage).1 h).2 _ (GoMap.get_mem _ _ _ h1)
    have hset := inner_set_valid inner f.Name f.Time hin.2.1 hin.2.2 hn
    cases h2 : inner.get f.Name with
    | none =>
      rw [detect_noFile _ _ _ _ h1 h2]
      exact Storage.wellFormed_set _ _ _ h hs hset.1 hset.2
    | some saved =>
      by_cases h3 : toUint64 f.Time > saved
      · rw [detect_newer _ _ _ _ _ h1 h2 h3]
        exact Storage.wellFormed_set _ _ _ h hs hset.1 hset.2
      · rw [detect_notNewer _ _ _ _ _ h1 h2 h3]
        exact h

/-! ### The attempts of `NewClientCloudStorage` (C11) -/

theorem newClientLoop_spec (cs : CloudStorage) (newClientOk : Nat → Bool) (k : Nat) :
    ∀ (fuel : Nat) (i : Int) (calls : Nat), k < fuel →
    (∀ j < k, newClientOk (calls + j) = false) →
    (∀ j : Nat, j < k → i + j ≠ cs.ConnectionAttempts) →
    (newClientOk (calls + k) = true →
      newClientLoop cs newClientOk fuel i calls = some (true, calls + k + 1))
    ∧ (newClientOk (calls + k) = false → i + k = cs.ConnectionAttempts →
      newClientLoop cs newClientOk fuel i calls = some (false, calls + k + 1)) := by
  induction k with
  | zero =>
    intro fuel i calls hfuel _ _
    obtain ⟨fuel, rfl⟩ : ∃ n, fuel = n + 1 := ⟨fuel - 1, by omega⟩
    constructor
    · intro h
      simp only [Nat.add_zero] at h
      simp [newClientLoop, h]
    · intro h hN
      simp only [Nat.add_zero] at h
      simp only [Nat.cast_zero, add_zero] at hN
      simp [newClientLoop, h, hN]
  | succ k ih =>
    intro fuel i calls hfuel hfail hne
    obtain ⟨fuel, rfl⟩ : ∃ n, fuel = n + 1 := ⟨fuel - 1, by omega⟩
    have h0 : newClientOk calls = false := by
      have := hfail 0 (by omega)
      simpa using this
    have hN : i ≠ cs.ConnectionAttempts := by
      have := hne 0 (by omega)
      simpa using this
    have ih1 := ih fuel (i + 1) (calls + 1) (by omega)
      (by
        intro j hj
        have := hfail (j + 1) (by omega)
        rw [show calls + 1 + j = calls + (j + 1) by omega]
        exact this)
      (by
        intro j hj
        have := hne (j + 1) (by omega)
        intro hc
        apply this
        push_cast
        omega)
    rw [show calls + 1 + k = calls + (k + 1) by omega] at ih1
    have hstep : newClientLoop cs newClientOk (fuel + 1) i calls
        = newClientLoop cs newClientOk fuel (i + 1) (calls + 1) := by
      simp [newClientLoop, h0, hN]
    rw [hstep]
    constructor
    · exact ih1.1
    · intro h hc
      apply ih1.2 h
      push_cast at hc
      omega

/-- C11: what `NewClientCloudStorage` does for a ceiling `N = cs.ConnectionAttempts` that
is not negative. The call of `storage.NewClient` that is the first to succeed, when it
is among the first `N + 1` calls, ends the function with `(client, nil)`. When the first
`N + 1` calls all fail the function returns `(nil, error)` after exactly `N + 1` calls:
the counter `i` starts at 0 and is compared with `N` after a call has failed, so one
call more than `N` is made. -/
theorem NewClientCloudStorage_attempts (cs : CloudStorage) (newClientOk : Nat → Bool)
    (k fuel : Nat) (hfail : ∀ j < k, newClientOk j = false) (hfuel : k < fuel) :
    ((k : Int) ≤ cs.ConnectionAttempts → newClientOk k = true →
      NewClientCloudStorage cs newClientOk fuel = some (true, k + 1))
    ∧ ((k : Int) = cs.ConnectionAttempts → newClientOk k = false →
      NewClientCloudStorage cs newClientOk fuel = some (false, k + 1)) := by
  have hfail2 : ∀ j < k, newClientOk (0 + j) = false := by
    intro j hj
    rw [Nat.zero_add]
    exact hfail j hj
  constructor
  · intro hk hok
    have h := (newClientLoop_spec cs newClientOk k fuel 0 0 hfuel hfail2
      (by intro j hj; omega)).1 (by rw [Nat.zero_add]; exact hok)
    rw [Nat.zero_add] at h
    exact h
  · intro hk hok
    have h := (newClientLoop_spec cs newClientOk k fuel 0 0 hfuel hfail2
      (by intro j hj; omega)).2 (by rw [Nat.zero_add]; exact hok) (by omega)
    rw [Nat.zero_add] at h
    exact h

/-- A witness of C11, and the input on which the code leaves it: with the ceiling 1 and
every call failing, two calls of `storage.NewClient` are made before the error is
returned. -/
theorem NewClientCloudStorage_attempts_witness :
    NewClientCloudStorage { cloudConf 1 with ConnectionAttempts := 1 } (fun _ => false) 2
      = some (false, 1 + 1) :=
  (NewClientCloudStorage_attempts { cloudConf 1 with ConnectionAttempts := 1 }
    (fun _ => false) 1 2 (fun _ _ => rfl) (by decide)).2 (by decide) rfl

/-! ### The lock (C12) -/

theorem checkTrace_append (guarded : Event → Bool) (a b : List Event) :
    ∀ held : Bool, checkTrace guarded held (a ++ b)
      = (checkTrace guarded held a).bind fun h => checkTrace guarded h b := by
  induction a with
  | nil => intro held; rfl
  | cons e es ih =>
    intro held
    cases e with
    | lock =>
      simp only [List.cons_append, checkTrace]
      exact ih _
    | unlock =>
      simp only [List.cons_append, checkTrace]
      exact ih _
    | read what =>
      simp only [List.cons_append, checkTrace]
      split
      · rfl
      · exact ih _
    | write what =>
      simp only [List.cons_append, checkTrace]
      split
      · rfl
      · exact ih _

theorem detectEvents_writes (storage : Storage) (clientConf : Server) (f : Entry) :
    checkTrace writeOrSnapshot false (detectEvents storage clientConf f) = some false := by
  unfold detectEvents UpdateMapEvents
  repeat' split
  all_goals simp [checkTrace, writeOrSnapshot]

theorem loopBodyEvents_writes (clientConf : Server) (w : World) (f : Entry) :
    checkTrace writeOrSnapshot false (loopBodyEvents clientConf w f) = some false := by
  unfold loopBodyEvents
  split
  · split
    · exact detectEvents_writes _ _ _
    · rfl
  · rfl

theorem pollFilesEvents_writes (clientConf : Server) (files : List (Entry × FileOutcome)) :
    ∀ w : World,
      checkTrace writeOrSnapshot false (pollFilesEvents clientConf w files) = some false := by
  induction files with
  | nil => intro w; rfl
  | cons p files ih =>
    intro w
    obtain ⟨f, out⟩ := p
    simp only [pollFilesEvents]
    rw [checkTrace_append, loopBodyEvents_writes]
    simp only [Option.some_bind]
    split
    · rfl
    · exact ih _

theorem detectEvents_head (storage : Storage) (clientConf : Server) (f : Entry) :
    ∃ es, detectEvents storage clientConf f = .read .hostPresent :: es :=
  ⟨_, rfl⟩

/-- C12: the lock over the events of one round of a poller. Every write of the ledger
(the creation of the map of a server, the store of a timestamp) and the snapshot of
`SaveFilesInfo` happen while the poller holds the mutex, and the mutex is free at the
end of the round. The reads of the detect step do not: the check that the server is
present (`main.go` line 90), the check that the file is present (line 93) and the
comparison of the timestamps (line 95) come before `m.Lock()`, so a round that handles
an entry of kind `file` passing the filter has an access outside the lock. -/
theorem lock_discipline (clientConf : Server) (w : World) (f : Entry) (out : FileOutcome)
    (rest : List (Entry × FileOutcome)) (listing : Option (List (Entry × FileOutcome))) :
    checkTrace writeOrSnapshot false (pollCycleEvents clientConf w listing) = some false
    ∧ (f.Typ = .EntryTypeFile → extensionMatches clientConf f = true →
        checkTrace anyAccess false
          (pollCycleEvents clientConf w (some ((f, out) :: rest))) = none)
    ∧ (f.Typ = .EntryTypeFile → extensionMatches clientConf f = true →
        ∃ es, pollCycleEvents clientConf w (some ((f, out) :: rest))
          = .read .hostPresent :: es) := by
  refine ⟨?_, ?_, ?_⟩
  · cases listing with
    | none => rfl
    | some files =>
      simp only [pollCycleEvents]
      rw [checkTrace_append, pollFilesEvents_writes]
      rfl
  · intro hfile hext
    have hfile2 : f.Typ.String = ascii "file" := (EntryType.String_eq_file _).2 hfile
    obtain ⟨es, hes⟩ := detectEvents_head w.storage clientConf f
    simp only [pollCycleEvents, pollFilesEvents, loopBodyEvents, hfile2, hext, if_true, hes,
      List.cons_append, checkTrace, anyAccess]
    rfl
  · intro hfile hext
    have hfile2 : f.Typ.String = ascii "file" := (EntryType.String_eq_file _).2 hfile
    obtain ⟨es, hes⟩ := detectEvents_head w.storage clientConf f
    simp only [pollCycleEvents, pollFilesEvents, loopBodyEvents, hfile2, hext, if_true, hes,
      List.cons_append]
    exact ⟨_, rfl⟩

/-- A witness of C12, and the input on which the code leaves it: server `alpha` lists
the file `report.csv`, already recorded with an older timestamp. The three reads of the
detect step come first, outside the lock. -/
theorem lock_discipline_witness :
    checkTrace anyAccess false
        (pollCycleEvents alphaCsv (mainInit [(ascii "alpha", [(ascii "report.csv", 100)])] false)
          (some ((fileEntry "report.csv" 200, allOk) :: []))) = none
    ∧ pollCycleEvents alphaCsv (mainInit [(ascii "alpha", [(ascii "report.csv", 100)])] false)
          (some ((fileEntry "report.csv" 200, allOk) :: []))
        = [.read .hostPresent, .read .filePresent, .read .timestampCompare,
            .lock, .write .timestampStore, .unlock, .lock, .read .snapshot, .unlock] :=
  ⟨(lock_discipline alphaCsv (mainInit [(ascii "alpha", [(ascii "report.csv", 100)])] false)
      (fileEntry "report.csv" 200) allOk [] none).2.1 rfl (by decide),
    by decide⟩

/-! ### Signed times and the conversion to `uint64` (C13) -/

theorem detect_of_record (storage : Storage) (clientConf : Server) (f : Entry) (saved : Nat)
    (h : storage.record clientConf.ServerName f.Name = some saved) :
    (detect storage clientConf f).2 = decide (toUint64 f.Time > saved) := by
  unfold Storage.record at h
  cases h1 : storage.get clientConf.ServerName with
  | none => simp [h1] at h
  | some inner =>
    simp only [h1] at h
    by_cases h3 : toUint64 f.Time > saved
    · rw [detect_newer _ _ _ _ _ h1 h h3]
      simp [h3]
    · rw [detect_notNewer _ _ _ _ _ h1 h h3]
      simp [h3]

theorem toUint64_nonneg (t : Int) (h0 : 0 ≤ t) (h1 : t < 9223372036854775808) :
    (toUint64 t : Int) = t := by
  unfold toUint64
  omega

theorem toUint64_neg (t : Int) (h0 : t < 0) (h1 : -9223372036854775808 ≤ t) :
    (toUint64 t : Int) = t + 18446744073709551616 := by
  unfold toUint64
  omega

/-- C13: update detection and the signed times. A file recorded from a listing with the
time `t1` and listed again with the time `t2` is marked as updated exactly when
`uint64(t2) > uint64(t1)`. For signed 64-bit times of the same sign that is `t2 > t1`.
For times of different signs it is the opposite: after a negative `t1` (such as the
time of an entry whose time is not set) no time `t2 >= 0` marks the file, although
`t2 > t1`, and after a `t1 >= 0` every negative `t2` marks it, although `t2 < t1`. -/
theorem detect_signed_times (storage : Storage) (clientConf : Server) (f1 f2 : Entry)
    (hname : f2.Name = f1.Name) (hrec : (detect storage clientConf f1).2 = true)
    (h1 : -9223372036854775808 ≤ f1.Time ∧ f1.Time < 9223372036854775808)
    (h2 : -9223372036854775808 ≤ f2.Time ∧ f2.Time < 9223372036854775808) :
    ((detect (detect storage clientConf f1).1 clientConf f2).2 = true
        ↔ toUint64 f2.Time > toUint64 f1.Time)
    ∧ ((0 ≤ f1.Time ↔ 0 ≤ f2.Time) →
        ((detect (detect storage clientConf f1).1 clientConf f2).2 = true
          ↔ f2.Time > f1.Time))
    ∧ (f1.Time < 0 → 0 ≤ f2.Time →
        (detect (detect storage clientConf f1).1 clientConf f2).2 = false ∧ f2.Time > f1.Time)
    ∧ (0 ≤ f1.Time → f2.Time < 0 →
        (detect (detect storage clientConf f1).1 clientConf f2).2 = true ∧ f2.Time < f1.Time) := by
  have hr := detect_record_same storage clientConf f1 hrec
  rw [← hname] at hr
  have hd := detect_of_record _ clientConf f2 _ hr
  have key : (detect (detect storage clientConf f1).1 clientConf f2).2 = true
      ↔ toUint64 f2.Time > toUint64 f1.Time := by
    rw [hd]
    simp
  have keyF : (detect (detect storage clientConf f1).1 clientConf f2).2 = false
      ↔ ¬ toUint64 f2.Time > toUint64 f1.Time := by
    rw [hd]
    simp
  have e1 : (0 ≤ f1.Time → (toUint64 f1.Time : Int) = f1.Time) :=
    fun h => toUint64_nonneg _ h h1.2
  have e2 : (0 ≤ f2.Time → (toUint64 f2.Time : Int) = f2.Time) :=
    fun h => toUint64_nonneg _ h h2.2
  have e3 : (f1.Time < 0 → (toUint64 f1.Time : Int) = f1.Time + 18446744073709551616) :=
    fun h => toUint64_neg _ h h1.1
  have e4 : (f2.Time < 0 → (toUint64 f2.Time : Int) = f2.Time + 18446744073709551616) :=
    fun h => toUint64_neg _ h h2.1
  refine ⟨key, ?_, ?_, ?_⟩
  · intro hs
    rw [key]
    by_cases hp : 0 ≤ f1.Time
    · have a := e1 hp
      have b := e2 (hs.1 hp)
      omega
    · have a := e3 (by omega)
      have b := e4 (by
        by_contra hc
        exact hp (hs.2 (by omega)))
      omega
  · intro hn hp
    rw [keyF]
    have a := e3 hn
    have b := e2 hp
    omega
  · intro hp hn
    rw [key]
    have a := e1 hp
    have b := e4 hn
    omega

/-- A witness of C13, and the input on which the code leaves it: `report.csv` is first
listed without a time (the zero `time.Time`, whose Unix time is -62135596800) and then
with the time 1700000000. The second listing does not mark the file as updated. -/
theorem detect_signed_times_witness :
    (detect (detect [] alphaCsv (fileEntry "report.csv" (-62135596800))).1 alphaCsv
        (fileEntry "report.csv" 1700000000)).2 = false
      ∧ (fileEntry "report.csv" 1700000000).Time > (fileEntry "report.csv" (-62135596800)).Time :=
  (detect_signed_times [] alphaCsv (fileEntry "report.csv" (-62135596800))
    (fileEntry "report.csv" 1700000000) rfl (by decide) (by decide) (by decide)).2.2.1
    (by decide) (by decide)

end FTPConnector
